import Mathlib

/-!
# Signed distance field generator (`sdf.go`)

A shallow embedding of the distance transform (`generateSDF`), the compositor
(`GenerateFromImage`) and the blender (`BlendSDF`, `blendPair`) of `sdf.go`,
followed by theorems about them.

Conventions of the embedding

* Go `int` values are modelled by `Int`.  Every grid the theorems speak about
  starts from cells `(0,0)` and `(9999,9999)`; squared lengths never exceed
  `2 * 9999 ^ 2 < 2 ^ 31`, so no machine overflow can occur.  The one statement
  about arbitrary vectors (the comparison step) uses `compare64`, in which every
  `int` operation wraps to 64 bits.
* A `[][]Point` slice is a list of rows.  Indexing `grid[y][x]` is only
  evaluated in range when the grid has `HEIGHT` rows of `WIDTH` cells
  (`WellFormed`), which every theorem assumes; out of range the model reads the
  zero `Point` and ignores a write, where Go would stop with a run-time error.
* Loops `for i := 0; i < n; i++` are folds over `List.range n`, descending
  loops are folds over the reversed range.
-/

namespace SDF

/-! ## Data model -/

/-- Source `type Point struct { dx, dy int }`. -/
structure Point where
  dx : Int
  dy : Int
  deriving DecidableEq, Repr

instance : Inhabited Point := ⟨⟨0, 0⟩⟩

/-- Source `func (p Point) distSq() int`. -/
def Point.distSq (p : Point) : Int :=
  p.dx * p.dx + p.dy * p.dy

/-- A `[][]Point` value: a list of rows. -/
abbrev Grid := List (List Point)

/-- Source `type SDFGenerator struct`. -/
structure SDFGenerator where
  WIDTH : Nat
  HEIGHT : Nat
  empty : Point
  inside : Point
  grid1 : Grid
  grid2 : Grid

/-- Source `NewSDFGenerator`: the sentinels are `(9999,9999)` and `(0,0)`. -/
def NewSDFGenerator : SDFGenerator :=
  { WIDTH := 0, HEIGHT := 0, empty := ⟨9999, 9999⟩, inside := ⟨0, 0⟩, grid1 := [], grid2 := [] }

/-- The generator after `GenerateFromImage` has stored the image size. -/
def sized (W H : Nat) : SDFGenerator :=
  { NewSDFGenerator with WIDTH := W, HEIGHT := H }

/-- The read `grid[y][x]`. -/
def Grid.cell (grid : Grid) (x y : Nat) : Point :=
  (grid.getD y []).getD x default

/-- The write `grid[y][x] = p`. -/
def Grid.put (grid : Grid) (x y : Nat) (p : Point) : Grid :=
  grid.set y ((grid.getD y []).set x p)

/-- The grid has `HEIGHT` rows of `WIDTH` cells each. -/
def WellFormed (g : SDFGenerator) (grid : Grid) : Prop :=
  grid.length = g.HEIGHT ∧ ∀ row ∈ grid, row.length = g.WIDTH

instance (g : SDFGenerator) (grid : Grid) : Decidable (WellFormed g grid) := by
  unfold WellFormed; infer_instance

/-! ## The distance transform -/

/-- Source `getPoint`. -/
def getPoint (g : SDFGenerator) (grid : Grid) (x y : Int) : Point :=
  if x ≥ 0 ∧ x < g.WIDTH ∧ y ≥ 0 ∧ y < g.HEIGHT then
    grid.cell x.toNat y.toNat
  else
    g.empty

/-- Source `compare`. -/
def compare (g : SDFGenerator) (grid : Grid) (p : Point) (x y offsetX offsetY : Int) : Point :=
  let other := getPoint g grid (x + offsetX) (y + offsetY)
  let other : Point := { dx := other.dx + offsetX, dy := other.dy + offsetY }
  if other.distSq < p.distSq then other else p

/-- The inner `for _, offset := range offsets { p = g.compare(...) }` loop. -/
def compareAll (g : SDFGenerator) (grid : Grid) (p : Point) (x y : Int)
    (offsets : List (Int × Int)) : Point :=
  offsets.foldl (fun p offset => compare g grid p x y offset.1 offset.2) p

/-- One iteration of a sweep: read `grid[y][x]`, compare it against the given
offsets, write the result back. -/
def relax (g : SDFGenerator) (offsets : List (Int × Int)) (y : Nat) (grid : Grid) (x : Nat) :
    Grid :=
  grid.put x y (compareAll g grid (grid.cell x y) x y offsets)

/-- Body of the first `for y` loop of `generateSDF` (lines 64-76). -/
def forwardRow (g : SDFGenerator) (grid : Grid) (y : Nat) : Grid :=
  let grid := (List.range g.WIDTH).foldl
    (relax g [(-1, 0), (0, -1), (-1, -1), (1, -1)] y) grid
  (List.range g.WIDTH).reverse.foldl (relax g [(1, 0)] y) grid

/-- Body of the second `for y` loop of `generateSDF` (lines 81-93). -/
def backwardRow (g : SDFGenerator) (grid : Grid) (y : Nat) : Grid :=
  let grid := (List.range g.WIDTH).reverse.foldl
    (relax g [(1, 0), (0, 1), (-1, 1), (1, 1)] y) grid
  (List.range g.WIDTH).foldl (relax g [(-1, 0)] y) grid

/-- Source `generateSDF`. -/
def generateSDF (g : SDFGenerator) (grid : Grid) : Grid :=
  let grid := (List.range g.HEIGHT).foldl (forwardRow g) grid
  (List.range g.HEIGHT).reverse.foldl (backwardRow g) grid

/-! ## Predicates used by the theorems -/

/-- The coordinates lie inside the grid (the guard of `getPoint`). -/
def InGrid (g : SDFGenerator) (x y : Int) : Prop :=
  0 ≤ x ∧ x < g.WIDTH ∧ 0 ≤ y ∧ y < g.HEIGHT

/-- The value `other` that `compare` tests: the neighbour at the given offset,
with the offset added. -/
def candidate (g : SDFGenerator) (grid : Grid) (x y offsetX offsetY : Int) : Point :=
  let other := getPoint g grid (x + offsetX) (y + offsetY)
  { dx := other.dx + offsetX, dy := other.dy + offsetY }

/-- The cell at `(x, y)` is not strictly beaten by the candidate at the offset:
`compare` would return it unchanged. -/
def Stable (g : SDFGenerator) (grid : Grid) (x y offsetX offsetY : Int) : Prop :=
  (getPoint g grid x y).distSq ≤ (candidate g grid x y offsetX offsetY).distSq

/-- No cell of the grid is strictly beaten by any of its eight neighbours. -/
def LocallyMinimal (g : SDFGenerator) (grid : Grid) : Prop :=
  ∀ x y : Int, InGrid g x y → ∀ ox oy : Int, -1 ≤ ox → ox ≤ 1 → -1 ≤ oy → oy ≤ 1 →
    Stable g grid x y ox oy

/-- Every cell is one of the two sentinels `INSIDE = (0,0)` and
`FAR = (9999,9999)`: a grid as the classifier builds it. -/
def IsSeedGrid (grid : Grid) : Prop :=
  ∀ row ∈ grid, ∀ p ∈ row, p = (⟨0, 0⟩ : Point) ∨ p = (⟨9999, 9999⟩ : Point)

instance (grid : Grid) : Decidable (IsSeedGrid grid) := by
  unfold IsSeedGrid; infer_instance

/-- What processing one row in either pass keeps: the shape of the grid, all
other rows, and the fact that squared lengths only go down. -/
def RowFrame (g : SDFGenerator) (y : Nat) (old grid : Grid) : Prop :=
  WellFormed g grid ∧ (∀ X Y : Int, Y ≠ y → getPoint g grid X Y = getPoint g old X Y) ∧
    ∀ X Y : Int, (getPoint g grid X Y).distSq ≤ (getPoint g old X Y).distSq

/-- Stable against the left and the right neighbour. -/
def SideStable (g : SDFGenerator) (grid : Grid) (x y : Int) : Prop :=
  Stable g grid x y (-1) 0 ∧ Stable g grid x y 1 0

/-- Stable against the three neighbours in the row above. -/
def UpStable (g : SDFGenerator) (grid : Grid) (x y : Int) : Prop :=
  ∀ ox : Int, -1 ≤ ox → ox ≤ 1 → Stable g grid x y ox (-1)

/-- Stable against the three neighbours in the row below. -/
def DownStable (g : SDFGenerator) (grid : Grid) (x y : Int) : Prop :=
  ∀ ox : Int, -1 ≤ ox → ox ≤ 1 → Stable g grid x y ox 1

/-- State of the first pass once rows `0 .. y-1` are done. -/
def ForwardDone (g : SDFGenerator) (grid : Grid) (y : Nat) : Prop :=
  ∀ X Y : Int, InGrid g X Y → Y < y → SideStable g grid X Y ∧ UpStable g grid X Y

/-- State of the second pass once rows `r .. HEIGHT-1` are done. -/
def BackwardDone (g : SDFGenerator) (grid : Grid) (r : Nat) : Prop :=
  ∀ X Y : Int, InGrid g X Y →
    SideStable g grid X Y ∧ UpStable g grid X Y ∧ ((r : Int) ≤ Y → DownStable g grid X Y)

/-- No cell is longer than the `FAR` sentinel. -/
def Bounded (g : SDFGenerator) (grid : Grid) : Prop :=
  ∀ X Y : Int, (getPoint g grid X Y).distSq ≤ g.empty.distSq

/-- While row `r` is processed in the second pass, each of its cells either
still has the value it had before, or carries the vector of a cell of row
`r + 1` moved over to it. -/
def Chained (g : SDFGenerator) (r : Nat) (old grid : Grid) : Prop :=
  ∀ X : Int, getPoint g grid X r = getPoint g old X r ∨
    ∃ m : Int, InGrid g m (r + 1) ∧
      getPoint g grid X r =
        ⟨(getPoint g old m (r + 1)).dx + (m - X), (getPoint g old m (r + 1)).dy + 1⟩

/-- The vector `p` stored at `(x, y)` ends on a cell that is `INSIDE` in the
grid `input`. -/
def PointsAtSeed (g : SDFGenerator) (input : Grid) (x y : Int) (p : Point) : Prop :=
  InGrid g (x + p.dx) (y + p.dy) ∧ getPoint g input (x + p.dx) (y + p.dy) = ⟨0, 0⟩

/-- The vector `p` stored at `(x, y)` descends from the `FAR` sentinel: each
step of a sweep can lower a component by one only while moving one cell right
or down. -/
def FarLike (x y : Int) (p : Point) : Prop :=
  9998 - x ≤ p.dx ∧ 9998 - y ≤ p.dy

/-- Every cell of `grid` points at a seed of `input` or descends from `FAR`. -/
def Tracked (g : SDFGenerator) (input grid : Grid) : Prop :=
  ∀ X Y : Int, InGrid g X Y →
    PointsAtSeed g input X Y (getPoint g grid X Y) ∨ FarLike X Y (getPoint g grid X Y)

/-- Cellwise form of `IsSeedGrid`. -/
def SeedCells (g : SDFGenerator) (grid : Grid) : Prop :=
  ∀ X Y : Int, InGrid g X Y →
    getPoint g grid X Y = ⟨0, 0⟩ ∨ getPoint g grid X Y = ⟨9999, 9999⟩

/-! ## float64 arithmetic

A `float64` value is modelled by the rational number it denotes.  Every
operation of the source is the exact operation followed by rounding to the
nearest value with 53 significant bits, ties to even (`f64`), as IEEE 754
prescribes.  Overflow to infinity and subnormal numbers are not modelled: all
values of the program stay between `2 ^ -60` and `2 ^ 60` in magnitude, or are
zero.  No divisor of the program is zero (`HEIGHT / 6` inside a loop over
`HEIGHT >= 1` rows, `|sA| + |sB|` with `sA > 0`, the number of pairs `>= 1`). -/

/-- Round to the nearest integer, ties to the even one. -/
def roundHalfEven (x : ℚ) : ℤ :=
  if 2 * (x - ⌊x⌋) < 1 then ⌊x⌋
  else if 1 < 2 * (x - ⌊x⌋) then ⌊x⌋ + 1
  else if ⌊x⌋ % 2 = 0 then ⌊x⌋
  else ⌊x⌋ + 1

/-- The nearest 53-bit binary floating point value of a rational `x ≥ 0`: with
`2 ^ e ≤ x < 2 ^ (e + 1)` the spacing of the values around `x` is `2 ^ (e - 52)`. -/
def roundPos (x : ℚ) : ℚ :=
  roundHalfEven (x / 2 ^ (Int.log 2 x - 52)) * 2 ^ (Int.log 2 x - 52)

/-- Rounding of a rational to `float64`. -/
def f64 (x : ℚ) : ℚ :=
  if x < 0 then -roundPos (-x) else roundPos x

/-- The `float64` operations `+`, `-`, `*`, `/`. -/
def fadd (a b : ℚ) : ℚ := f64 (a + b)

/-- Subtraction of `float64` values. -/
def fsub (a b : ℚ) : ℚ := f64 (a - b)

/-- Multiplication of `float64` values. -/
def fmul (a b : ℚ) : ℚ := f64 (a * b)

/-- Division of `float64` values. -/
def fdiv (a b : ℚ) : ℚ := f64 (a / b)

/-- Integer square root, bit by bit: `isqrtAux k n r` extends the root `r` by the
bits `k-1, ..., 0`, keeping `r * r ≤ n`. -/
def isqrtAux : Nat → Nat → Nat → Nat
  | 0, _, r => r
  | k + 1, n, r => isqrtAux k n (if (r + 2 ^ k) * (r + 2 ^ k) ≤ n then r + 2 ^ k else r)

/-- The call `math.Sqrt(float64(n))` for an integer `0 ≤ n < 2 ^ 53`: the correctly
rounded square root.  With `s = ⌊√n · 2 ^ 64⌋` (96 bits suffice), either
`√n · 2 ^ 64 = s`, or `√n · 2 ^ 64` and `s + 1/2` lie strictly between the same
two consecutive integers, hence round to the same `float64`. -/
def sqrt64 (n : Nat) : ℚ :=
  let s := isqrtAux 96 (n * 4 ^ 64) 0
  if s * s = n * 4 ^ 64 then f64 (s / 2 ^ 64) else f64 ((2 * s + 1) / 2 ^ 65)

/-- The conversion `uint8(x)` of a `float64` with `0 ≤ x < 256`: truncation. -/
def toUint8 (x : ℚ) : Nat :=
  ⌊x⌋.toNat % 256

/-! ## Images -/

/-- Source `color.RGBA`: four 8-bit channels. -/
structure RGBA where
  R : Nat
  G : Nat
  B : Nat
  A : Nat
  deriving DecidableEq, Repr

/-- Source `*image.RGBA` with bounds `(0,0)-(width,height)`, as the decoders
produce it: `height` rows of `width` pixels. -/
structure Image where
  width : Nat
  height : Nat
  pix : List (List RGBA)
  deriving DecidableEq, Repr

instance : Inhabited Image := ⟨⟨0, 0, []⟩⟩

/-- Source `RGBAAt`: the pixel, or the zero colour outside the bounds. -/
def Image.RGBAAt (img : Image) (x y : Nat) : RGBA :=
  if x < img.width ∧ y < img.height then (img.pix.getD y []).getD x ⟨0, 0, 0, 0⟩
  else ⟨0, 0, 0, 0⟩

/-- A new image whose pixels are all written once by
`for y { for x { img.Set(x, y, f x y) } }`. -/
def Image.fill (w h : Nat) (f : Nat → Nat → RGBA) : Image :=
  { width := w, height := h,
    pix := (List.range h).map (fun y => (List.range w).map (fun x => f x y)) }

/-! ## The compositor -/

/-- The green sample of `GenerateFromImage`: `RGBA()` widens the 8-bit channel
`G` to 16 bits as `G * 0x101`, and the source takes `uint8(gVal >> 8)`. -/
def greenAt (rgbaImg : Image) (x y : Nat) : Nat :=
  let gVal := (rgbaImg.RGBAAt x y).G * 257
  (gVal >>> 8) % 256

/-- Grid initialisation of `GenerateFromImage` (lines 120-141): the pair
`(grid1, grid2)`. -/
def initGrids (g : SDFGenerator) (rgbaImg : Image) : Grid × Grid :=
  ((List.range g.HEIGHT).map (fun y => (List.range g.WIDTH).map (fun x =>
      if greenAt rgbaImg x y < 128 then g.empty else g.inside)),
   (List.range g.HEIGHT).map (fun y => (List.range g.WIDTH).map (fun x =>
      if greenAt rgbaImg x y < 128 then g.inside else g.empty)))

/-- The signed distance `dist` of lines 164-168, from the two cells of a pixel. -/
def signedDist (p1 p2 : Point) : ℚ :=
  let dist1 := sqrt64 p1.distSq.toNat
  let dist2 := sqrt64 p2.distSq.toNat
  fsub dist1 dist2

/-- The intensity `value` of lines 171-175, from the signed distance. -/
def intensityOf (HEIGHT : Nat) (dist : ℚ) : Nat :=
  let maxExpectedDist := fdiv (f64 HEIGHT) 6
  let normalizedDist := fdiv dist maxExpectedDist
  toUint8 (max 0 (min 255 (fmul (fadd normalizedDist 1) 127.5)))

/-- Source `GenerateFromImage`, from the decoded image on.  The two calls of
`generateSDF` work on different grids, so the order in which the goroutines
run does not matter. -/
def GenerateFromImage (rgbaImg : Image) : Image :=
  let g := sized rgbaImg.width rgbaImg.height
  let grids := initGrids g rgbaImg
  let grid1 := generateSDF g grids.1
  let grid2 := generateSDF g grids.2
  Image.fill g.WIDTH g.HEIGHT (fun x y =>
    let value := intensityOf g.HEIGHT (signedDist (grid1.cell x y) (grid2.cell x y))
    { R := value, G := value, B := value, A := 255 })

/-! ## The blender -/

/-- The value `blendPair` stores for the red samples `r1` of `a` and `r2` of `b`
(lines 246-262). -/
def blendValue (r1 r2 : Nat) : Nat :=
  let sdfA := fsub (fmul (fdiv (f64 r1) 255) 2) 1
  let sdfB := fsub (fmul (fdiv (f64 r2) 255) 2) 1
  let result : ℚ :=
    if sdfA < 0 then 1
    else if sdfB > 0 then 0
    else if sdfA > 0 ∧ sdfB < 0 then
      let distA := |sdfA|
      let distB := |sdfB|
      fdiv distB (fadd distA distB)
    else 0
  toUint8 (fmul result 255)

/-- Source `blendPair`. -/
def blendPair (a b : Image) : Image :=
  Image.fill a.width a.height (fun x y =>
    let c1 := a.RGBAAt x y
    let c2 := b.RGBAAt x y
    let value := blendValue c1.R c2.R
    { R := value, G := value, B := value, A := 255 })

/-- The accumulator `sum[y][x]` of `BlendSDF` after the loop over the pairs. -/
def blendSum (sdfs : List Image) (x y : Nat) : Nat :=
  (List.range (sdfs.length - 1)).foldl
    (fun s i => s + ((blendPair (sdfs.getD i default) (sdfs.getD (i + 1) default)).RGBAAt x y).R) 0

/-- The value `avg` of `BlendSDF` (line 217). -/
def blendAvg (sum count : Nat) : Nat :=
  toUint8 (min 255 (max 0 (fdiv (f64 sum) (f64 count))))

/-- Source `BlendSDF`, up to the encoding of the result: `none` stands for the
`log.Fatal` exit. -/
def BlendSDF (sdfs : List Image) : Option Image :=
  if sdfs.length < 2 then none
  else
    let bounds := sdfs.getD 0 default
    let count := sdfs.length - 1
    some (Image.fill bounds.width bounds.height (fun x y =>
      let avg := blendAvg (blendSum sdfs x y) count
      { R := avg, G := avg, B := avg, A := 255 }))

/-- The mean of the pairwise blends as the specification words it: the clamped
quotient rounded to the nearest integer. -/
def roundedMean (sum count : Nat) : ℤ :=
  round (max 0 (min 255 ((sum : ℚ) / (count : ℚ))))

/-- Three 2 by 1 fields used as concrete inputs of the blender: intensities
`[0, 0]`, `[255, 0]` and `[255, 255]`. -/
def fieldA : Image := ⟨2, 1, [[⟨0, 0, 0, 255⟩, ⟨0, 0, 0, 255⟩]]⟩

/-- The field with intensities `[255, 0]`. -/
def fieldB : Image := ⟨2, 1, [[⟨255, 255, 255, 255⟩, ⟨0, 0, 0, 255⟩]]⟩

/-- The field with intensities `[255, 255]`. -/
def fieldC : Image := ⟨2, 1, [[⟨255, 255, 255, 255⟩, ⟨255, 255, 255, 255⟩]]⟩

/-- The pairwise rule as the specification words it, in exact arithmetic: with
`sA = a/255*2 - 1` and `sB = b/255*2 - 1` the result is 255 when `sA < 0`,
otherwise 0 when `sB > 0`, otherwise the integer part of
`255 * |sB| / (|sA| + |sB|)` when `sA > 0` and `sB < 0`, otherwise 0. -/
def pairRule (a b : Nat) : Nat :=
  let sA : ℚ := (a : ℚ) / 255 * 2 - 1
  let sB : ℚ := (b : ℚ) / 255 * 2 - 1
  if sA < 0 then 255
  else if sB > 0 then 0
  else if sA > 0 ∧ sB < 0 then ⌊255 * |sB| / (|sA| + |sB|)⌋.toNat
  else 0

/-- The value `dist` of `GenerateFromImage` (line 168) at the pixel `(x, y)`. -/
def signedDistAt (rgbaImg : Image) (x y : Nat) : ℚ :=
  let g := sized rgbaImg.width rgbaImg.height
  signedDist ((generateSDF g (initGrids g rgbaImg).1).cell x y)
    ((generateSDF g (initGrids g rgbaImg).2).cell x y)

/-- A concrete image, 2 pixels wide and `h` high: the left column black
(background), the right column white (foreground). -/
def stripe (h : Nat) : Image :=
  ⟨2, h, List.replicate h [⟨0, 0, 0, 255⟩, ⟨255, 255, 255, 255⟩]⟩

/-- The intensity as the specification words it, in exact arithmetic:
`maxDist = HEIGHT / 6`, `n = clamp(d / maxDist, -1, 1)`, and
`round((n + 1) * 127.5)` clamped to `[0, 255]`. -/
def roundedIntensity (HEIGHT : Nat) (d : ℚ) : ℤ :=
  let maxDist := (HEIGHT : ℚ) / 6
  let n := max (-1) (min 1 (d / maxDist))
  max 0 (min 255 (round ((n + 1) * 127.5)))

/-- The same formula with the rounding replaced by truncation, evaluated in
`float64` as the source does: the integer part of `(n + 1) * 127.5` clamped to
`[0, 255]`, with `n = clamp(d / maxDist, -1, 1)`. -/
def truncatedIntensity (HEIGHT : Nat) (d : ℚ) : ℤ :=
  let maxDist := fdiv (f64 HEIGHT) 6
  let n := max (-1) (min 1 (fdiv d maxDist))
  ⌊max 0 (min 255 (fmul (fadd n 1) 127.5))⌋

/-- A concrete image, 3 pixels wide and `h` high: two black (background)
columns, then one white (foreground) column. -/
def bands (h : Nat) : Image :=
  ⟨3, h, List.replicate h [⟨0, 0, 0, 255⟩, ⟨0, 0, 0, 255⟩, ⟨255, 255, 255, 255⟩]⟩

/-! ## The `blend` command -/

/-- The ways the `blend` command of `main` stops with `log.Fatal`. -/
inductive Fatal where
  | tooFewInputs
  | sizeMismatch
  | formatError
  deriving DecidableEq, Repr

/-- Library `Rectangle.Eq` on the bounds of two images: the same rectangle, or
both empty. -/
def boundsEq (a b : Image) : Bool :=
  (a.width = b.width ∧ a.height = b.height) ∨
    ((a.width = 0 ∨ a.height = 0) ∧ (b.width = 0 ∨ b.height = 0))

/-- The loading loop of the `blend` command (lines 419-439), from the decoded
files on: `none` stands for a file that does not decode to an `*image.RGBA`;
`sdfList` is the list built so far. -/
def loadFields : List (Option Image) → List Image → Except Fatal (List Image)
  | [], sdfList => Except.ok sdfList
  | none :: _, _ => Except.error Fatal.formatError
  | some rgbaImg :: rest, sdfList =>
    if sdfList.length > 0 ∧ ¬ boundsEq rgbaImg (sdfList.getD 0 default) then
      Except.error Fatal.sizeMismatch
    else loadFields rest (sdfList ++ [rgbaImg])

/-- The `blend` command of `main` (lines 407-442), from the decoded input files
to the blended image. -/
def blendCommand (inputs : List (Option Image)) : Except Fatal Image :=
  if inputs.length < 2 then Except.error Fatal.tooFewInputs
  else
    match loadFields inputs [] with
    | Except.error e => Except.error e
    | Except.ok sdfList =>
      match BlendSDF sdfList with
      | none => Except.error Fatal.tooFewInputs
      | some result => Except.ok result

/-- A concrete image of one colour: `w` by `h` pixels with the 8-bit sample `v`
in the three colour channels. -/
def plain (w h v : Nat) : Image :=
  ⟨w, h, List.replicate h (List.replicate w ⟨v, v, v, 255⟩)⟩

/-- The decoding `float64(c.R)/255.0*2.0 - 1.0` of a red sample in `blendPair`
(lines 246-247). -/
def decodeSDF (r : Nat) : ℚ :=
  fsub (fmul (fdiv (f64 r) 255) 2) 1

/-- The four branches of the `if` chain of `blendPair` (lines 250-260). -/
inductive Branch where
  | aNegative
  | bPositive
  | interpolate
  | fallback
  deriving DecidableEq, Repr

/-- The branch `blendPair` takes for the red samples `r1` of `a` and `r2` of `b`. -/
def blendBranch (r1 r2 : Nat) : Branch :=
  let sdfA := decodeSDF r1
  let sdfB := decodeSDF r2
  if sdfA < 0 then Branch.aNegative
  else if sdfB > 0 then Branch.bPositive
  else if sdfA > 0 ∧ sdfB < 0 then Branch.interpolate
  else Branch.fallback

/-! ## Machine integers

The transform is modelled with unbounded integers, which is exact as long as no
Go `int` operation overflows (always the case for grids built from the two
sentinels).  For statements about arbitrary vectors the comparison step is also
given with the overflow made explicit. -/

/-- The value a Go `int` (64 bits, two's complement) keeps of the exact result
`z` of an arithmetic operation: `z` reduced to the range `[-2^63, 2^63)`. -/
def wrapInt (z : Int) : Int :=
  (z + 2 ^ 63) % 2 ^ 64 - 2 ^ 63

/-- Source `distSq` on machine integers: both products and the sum wrap. -/
def Point.distSq64 (p : Point) : Int :=
  wrapInt (wrapInt (p.dx * p.dx) + wrapInt (p.dy * p.dy))

/-- The value `other` of `compare` after `other.dx += offsetX` and
`other.dy += offsetY`, on machine integers. -/
def candidate64 (g : SDFGenerator) (grid : Grid) (x y offsetX offsetY : Int) : Point :=
  let other := getPoint g grid (wrapInt (x + offsetX)) (wrapInt (y + offsetY))
  { dx := wrapInt (other.dx + offsetX), dy := wrapInt (other.dy + offsetY) }

/-- Source `compare` on machine integers. -/
def compare64 (g : SDFGenerator) (grid : Grid) (p : Point) (x y offsetX offsetY : Int) :
    Point :=
  let other := getPoint g grid (wrapInt (x + offsetX)) (wrapInt (y + offsetY))
  let other : Point := { dx := wrapInt (other.dx + offsetX), dy := wrapInt (other.dy + offsetY) }
  if other.distSq64 < p.distSq64 then other else p

/-- The integer is far enough from the limits of a Go `int` that the operations
of `compare` on it cannot overflow. -/
def Small (z : Int) : Prop :=
  -2 ^ 30 ≤ z ∧ z ≤ 2 ^ 30

instance (z : Int) : Decidable (Small z) := by
  unfold Small; infer_instance

/-! # Theorems -/

/-! ## Reading and writing cells -/

theorem put_of_height_le {grid : Grid} {y : Nat} (hy : grid.length ≤ y) (x : Nat) (p : Point) :
    grid.put x y p = grid :=
  List.set_eq_of_length_le hy

theorem wellFormed_put {g : SDFGenerator} {grid : Grid} (h : WellFormed g grid)
    (x y : Nat) (p : Point) : WellFormed g (grid.put x y p) := by
  by_cases hy : y < grid.length
  · obtain ⟨hlen, hrow⟩ := h
    refine ⟨by simp [Grid.put, hlen], ?_⟩
    intro row hmem
    rcases List.mem_or_eq_of_mem_set hmem with h1 | h1
    · exact hrow row h1
    · subst h1
      rw [List.length_set]
      apply hrow
      rw [List.getD_eq_getElem?_getD, List.getElem?_eq_getElem hy]
      exact List.getElem_mem hy
  · rw [put_of_height_le (by omega)]
    exact h

theorem row_length {g : SDFGenerator} {grid : Grid} (h : WellFormed g grid) {y : Nat}
    (hy : y < g.HEIGHT) : (grid.getD y []).length = g.WIDTH := by
  have hy2 : y < grid.length := h.1 ▸ hy
  apply h.2
  rw [List.getD_eq_getElem?_getD, List.getElem?_eq_getElem hy2]
  exact List.getElem_mem hy2

theorem cell_put_same {g : SDFGenerator} {grid : Grid} (h : WellFormed g grid) {x y : Nat}
    (hx : x < g.WIDTH) (hy : y < g.HEIGHT) (p : Point) : (grid.put x y p).cell x y = p := by
  have hy2 : y < grid.length := h.1 ▸ hy
  have hx2 : x < (grid.getD y []).length := (row_length h hy).symm ▸ hx
  simp only [Grid.cell, Grid.put, List.getD_eq_getElem?_getD, List.getElem?_set_self hy2,
    Option.getD_some]
  rw [List.getElem?_set_self (by simpa using hx2)]
  rfl

theorem cell_put_other (grid : Grid) {x y x' y' : Nat} (hne : ¬ (x' = x ∧ y' = y)) (p : Point) :
    (grid.put x y p).cell x' y' = grid.cell x' y' := by
  by_cases hy : y' = y
  · subst hy
    have hx : x ≠ x' := fun e => hne ⟨e.symm, rfl⟩
    by_cases hlen : y' < grid.length
    · simp only [Grid.cell, Grid.put, List.getD_eq_getElem?_getD, List.getElem?_set_self hlen,
        Option.getD_some, List.getElem?_set_ne hx]
    · rw [put_of_height_le (by omega)]
  · have hy2 : y ≠ y' := fun e => hy e.symm
    simp only [Grid.cell, Grid.put, List.getD_eq_getElem?_getD, List.getElem?_set_ne hy2]

theorem put_cell_self (grid : Grid) (x y : Nat) : grid.put x y (grid.cell x y) = grid := by
  by_cases hy : y < grid.length
  · have hrow : (grid.getD y []).set x (grid.cell x y) = grid.getD y [] := by
      by_cases hx : x < (grid.getD y []).length
      · apply List.ext_getElem? 
        intro n
        rw [List.getElem?_set]
        split
        · rename_i e
          subst e
          simp only [hx, if_true, Grid.cell, List.getD_eq_getElem?_getD]
          rw [List.getElem?_eq_getElem (by simpa using hx)]
          rfl
        · rfl
      · exact List.set_eq_of_length_le (by omega)
    rw [Grid.put, hrow]
    apply List.ext_getElem?
    intro n
    rw [List.getElem?_set]
    split
    · rename_i e
      subst e
      simp [hy]
    · rfl
  · exact put_of_height_le (by omega) _ _

theorem grid_ext {g : SDFGenerator} {a b : Grid} (ha : WellFormed g a) (hb : WellFormed g b)
    (h : ∀ x y, x < g.WIDTH → y < g.HEIGHT → a.cell x y = b.cell x y) : a = b := by
  apply List.ext_getElem (by rw [ha.1, hb.1])
  intro y h1 h2
  have hy : y < g.HEIGHT := ha.1 ▸ h1
  have la : a[y].length = g.WIDTH := ha.2 _ (List.getElem_mem h1)
  have lb : b[y].length = g.WIDTH := hb.2 _ (List.getElem_mem h2)
  apply List.ext_getElem (by rw [la, lb])
  intro x h3 h4
  have := h x y (la ▸ h3) hy
  simpa [Grid.cell, List.getElem?_eq_getElem h1, List.getElem?_eq_getElem h2,
    List.getElem?_eq_getElem h3, List.getElem?_eq_getElem h4] using this

/-! ## Loop invariants -/

theorem foldl_range_invariant {α : Type} (f : α → Nat → α) (Q : Nat → α → Prop) (n : Nat)
    (a : α) (h0 : Q 0 a) (hstep : ∀ k b, k < n → Q k b → Q (k + 1) (f b k)) :
    Q n ((List.range n).foldl f a) := by
  induction n with
  | zero => simpa using h0
  | succ m ih =>
    rw [List.range_succ, List.foldl_append]
    simp only [List.foldl_cons, List.foldl_nil]
    exact hstep m _ (Nat.lt_succ_self m)
      (ih (fun k b hk hq => hstep k b (Nat.lt_succ_of_lt hk) hq))

theorem foldl_range_reverse_invariant {α : Type} (f : α → Nat → α) (Q : Nat → α → Prop)
    (n : Nat) (a : α) (h0 : Q n a) (hstep : ∀ k b, k < n → Q (k + 1) b → Q k (f b k)) :
    Q 0 ((List.range n).reverse.foldl f a) := by
  induction n generalizing a with
  | zero => simpa using h0
  | succ m ih =>
    rw [List.range_succ, List.reverse_append]
    simp only [List.reverse_cons, List.reverse_nil, List.nil_append, List.singleton_append,
      List.foldl_cons]
    exact ih _ (hstep m a (Nat.lt_succ_self m) h0)
      (fun k b hk hq => hstep k b (Nat.lt_succ_of_lt hk) hq)

/-! ## `getPoint`, `compare` and one relaxation step -/

theorem getPoint_inGrid {g : SDFGenerator} (grid : Grid) {x y : Int} (h : InGrid g x y) :
    getPoint g grid x y = grid.cell x.toNat y.toNat := by
  unfold getPoint
  rw [if_pos]
  exact ⟨h.1, h.2.1, h.2.2.1, h.2.2.2⟩

theorem getPoint_outside {g : SDFGenerator} (grid : Grid) {x y : Int} (h : ¬ InGrid g x y) :
    getPoint g grid x y = g.empty := by
  unfold getPoint
  rw [if_neg]
  intro h2
  exact h ⟨h2.1, h2.2.1, h2.2.2.1, h2.2.2.2⟩

theorem getPoint_nat {g : SDFGenerator} (grid : Grid) {x y : Nat} (hx : x < g.WIDTH)
    (hy : y < g.HEIGHT) : getPoint g grid x y = grid.cell x y := by
  rw [getPoint_inGrid grid ⟨by omega, by omega, by omega, by omega⟩]
  simp

theorem inGrid_nat {g : SDFGenerator} {x y : Nat} (hx : x < g.WIDTH) (hy : y < g.HEIGHT) :
    InGrid g x y :=
  ⟨by omega, by omega, by omega, by omega⟩

theorem getPoint_put {g : SDFGenerator} {grid : Grid} (h : WellFormed g grid) {x y : Nat}
    (hx : x < g.WIDTH) (hy : y < g.HEIGHT) (p : Point) (X Y : Int) :
    getPoint g (grid.put x y p) X Y = if X = x ∧ Y = y then p else getPoint g grid X Y := by
  by_cases hin : InGrid g X Y
  · rw [getPoint_inGrid _ hin, getPoint_inGrid _ hin]
    obtain ⟨h1, h2, h3, h4⟩ := hin
    by_cases e : X = x ∧ Y = y
    · rw [if_pos e]
      obtain ⟨e1, e2⟩ := e
      subst e1 e2
      simp only [Int.toNat_ofNat]
      exact cell_put_same h hx hy p
    · rw [if_neg e]
      apply cell_put_other
      intro e2
      apply e
      constructor <;> omega
  · rw [getPoint_outside _ hin, getPoint_outside _ hin, if_neg]
    intro e
    apply hin
    obtain ⟨e1, e2⟩ := e
    subst e1 e2
    exact inGrid_nat hx hy

theorem compare_eq (g : SDFGenerator) (grid : Grid) (p : Point) (x y ox oy : Int) :
    compare g grid p x y ox oy =
      if (candidate g grid x y ox oy).distSq < p.distSq then candidate g grid x y ox oy else p :=
  rfl

theorem compareAll_le (g : SDFGenerator) (grid : Grid) (x y : Int) (offsets : List (Int × Int))
    (p : Point) : (compareAll g grid p x y offsets).distSq ≤ p.distSq := by
  induction offsets generalizing p with
  | nil => simp [compareAll]
  | cons o rest ih =>
    have h1 := ih (compare g grid p x y o.1 o.2)
    have h2 : (compare g grid p x y o.1 o.2).distSq ≤ p.distSq := by
      rw [compare_eq]
      split <;> omega
    simp only [compareAll, List.foldl_cons] at h1 ⊢
    omega

theorem compareAll_le_candidate (g : SDFGenerator) (grid : Grid) (x y : Int)
    (offsets : List (Int × Int)) (p : Point) (o : Int × Int) (ho : o ∈ offsets) :
    (compareAll g grid p x y offsets).distSq ≤ (candidate g grid x y o.1 o.2).distSq := by
  induction offsets generalizing p with
  | nil => simp at ho
  | cons o' rest ih =>
    rcases List.mem_cons.1 ho with e | hmem
    · subst e
      have h1 := compareAll_le g grid x y rest (compare g grid p x y o.1 o.2)
      have h2 : (compare g grid p x y o.1 o.2).distSq ≤ (candidate g grid x y o.1 o.2).distSq := by
        rw [compare_eq]
        split <;> omega
      simp only [compareAll, List.foldl_cons] at h1 ⊢
      omega
    · exact ih _ hmem

theorem compareAll_cases (g : SDFGenerator) (grid : Grid) (x y : Int)
    (offsets : List (Int × Int)) (p : Point) :
    compareAll g grid p x y offsets = p ∨
      ∃ o ∈ offsets, compareAll g grid p x y offsets = candidate g grid x y o.1 o.2 ∧
        (candidate g grid x y o.1 o.2).distSq < p.distSq := by
  induction offsets generalizing p with
  | nil => left; rfl
  | cons o' rest ih =>
    have hc : compare g grid p x y o'.1 o'.2 = p ∨
        (compare g grid p x y o'.1 o'.2 = candidate g grid x y o'.1 o'.2 ∧
          (candidate g grid x y o'.1 o'.2).distSq < p.distSq) := by
      rw [compare_eq]
      split
      · right; exact ⟨rfl, by assumption⟩
      · left; rfl
    have hfold : compareAll g grid p x y (o' :: rest) =
        compareAll g grid (compare g grid p x y o'.1 o'.2) x y rest := rfl
    rw [hfold]
    rcases ih (compare g grid p x y o'.1 o'.2) with h1 | ⟨o, ho, h1, h2⟩
    · rw [h1]
      rcases hc with h3 | ⟨h3, h4⟩
      · left; exact h3
      · right; exact ⟨o', List.mem_cons_self _ _, h3, h4⟩
    · right
      refine ⟨o, List.mem_cons_of_mem _ ho, h1, ?_⟩
      rcases hc with h3 | ⟨h3, h4⟩
      · rw [h3] at h2; exact h2
      · rw [h3] at h2; omega

theorem wellFormed_relax {g : SDFGenerator} {grid : Grid} (h : WellFormed g grid)
    (offsets : List (Int × Int)) (y x : Nat) : WellFormed g (relax g offsets y grid x) :=
  wellFormed_put h _ _ _

theorem getPoint_relax {g : SDFGenerator} {grid : Grid} (h : WellFormed g grid)
    (offsets : List (Int × Int)) {x y : Nat} (hx : x < g.WIDTH) (hy : y < g.HEIGHT) (X Y : Int) :
    getPoint g (relax g offsets y grid x) X Y =
      if X = x ∧ Y = y then compareAll g grid (getPoint g grid x y) x y offsets
      else getPoint g grid X Y := by
  rw [relax, getPoint_put h hx hy, getPoint_nat grid hx hy]

/-! ## Properties kept by every relaxation step -/

theorem forwardRow_preserves {g : SDFGenerator} (P : Grid → Prop) (y : Nat)
    (hP : ∀ offsets grid x, (∀ o ∈ offsets, o ∈ [((-1 : Int), (0 : Int)), (0, -1), (-1, -1),
      (1, -1), (1, 0)]) → x < g.WIDTH → P grid → P (relax g offsets y grid x))
    {grid : Grid} (h : P grid) : P (forwardRow g grid y) := by
  unfold forwardRow
  apply foldl_range_reverse_invariant _ (fun _ b => P b)
  · apply foldl_range_invariant _ (fun _ b => P b) _ _ h
    intro k b hk hb
    exact hP _ b k (by simp) hk hb
  · intro k b hk hb
    exact hP _ b k (by simp) hk hb

theorem backwardRow_preserves {g : SDFGenerator} (P : Grid → Prop) (y : Nat)
    (hP : ∀ offsets grid x, (∀ o ∈ offsets, o ∈ [((1 : Int), (0 : Int)), (0, 1), (-1, 1),
      (1, 1), (-1, 0)]) → x < g.WIDTH → P grid → P (relax g offsets y grid x))
    {grid : Grid} (h : P grid) : P (backwardRow g grid y) := by
  unfold backwardRow
  apply foldl_range_invariant _ (fun _ b => P b)
  · apply foldl_range_reverse_invariant _ (fun _ b => P b) _ _ h
    intro k b hk hb
    exact hP _ b k (by simp) hk hb
  · intro k b hk hb
    exact hP _ b k (by simp) hk hb

theorem generateSDF_preserves {g : SDFGenerator} (P : Grid → Prop)
    (hP : ∀ offsets y grid x, (∀ o ∈ offsets, -1 ≤ o.1 ∧ o.1 ≤ 1 ∧ -1 ≤ o.2 ∧ o.2 ≤ 1) →
      x < g.WIDTH → y < g.HEIGHT → P grid → P (relax g offsets y grid x))
    {grid : Grid} (h : P grid) : P (generateSDF g grid) := by
  unfold generateSDF
  apply foldl_range_reverse_invariant _ (fun _ b => P b)
  · apply foldl_range_invariant _ (fun _ b => P b) _ _ h
    intro k b hk hb
    apply forwardRow_preserves P k _ hb
    intro offsets grid x ho hx hg
    apply hP offsets k grid x _ hx hk hg
    intro o hmem
    have := ho o hmem
    simp only [List.mem_cons, List.mem_singleton, List.not_mem_nil, or_false] at this
    rcases this with e | e | e | e | e <;> subst e <;> simp
  · intro k b hk hb
    apply backwardRow_preserves P k _ hb
    intro offsets grid x ho hx hg
    apply hP offsets k grid x _ hx hk hg
    intro o hmem
    have := ho o hmem
    simp only [List.mem_cons, List.mem_singleton, List.not_mem_nil, or_false] at this
    rcases this with e | e | e | e | e <;> subst e <;> simp

theorem wellFormed_forwardRow {g : SDFGenerator} {grid : Grid} (h : WellFormed g grid)
    (y : Nat) : WellFormed g (forwardRow g grid y) :=
  forwardRow_preserves (WellFormed g) y (fun _ _ _ _ _ hg => wellFormed_relax hg _ _ _) h

theorem wellFormed_backwardRow {g : SDFGenerator} {grid : Grid} (h : WellFormed g grid)
    (y : Nat) : WellFormed g (backwardRow g grid y) :=
  backwardRow_preserves (WellFormed g) y (fun _ _ _ _ _ hg => wellFormed_relax hg _ _ _) h

theorem wellFormed_generateSDF {g : SDFGenerator} {grid : Grid} (h : WellFormed g grid) :
    WellFormed g (generateSDF g grid) :=
  generateSDF_preserves (WellFormed g) (fun _ _ _ _ _ _ _ hg => wellFormed_relax hg _ _ _) h

/-- A relaxation step never increases the squared length of a cell, and only
touches the cell it visits. -/
theorem relax_le {g : SDFGenerator} {grid : Grid} (h : WellFormed g grid)
    (offsets : List (Int × Int)) {x y : Nat} (hx : x < g.WIDTH) (hy : y < g.HEIGHT) (X Y : Int) :
    (getPoint g (relax g offsets y grid x) X Y).distSq ≤ (getPoint g grid X Y).distSq := by
  rw [getPoint_relax h offsets hx hy]
  split
  · rename_i e
    rw [e.1, e.2]
    exact compareAll_le _ _ _ _ _ _
  · exact le_refl _

theorem relax_other_row {g : SDFGenerator} {grid : Grid} (h : WellFormed g grid)
    (offsets : List (Int × Int)) {x y : Nat} (hx : x < g.WIDTH) (hy : y < g.HEIGHT) (X Y : Int)
    (hne : Y ≠ y) : getPoint g (relax g offsets y grid x) X Y = getPoint g grid X Y := by
  rw [getPoint_relax h offsets hx hy, if_neg]
  intro e
  exact hne e.2

/-! ## Stability under one sweep -/

theorem stable_mono {g : SDFGenerator} {old grid : Grid} {x y ox oy : Int}
    (h1 : (getPoint g grid x y).distSq ≤ (getPoint g old x y).distSq)
    (h2 : getPoint g grid (x + ox) (y + oy) = getPoint g old (x + ox) (y + oy))
    (h : Stable g old x y ox oy) : Stable g grid x y ox oy := by
  unfold Stable candidate at h ⊢
  rw [h2]
  exact le_trans h1 h

theorem foldl_relax_preserves {g : SDFGenerator} (P : Grid → Prop) (offsets : List (Int × Int))
    (y : Nat) (xs : List Nat) (hxs : ∀ x ∈ xs, x < g.WIDTH)
    (hP : ∀ grid x, x < g.WIDTH → P grid → P (relax g offsets y grid x))
    {grid : Grid} (h : P grid) : P (xs.foldl (relax g offsets y) grid) := by
  induction xs generalizing grid with
  | nil => exact h
  | cons x rest ih =>
    rw [List.foldl_cons]
    exact ih (fun z hz => hxs z (List.mem_cons_of_mem _ hz))
      (hP grid x (hxs x (List.mem_cons_self _ _)) h)

theorem rowFrame_refl {g : SDFGenerator} {grid : Grid} (h : WellFormed g grid) (y : Nat) :
    RowFrame g y grid grid :=
  ⟨h, fun _ _ _ => rfl, fun _ _ => le_refl _⟩

theorem rowFrame_relax {g : SDFGenerator} {old grid : Grid} {y : Nat} (hy : y < g.HEIGHT)
    (h : RowFrame g y old grid) (offsets : List (Int × Int)) {x : Nat} (hx : x < g.WIDTH) :
    RowFrame g y old (relax g offsets y grid x) := by
  obtain ⟨hwf, hframe, hle⟩ := h
  refine ⟨wellFormed_relax hwf _ _ _, ?_, ?_⟩
  · intro X Y hne
    rw [relax_other_row hwf offsets hx hy X Y hne]
    exact hframe X Y hne
  · intro X Y
    exact le_trans (relax_le hwf offsets hx hy X Y) (hle X Y)

theorem rowFrame_foldl {g : SDFGenerator} {old grid : Grid} {y : Nat} (hy : y < g.HEIGHT)
    (h : RowFrame g y old grid) (offsets : List (Int × Int)) (xs : List Nat)
    (hxs : ∀ x ∈ xs, x < g.WIDTH) : RowFrame g y old (xs.foldl (relax g offsets y) grid) :=
  foldl_relax_preserves (RowFrame g y old) offsets y xs hxs
    (fun _ _ hx hg => rowFrame_relax hy hg offsets hx) h

theorem mem_range_lt {n : Nat} : ∀ x ∈ List.range n, x < n :=
  fun _ hx => List.mem_range.1 hx

theorem mem_range_reverse_lt {n : Nat} : ∀ x ∈ (List.range n).reverse, x < n :=
  fun _ hx => List.mem_range.1 (List.mem_reverse.1 hx)

theorem rowFrame_forwardRow {g : SDFGenerator} {grid : Grid} (h : WellFormed g grid) {y : Nat}
    (hy : y < g.HEIGHT) : RowFrame g y grid (forwardRow g grid y) :=
  rowFrame_foldl hy (rowFrame_foldl hy (rowFrame_refl h y) _ _ mem_range_lt) _ _
    mem_range_reverse_lt

theorem rowFrame_backwardRow {g : SDFGenerator} {grid : Grid} (h : WellFormed g grid) {y : Nat}
    (hy : y < g.HEIGHT) : RowFrame g y grid (backwardRow g grid y) :=
  rowFrame_foldl hy (rowFrame_foldl hy (rowFrame_refl h y) _ _ mem_range_reverse_lt) _ _
    mem_range_lt

/-- Stability against a neighbour in another row survives the processing of
the cell's own row. -/
theorem stable_of_rowFrame {g : SDFGenerator} {old grid : Grid} {y : Nat}
    (h : RowFrame g y old grid) {X ox oy : Int} (hoy : oy ≠ 0)
    (hs : Stable g old X y ox oy) : Stable g grid X y ox oy :=
  stable_mono (h.2.2 X y) (h.2.1 _ _ (by omega)) hs

/-- Stability between two cells of untouched rows is untouched. -/
theorem stable_of_rowFrame_other {g : SDFGenerator} {old grid : Grid} {y : Nat}
    (h : RowFrame g y old grid) {X Y ox oy : Int} (h1 : Y ≠ y) (h2 : Y + oy ≠ y)
    (hs : Stable g old X Y ox oy) : Stable g grid X Y ox oy :=
  stable_mono (le_of_eq (congrArg _ (h.2.1 X Y h1))) (h.2.1 _ _ h2) hs

/-- After an ascending sweep whose only same-row offset is `(-1, 0)`, every
cell of the row is stable against every offset of the sweep. -/
theorem sweep_up_stable {g : SDFGenerator} {grid : Grid} (hwf : WellFormed g grid)
    (offsets : List (Int × Int)) (hoffs : ∀ o ∈ offsets, o.2 ≠ 0 ∨ o = (-1, 0)) {y : Nat}
    (hy : y < g.HEIGHT) (X : Int) (h0 : 0 ≤ X) (hX : X < g.WIDTH) (o : Int × Int)
    (ho : o ∈ offsets) :
    Stable g ((List.range g.WIDTH).foldl (relax g offsets y) grid) X y o.1 o.2 := by
  have key := foldl_range_invariant (relax g offsets y)
    (fun k b => WellFormed g b ∧
      ∀ X : Int, 0 ≤ X → X < k → ∀ o ∈ offsets, Stable g b X y o.1 o.2) g.WIDTH grid
    ⟨hwf, fun X h1 h2 => by omega⟩
    (by
      intro k b hk ⟨hb, ih⟩
      refine ⟨wellFormed_relax hb _ _ _, ?_⟩
      intro X h1 h2 o ho
      have hnb : getPoint g (relax g offsets y b k) (X + o.1) (↑y + o.2) =
          getPoint g b (X + o.1) (↑y + o.2) := by
        rw [getPoint_relax hb offsets hk hy, if_neg]
        rintro ⟨e1, e2⟩
        rcases hoffs o ho with h3 | h3
        · omega
        · rw [h3] at e1
          simp only at e1
          omega
      by_cases e : X = k
      · subst e
        unfold Stable candidate
        rw [hnb, getPoint_relax hb offsets hk hy, if_pos ⟨rfl, rfl⟩]
        exact compareAll_le_candidate g b k y offsets _ o ho
      · apply stable_mono _ hnb (ih X h1 (by omega) o ho)
        exact relax_le hb offsets hk hy X y)
  exact key.2 X h0 hX o ho

/-- After a descending sweep whose only same-row offset is `(1, 0)`, every cell
of the row is stable against every offset of the sweep. -/
theorem sweep_down_stable {g : SDFGenerator} {grid : Grid} (hwf : WellFormed g grid)
    (offsets : List (Int × Int)) (hoffs : ∀ o ∈ offsets, o.2 ≠ 0 ∨ o = (1, 0)) {y : Nat}
    (hy : y < g.HEIGHT) (X : Int) (h0 : 0 ≤ X) (hX : X < g.WIDTH) (o : Int × Int)
    (ho : o ∈ offsets) :
    Stable g ((List.range g.WIDTH).reverse.foldl (relax g offsets y) grid) X y o.1 o.2 := by
  have key := foldl_range_reverse_invariant (relax g offsets y)
    (fun k b => WellFormed g b ∧
      ∀ X : Int, (k : Int) ≤ X → X < g.WIDTH → ∀ o ∈ offsets, Stable g b X y o.1 o.2)
    g.WIDTH grid ⟨hwf, fun X h1 h2 => by omega⟩
    (by
      intro k b hk ⟨hb, ih⟩
      refine ⟨wellFormed_relax hb _ _ _, ?_⟩
      intro X h1 h2 o ho
      have hnb : getPoint g (relax g offsets y b k) (X + o.1) (↑y + o.2) =
          getPoint g b (X + o.1) (↑y + o.2) := by
        rw [getPoint_relax hb offsets hk hy, if_neg]
        rintro ⟨e1, e2⟩
        rcases hoffs o ho with h3 | h3
        · omega
        · rw [h3] at e1
          simp only at e1
          omega
      by_cases e : X = k
      · subst e
        unfold Stable candidate
        rw [hnb, getPoint_relax hb offsets hk hy, if_pos ⟨rfl, rfl⟩]
        exact compareAll_le_candidate g b k y offsets _ o ho
      · apply stable_mono _ hnb (ih X (by omega) h2 o ho)
        exact relax_le hb offsets hk hy X y)
  exact key.2 X (by omega) hX o ho

theorem compareAll_single (g : SDFGenerator) (grid : Grid) (p : Point) (x y ox oy : Int) :
    compareAll g grid p x y [(ox, oy)] =
      if (candidate g grid x y ox oy).distSq < p.distSq then candidate g grid x y ox oy
      else p :=
  rfl

/-- The ascending completion sweep (offset `(-1, 0)` only) keeps every cell of
the row stable against its right neighbour. -/
theorem sweep_up_keeps_right {g : SDFGenerator} {grid : Grid} (hwf : WellFormed g grid)
    {y : Nat} (hy : y < g.HEIGHT)
    (h : ∀ X : Int, 0 ≤ X → X < g.WIDTH → Stable g grid X y 1 0)
    (X : Int) (h0 : 0 ≤ X) (hX : X < g.WIDTH) :
    Stable g ((List.range g.WIDTH).foldl (relax g [(-1, 0)] y) grid) X y 1 0 := by
  have key := foldl_range_invariant (relax g [(-1, 0)] y)
    (fun _ b => WellFormed g b ∧ ∀ X : Int, 0 ≤ X → X < g.WIDTH → Stable g b X y 1 0)
    g.WIDTH grid ⟨hwf, h⟩
    (by
      intro k b hk ⟨hb, ih⟩
      refine ⟨wellFormed_relax hb _ _ _, ?_⟩
      intro X h1 h2
      by_cases e : X + 1 = k
      · have hXk : ¬ (X = (k : Int) ∧ (y : Int) = (y : Int)) := fun e2 => by omega
        have hself : getPoint g (relax g [(-1, 0)] y b k) X y = getPoint g b X y := by
          rw [getPoint_relax hb _ hk hy, if_neg hXk]
        have hprev : (k : Int) + -1 = X := by omega
        have ihX := ih X h1 h2
        unfold Stable candidate at ihX ⊢
        rw [hself, getPoint_relax hb _ hk hy, if_pos ⟨e, by omega⟩, compareAll_single]
        split
        · unfold candidate
          simp only [hprev, add_zero]
          apply le_of_eq
          congr 1
          cases getPoint g b X y
          simp
        · simp only [add_zero] at ihX ⊢
          rw [← e]
          exact ihX
      · apply stable_mono (relax_le hb _ hk hy X y) _ (ih X h1 h2)
        rw [getPoint_relax hb _ hk hy, if_neg]
        rintro ⟨e1, _⟩
        exact e e1)
  exact key.2 X h0 hX

/-- The descending completion sweep (offset `(1, 0)` only) keeps every cell of
the row stable against its left neighbour. -/
theorem sweep_down_keeps_left {g : SDFGenerator} {grid : Grid} (hwf : WellFormed g grid)
    {y : Nat} (hy : y < g.HEIGHT)
    (h : ∀ X : Int, 0 ≤ X → X < g.WIDTH → Stable g grid X y (-1) 0)
    (X : Int) (h0 : 0 ≤ X) (hX : X < g.WIDTH) :
    Stable g ((List.range g.WIDTH).reverse.foldl (relax g [(1, 0)] y) grid) X y (-1) 0 := by
  have key := foldl_range_reverse_invariant (relax g [(1, 0)] y)
    (fun _ b => WellFormed g b ∧ ∀ X : Int, 0 ≤ X → X < g.WIDTH → Stable g b X y (-1) 0)
    g.WIDTH grid ⟨hwf, h⟩
    (by
      intro k b hk ⟨hb, ih⟩
      refine ⟨wellFormed_relax hb _ _ _, ?_⟩
      intro X h1 h2
      by_cases e : X + -1 = k
      · have hXk : ¬ (X = (k : Int) ∧ (y : Int) = (y : Int)) := fun e2 => by omega
        have hself : getPoint g (relax g [(1, 0)] y b k) X y = getPoint g b X y := by
          rw [getPoint_relax hb _ hk hy, if_neg hXk]
        have hprev : (k : Int) + 1 = X := by omega
        have ihX := ih X h1 h2
        unfold Stable candidate at ihX ⊢
        rw [hself, getPoint_relax hb _ hk hy, if_pos ⟨e, by omega⟩, compareAll_single]
        split
        · unfold candidate
          simp only [hprev, add_zero]
          apply le_of_eq
          congr 1
          cases getPoint g b X y
          simp
        · simp only [add_zero] at ihX ⊢
          rw [← e]
          exact ihX
      · apply stable_mono (relax_le hb _ hk hy X y) _ (ih X h1 h2)
        rw [getPoint_relax hb _ hk hy, if_neg]
        rintro ⟨e1, _⟩
        exact e e1)
  exact key.2 X h0 hX

/-! ## The first pass -/

theorem forwardDone_forwardRow {g : SDFGenerator} {grid : Grid} (hwf : WellFormed g grid)
    {y : Nat} (hy : y < g.HEIGHT) (h : ForwardDone g grid y) :
    ForwardDone g (forwardRow g grid y) (y + 1) := by
  intro X Y hin hY
  have hframe := rowFrame_forwardRow hwf hy
  by_cases e : Y = y
  · subst e
    obtain ⟨h0, hX, -, -⟩ := hin
    have hmidwf : WellFormed g ((List.range g.WIDTH).foldl
        (relax g [(-1, 0), (0, -1), (-1, -1), (1, -1)] y) grid) :=
      (rowFrame_foldl hy (rowFrame_refl hwf y) _ _ mem_range_lt).1
    have hmid : ∀ (X : Int), 0 ≤ X → X < g.WIDTH → ∀ o ∈ [((-1 : Int), (0 : Int)), (0, -1),
        (-1, -1), (1, -1)], Stable g ((List.range g.WIDTH).foldl
          (relax g [(-1, 0), (0, -1), (-1, -1), (1, -1)] y) grid) X y o.1 o.2 := by
      intro X h0 hX o ho
      apply sweep_up_stable hwf _ _ hy X h0 hX o ho
      intro o ho
      simp only [List.mem_cons, List.mem_singleton, List.not_mem_nil, or_false] at ho
      rcases ho with e | e | e | e <;> subst e <;> simp
    have hfr2 : RowFrame g y ((List.range g.WIDTH).foldl
        (relax g [(-1, 0), (0, -1), (-1, -1), (1, -1)] y) grid) (forwardRow g grid y) :=
      rowFrame_foldl hy (rowFrame_refl hmidwf y) _ _ mem_range_reverse_lt
    refine ⟨⟨?_, ?_⟩, ?_⟩
    · exact sweep_down_keeps_left hmidwf hy
        (fun X h0 hX => hmid X h0 hX (-1, 0) (by simp)) X h0 hX
    · exact sweep_down_stable hmidwf [(1, 0)] (by simp) hy X h0 hX (1, 0) (by simp)
    · intro ox h1 h2
      apply stable_of_rowFrame hfr2 (by omega)
      have hcases : ox = -1 ∨ ox = 0 ∨ ox = 1 := by omega
      rcases hcases with e | e | e <;> subst e
      · exact hmid X h0 hX (-1, -1) (by simp)
      · exact hmid X h0 hX (0, -1) (by simp)
      · exact hmid X h0 hX (1, -1) (by simp)
  · obtain ⟨⟨h1, h2⟩, h3⟩ := h X Y hin (by omega)
    refine ⟨⟨?_, ?_⟩, ?_⟩
    · exact stable_of_rowFrame_other hframe e (by omega) h1
    · exact stable_of_rowFrame_other hframe e (by omega) h2
    · intro ox h4 h5
      exact stable_of_rowFrame_other hframe e (by omega) (h3 ox h4 h5)

theorem forwardDone_pass {g : SDFGenerator} {grid : Grid} (hwf : WellFormed g grid) :
    WellFormed g ((List.range g.HEIGHT).foldl (forwardRow g) grid) ∧
      ForwardDone g ((List.range g.HEIGHT).foldl (forwardRow g) grid) g.HEIGHT := by
  apply foldl_range_invariant (forwardRow g)
    (fun k b => WellFormed g b ∧ ForwardDone g b k)
  · exact ⟨hwf, fun X Y hin h => by have := hin.2.2.1; omega⟩
  · intro k b hk ⟨hb, hd⟩
    exact ⟨wellFormed_forwardRow hb k, forwardDone_forwardRow hb hk hd⟩

/-! ## A horizontally stable row is optimal along the row -/

theorem chain_arith_right (a b a' b' d : Int)
    (h1 : a * a + b * b ≤ (a' + 1) * (a' + 1) + b' * b')
    (h2 : a' * a' + b' * b' ≤ (a + -1) * (a + -1) + b * b) (hd : 0 ≤ d) :
    (a + d) * (a + d) + b * b ≤ (a' + (d + 1)) * (a' + (d + 1)) + b' * b' := by
  have h3 : a ≤ a' + 1 := by nlinarith
  nlinarith [mul_nonneg hd (sub_nonneg.2 h3)]

theorem chain_arith_left (a b a' b' d : Int)
    (h1 : a * a + b * b ≤ (a' + -1) * (a' + -1) + b' * b')
    (h2 : a' * a' + b' * b' ≤ (a + 1) * (a + 1) + b * b) (hd : 0 ≤ d) :
    (a - d) * (a - d) + b * b ≤ (a' - (d + 1)) * (a' - (d + 1)) + b' * b' := by
  have h3 : a' ≤ a + 1 := by nlinarith
  nlinarith [mul_nonneg hd (sub_nonneg.2 h3)]

theorem row_optimal_right {g : SDFGenerator} {grid : Grid} {y : Int}
    (hside : ∀ X : Int, InGrid g X y → SideStable g grid X y) (c : Int) (n : Nat)
    (hc : InGrid g c y) (hm : InGrid g (c + n) y) :
    (getPoint g grid c y).distSq ≤
      (Point.mk ((getPoint g grid (c + n) y).dx + n) (getPoint g grid (c + n) y).dy).distSq := by
  induction n with
  | zero => simp
  | succ n ih =>
    have hmid : InGrid g (c + n) y := by
      obtain ⟨h1, h2, h3, h4⟩ := hm
      exact ⟨by have := hc.1; omega, by push_cast at h2; omega, h3, h4⟩
    have ih2 := ih hmid
    have s1 := (hside _ hmid).2
    have s2 := (hside _ hm).1
    unfold Stable candidate at s1 s2
    have e1 : c + ↑(n + 1) + -1 = c + n := by push_cast; ring
    have e2 : c + ↑n + 1 = c + ↑(n + 1) := by push_cast; ring
    rw [e1] at s2
    rw [e2] at s1
    simp only [Point.distSq, add_zero] at s1 s2 ih2 ⊢
    generalize getPoint g grid (c + ↑(n + 1)) y = v' at s1 s2 ⊢
    generalize getPoint g grid (c + ↑n) y = v at s1 s2 ih2
    have := chain_arith_right _ _ _ _ n s1 s2 (by omega)
    push_cast
    linarith

theorem row_optimal_left {g : SDFGenerator} {grid : Grid} {y : Int}
    (hside : ∀ X : Int, InGrid g X y → SideStable g grid X y) (c : Int) (n : Nat)
    (hc : InGrid g c y) (hm : InGrid g (c - n) y) :
    (getPoint g grid c y).distSq ≤
      (Point.mk ((getPoint g grid (c - n) y).dx - n) (getPoint g grid (c - n) y).dy).distSq := by
  induction n with
  | zero => simp
  | succ n ih =>
    have hmid : InGrid g (c - n) y := by
      obtain ⟨h1, h2, h3, h4⟩ := hm
      exact ⟨by push_cast at h1; omega, by have := hc.2.1; omega, h3, h4⟩
    have ih2 := ih hmid
    have s1 := (hside _ hmid).1
    have s2 := (hside _ hm).2
    unfold Stable candidate at s1 s2
    have e1 : c - ↑(n + 1) + 1 = c - n := by push_cast; ring
    have e2 : c - ↑n + -1 = c - ↑(n + 1) := by push_cast; ring
    rw [e1] at s2
    rw [e2] at s1
    simp only [Point.distSq, add_zero] at s1 s2 ih2 ⊢
    generalize getPoint g grid (c - ↑(n + 1)) y = v' at s1 s2 ⊢
    generalize getPoint g grid (c - ↑n) y = v at s1 s2 ih2
    have := chain_arith_left _ _ _ _ n s1 s2 (by omega)
    push_cast
    linarith

/-- In a row whose cells are all stable against their left and right
neighbours, no cell is beaten by the vector of any other cell of the row moved
over to it. -/
theorem row_optimal {g : SDFGenerator} {grid : Grid} {y : Int}
    (hside : ∀ X : Int, InGrid g X y → SideStable g grid X y) (c m : Int)
    (hc : InGrid g c y) (hm : InGrid g m y) :
    (getPoint g grid c y).distSq ≤
      (Point.mk ((getPoint g grid m y).dx + (m - c)) (getPoint g grid m y).dy).distSq := by
  by_cases h : c ≤ m
  · have e : c + ((m - c).toNat : Int) = m := by omega
    have := row_optimal_right hside c (m - c).toNat hc (by rw [e]; exact hm)
    rw [e] at this
    have e2 : ((m - c).toNat : Int) = m - c := by omega
    rw [e2] at this
    exact this
  · have e : c - ((c - m).toNat : Int) = m := by omega
    have := row_optimal_left hside c (c - m).toNat hc (by rw [e]; exact hm)
    rw [e] at this
    have e2 : ((c - m).toNat : Int) = c - m := by omega
    rw [e2] at this
    have e3 : (getPoint g grid m y).dx - (c - m) = (getPoint g grid m y).dx + (m - c) := by ring
    rw [e3] at this
    exact this

/-! ## The second pass -/

theorem bounded_relax {g : SDFGenerator} {grid : Grid} (hwf : WellFormed g grid)
    (h : Bounded g grid) (offsets : List (Int × Int)) {x y : Nat} (hx : x < g.WIDTH)
    (hy : y < g.HEIGHT) : Bounded g (relax g offsets y grid x) :=
  fun X Y => le_trans (relax_le hwf offsets hx hy X Y) (h X Y)

theorem chained_refl (g : SDFGenerator) (r : Nat) (grid : Grid) : Chained g r grid grid :=
  fun _ => Or.inl rfl

theorem chained_side {g : SDFGenerator} {old grid : Grid} {r : Nat} {k ox : Int}
    (hst : Stable g old k r ox 0)
    (hp : (getPoint g grid k r).distSq ≤ (getPoint g old k r).distSq)
    (hch : Chained g r old grid)
    (h2 : (candidate g grid k r ox 0).distSq < (getPoint g grid k r).distSq) :
    ∃ m : Int, InGrid g m (r + 1) ∧ candidate g grid k r ox 0 =
      ⟨(getPoint g old m (r + 1)).dx + (m - k), (getPoint g old m (r + 1)).dy + 1⟩ := by
  rcases hch (k + ox) with hsame | ⟨m, hm, hval⟩
  · exfalso
    unfold Stable at hst
    have e : candidate g grid k r ox 0 = candidate g old k r ox 0 := by
      unfold candidate
      simp only [add_zero]
      rw [hsame]
    rw [e] at h2
    omega
  · refine ⟨m, hm, ?_⟩
    unfold candidate
    simp only [add_zero]
    rw [hval]
    simp only [Point.mk.injEq, and_true]
    ring

theorem chained_down {g : SDFGenerator} {old grid : Grid} {r : Nat} {k ox : Int}
    (hE : g.empty = ⟨9999, 9999⟩) (hox : -1 ≤ ox) (hbd : Bounded g old)
    (hframe : RowFrame g r old grid)
    (h2 : (candidate g grid k r ox 1).distSq < (getPoint g grid k r).distSq) :
    ∃ m : Int, InGrid g m (r + 1) ∧ candidate g grid k r ox 1 =
      ⟨(getPoint g old m (r + 1)).dx + (m - k), (getPoint g old m (r + 1)).dy + 1⟩ := by
  by_cases hin : InGrid g (k + ox) (r + 1)
  · refine ⟨k + ox, hin, ?_⟩
    unfold candidate
    rw [hframe.2.1 _ _ (by omega)]
    simp only [Point.mk.injEq, and_true]
    ring
  · exfalso
    have h3 := hframe.2.2 k r
    have h4 := hbd k r
    unfold candidate at h2
    rw [getPoint_outside _ hin] at h2
    rw [hE] at h2 h4
    simp only [Point.distSq] at h2 h3 h4
    nlinarith

theorem chained_relax {g : SDFGenerator} {old grid : Grid} {r : Nat} (hr : r < g.HEIGHT)
    (hE : g.empty = ⟨9999, 9999⟩) (hbd : Bounded g old)
    (hside : ∀ X : Int, InGrid g X r → SideStable g old X r)
    (hframe : RowFrame g r old grid) (hch : Chained g r old grid)
    (offsets : List (Int × Int))
    (hoffs : ∀ o ∈ offsets, o ∈ [((1 : Int), (0 : Int)), (0, 1), (-1, 1), (1, 1), (-1, 0)])
    {k : Nat} (hk : k < g.WIDTH) : Chained g r old (relax g offsets r grid k) := by
  intro X
  rw [getPoint_relax hframe.1 offsets hk hr]
  by_cases e : X = k ∧ (r : Int) = r
  · rw [if_pos e]
    obtain ⟨e1, -⟩ := e
    subst e1
    rcases compareAll_cases g grid k r offsets (getPoint g grid k r) with h | ⟨o, ho, h1, h2⟩
    · rw [h]
      exact hch k
    · right
      rw [h1]
      have hp := hframe.2.2 k r
      have hs := hside k (inGrid_nat hk hr)
      have hmem := hoffs o ho
      simp only [List.mem_cons, List.mem_singleton, List.not_mem_nil, or_false] at hmem
      rcases hmem with e | e | e | e | e <;> subst e
      · exact chained_side hs.2 hp hch h2
      · exact chained_down hE (by omega) hbd hframe h2
      · exact chained_down hE (by omega) hbd hframe h2
      · exact chained_down hE (by omega) hbd hframe h2
      · exact chained_side hs.1 hp hch h2
  · rw [if_neg e]
    exact hch X

theorem chained_backwardRow {g : SDFGenerator} {grid : Grid} (hwf : WellFormed g grid)
    {r : Nat} (hr : r < g.HEIGHT) (hE : g.empty = ⟨9999, 9999⟩) (hbd : Bounded g grid)
    (hside : ∀ X : Int, InGrid g X r → SideStable g grid X r) :
    Chained g r grid (backwardRow g grid r) := by
  have key := backwardRow_preserves (g := g)
    (fun b => RowFrame g r grid b ∧ Chained g r grid b) r
    (by
      intro offsets b x ho hx ⟨hf, hc⟩
      exact ⟨rowFrame_relax hr hf offsets hx, chained_relax hr hE hbd hside hf hc offsets ho hx⟩)
    ⟨rowFrame_refl hwf r, chained_refl g r grid⟩
  exact key.2

theorem backwardDone_backwardRow {g : SDFGenerator} {grid : Grid} (hwf : WellFormed g grid)
    {r : Nat} (hr : r < g.HEIGHT) (hE : g.empty = ⟨9999, 9999⟩) (hbd : Bounded g grid)
    (h : BackwardDone g grid (r + 1)) : BackwardDone g (backwardRow g grid r) r := by
  intro X Y hin
  have hframe := rowFrame_backwardRow hwf hr
  obtain ⟨⟨hl, hrt⟩, hup, hdown⟩ := h X Y hin
  by_cases e : Y = r
  · subst e
    obtain ⟨h0, hX, -, -⟩ := hin
    have hfr1 : RowFrame g r grid ((List.range g.WIDTH).reverse.foldl
        (relax g [(1, 0), (0, 1), (-1, 1), (1, 1)] r) grid) :=
      rowFrame_foldl hr (rowFrame_refl hwf r) _ _ mem_range_reverse_lt
    have hmidwf := hfr1.1
    have hmid : ∀ (X : Int), 0 ≤ X → X < g.WIDTH → ∀ o ∈ [((1 : Int), (0 : Int)), (0, 1),
        (-1, 1), (1, 1)], Stable g ((List.range g.WIDTH).reverse.foldl
          (relax g [(1, 0), (0, 1), (-1, 1), (1, 1)] r) grid) X r o.1 o.2 := by
      intro X h0 hX o ho
      apply sweep_down_stable hwf _ _ hr X h0 hX o ho
      intro o ho
      simp only [List.mem_cons, List.mem_singleton, List.not_mem_nil, or_false] at ho
      rcases ho with e | e | e | e <;> subst e <;> simp
    have hfr2 : RowFrame g r ((List.range g.WIDTH).reverse.foldl
        (relax g [(1, 0), (0, 1), (-1, 1), (1, 1)] r) grid) (backwardRow g grid r) :=
      rowFrame_foldl hr (rowFrame_refl hmidwf r) _ _ mem_range_lt
    refine ⟨⟨?_, ?_⟩, ?_, ?_⟩
    · exact sweep_up_stable hmidwf [(-1, 0)] (by simp) hr X h0 hX (-1, 0) (by simp)
    · exact sweep_up_keeps_right hmidwf hr
        (fun X h0 hX => hmid X h0 hX (1, 0) (by simp)) X h0 hX
    · intro ox h1 h2
      exact stable_of_rowFrame hframe (by omega) (hup ox h1 h2)
    · intro _ ox h1 h2
      apply stable_of_rowFrame hfr2 (by omega)
      have hcases : ox = -1 ∨ ox = 0 ∨ ox = 1 := by omega
      rcases hcases with e | e | e <;> subst e
      · exact hmid X h0 hX (-1, 1) (by simp)
      · exact hmid X h0 hX (0, 1) (by simp)
      · exact hmid X h0 hX (1, 1) (by simp)
  · by_cases e2 : Y = r + 1
    · subst e2
      refine ⟨⟨?_, ?_⟩, ?_, ?_⟩
      · exact stable_of_rowFrame_other hframe e (by omega) hl
      · exact stable_of_rowFrame_other hframe e (by omega) hrt
      · intro ox h1 h2
        have hself : getPoint g (backwardRow g grid r) X (r + 1) = getPoint g grid X (r + 1) :=
          hframe.2.1 _ _ e
        have hch := chained_backwardRow hwf hr hE hbd
          (fun X hX => (h X r hX).1) (X + ox)
        have hrow : (r : Int) + 1 + -1 = r := by omega
        rcases hch with hsame | ⟨m, hm, hval⟩
        · apply stable_mono (le_of_eq (congrArg _ hself)) _ (hup ox h1 h2)
          rw [hrow]
          exact hsame
        · unfold Stable candidate
          rw [hself]
          simp only [hrow]
          rw [hval]
          have hopt := @row_optimal g grid ((r : Int) + 1)
            (fun X hX => (h X _ hX).1) X m hin hm
          have e3 : (getPoint g grid m (↑r + 1)).dx + (m - (X + ox)) + ox =
              (getPoint g grid m (↑r + 1)).dx + (m - X) := by ring
          have e4 : (getPoint g grid m (↑r + 1)).dy + 1 + -1 = (getPoint g grid m (↑r + 1)).dy := by
            ring
          rw [e3, e4]
          exact hopt
      · intro _ ox h1 h2
        exact stable_of_rowFrame_other hframe e (by omega) (hdown (by omega) ox h1 h2)
    · refine ⟨⟨?_, ?_⟩, ?_, ?_⟩
      · exact stable_of_rowFrame_other hframe e (by omega) hl
      · exact stable_of_rowFrame_other hframe e (by omega) hrt
      · intro ox h1 h2
        exact stable_of_rowFrame_other hframe e (by omega) (hup ox h1 h2)
      · intro h3 ox h1 h2
        exact stable_of_rowFrame_other hframe e (by omega) (hdown (by omega) ox h1 h2)

theorem bounded_forwardRow {g : SDFGenerator} {grid : Grid} (hwf : WellFormed g grid)
    (h : Bounded g grid) {y : Nat} (hy : y < g.HEIGHT) : Bounded g (forwardRow g grid y) :=
  fun X Y => le_trans ((rowFrame_forwardRow hwf hy).2.2 X Y) (h X Y)

theorem bounded_backwardRow {g : SDFGenerator} {grid : Grid} (hwf : WellFormed g grid)
    (h : Bounded g grid) {y : Nat} (hy : y < g.HEIGHT) : Bounded g (backwardRow g grid y) :=
  fun X Y => le_trans ((rowFrame_backwardRow hwf hy).2.2 X Y) (h X Y)

theorem bounded_forward_pass {g : SDFGenerator} {grid : Grid} (hwf : WellFormed g grid)
    (h : Bounded g grid) : Bounded g ((List.range g.HEIGHT).foldl (forwardRow g) grid) := by
  have key := foldl_range_invariant (forwardRow g)
    (fun _ b => WellFormed g b ∧ Bounded g b) g.HEIGHT grid ⟨hwf, h⟩
    (fun k b hk hb => ⟨wellFormed_forwardRow hb.1 k, bounded_forwardRow hb.1 hb.2 hk⟩)
  exact key.2

/-- After `generateSDF` no cell is strictly beaten by any of its eight
neighbours (nor by a neighbour outside the grid, which reads as `FAR`). -/
theorem locallyMinimal_generateSDF {g : SDFGenerator} {grid : Grid} (hwf : WellFormed g grid)
    (hE : g.empty = ⟨9999, 9999⟩) (hbd : Bounded g grid) :
    LocallyMinimal g (generateSDF g grid) := by
  obtain ⟨hfwf, hfd⟩ := forwardDone_pass hwf
  have hfb := bounded_forward_pass hwf hbd
  have key := foldl_range_reverse_invariant (backwardRow g)
    (fun k b => WellFormed g b ∧ Bounded g b ∧ BackwardDone g b k) g.HEIGHT _
    ⟨hfwf, hfb, fun X Y hin =>
      ⟨(hfd X Y hin hin.2.2.2).1, (hfd X Y hin hin.2.2.2).2, fun h => by
        have := hin.2.2.2; omega⟩⟩
    (fun k b hk hb => ⟨wellFormed_backwardRow hb.1 k, bounded_backwardRow hb.1 hb.2.1 hk,
      backwardDone_backwardRow hb.1 hk hE hb.2.1 hb.2.2⟩)
  have hdone : BackwardDone g (generateSDF g grid) 0 := key.2.2
  intro x y hin ox oy h1 h2 h3 h4
  obtain ⟨⟨hl, hr⟩, hup, hdown⟩ := hdone x y hin
  have hcases : oy = -1 ∨ oy = 0 ∨ oy = 1 := by omega
  rcases hcases with e | e | e <;> subst e
  · exact hup ox h1 h2
  · have hc2 : ox = -1 ∨ ox = 0 ∨ ox = 1 := by omega
    rcases hc2 with e | e | e <;> subst e
    · exact hl
    · unfold Stable candidate
      simp
    · exact hr
  · exact hdown (by have := hin.2.2.1; push_cast; omega) ox h1 h2

/-! ## A locally minimal grid is a fixed point -/

theorem relax_fixed {g : SDFGenerator} {grid : Grid} (hmin : LocallyMinimal g grid)
    (offsets : List (Int × Int))
    (hoffs : ∀ o ∈ offsets, -1 ≤ o.1 ∧ o.1 ≤ 1 ∧ -1 ≤ o.2 ∧ o.2 ≤ 1) {x y : Nat}
    (hx : x < g.WIDTH) (hy : y < g.HEIGHT) : relax g offsets y grid x = grid := by
  unfold relax
  rcases compareAll_cases g grid x y offsets (grid.cell x y) with h | ⟨o, ho, -, h2⟩
  · rw [h]
    exact put_cell_self grid x y
  · exfalso
    obtain ⟨h3, h4, h5, h6⟩ := hoffs o ho
    have := hmin x y (inGrid_nat hx hy) o.1 o.2 h3 h4 h5 h6
    unfold Stable at this
    rw [getPoint_nat grid hx hy] at this
    omega

theorem generateSDF_fixed {g : SDFGenerator} {grid : Grid} (hmin : LocallyMinimal g grid) :
    generateSDF g grid = grid :=
  generateSDF_preserves (fun b => b = grid)
    (fun offsets _ b _ ho hx hy hb => by
      subst hb
      exact relax_fixed hmin offsets ho hx hy) rfl

/-! ## Seed grids -/

theorem cell_mem {g : SDFGenerator} {grid : Grid} (hwf : WellFormed g grid) {x y : Nat}
    (hx : x < g.WIDTH) (hy : y < g.HEIGHT) : ∃ row ∈ grid, grid.cell x y ∈ row := by
  have hy2 : y < grid.length := hwf.1 ▸ hy
  have hrow : grid.getD y [] = grid[y] := by
    rw [List.getD_eq_getElem?_getD, List.getElem?_eq_getElem hy2]
    rfl
  have hx2 : x < grid[y].length := by
    rw [hwf.2 _ (List.getElem_mem hy2)]
    exact hx
  refine ⟨grid[y], List.getElem_mem hy2, ?_⟩
  have : grid.cell x y = grid[y][x] := by
    unfold Grid.cell
    rw [hrow, List.getD_eq_getElem?_getD, List.getElem?_eq_getElem hx2]
    rfl
  rw [this]
  exact List.getElem_mem hx2

theorem seedCells_of_isSeedGrid {g : SDFGenerator} {grid : Grid} (hwf : WellFormed g grid)
    (h : IsSeedGrid grid) : SeedCells g grid := by
  intro X Y hin
  rw [getPoint_inGrid grid hin]
  obtain ⟨h1, h2, h3, h4⟩ := hin
  obtain ⟨row, hrow, hmem⟩ := cell_mem hwf (x := X.toNat) (y := Y.toNat) (by omega) (by omega)
  exact h row hrow _ hmem

theorem bounded_of_seedCells {g : SDFGenerator} {grid : Grid} (hE : g.empty = ⟨9999, 9999⟩)
    (h : SeedCells g grid) : Bounded g grid := by
  intro X Y
  by_cases hin : InGrid g X Y
  · rcases h X Y hin with e | e
    · rw [e, hE]; simp [Point.distSq]
    · rw [e, hE]
  · rw [getPoint_outside grid hin]

/-! ## Every vector points at a seed -/

theorem tracked_of_seedCells {g : SDFGenerator} {grid : Grid} (h : SeedCells g grid) :
    Tracked g grid grid := by
  intro X Y hin
  rcases h X Y hin with e | e
  · left
    rw [e]
    simp only [PointsAtSeed, add_zero]
    exact ⟨hin, e⟩
  · right
    rw [e]
    obtain ⟨h1, -, h3, -⟩ := hin
    constructor <;> simp only <;> omega

theorem tracked_candidate {g : SDFGenerator} {input grid : Grid}
    (hE : g.empty = ⟨9999, 9999⟩) (h : Tracked g input grid) {X Y : Int} (hin : InGrid g X Y)
    {ox oy : Int} (hox : ox ≤ 1) (hoy : oy ≤ 1) (hox' : -1 ≤ ox) (hoy' : -1 ≤ oy) :
    PointsAtSeed g input X Y (candidate g grid X Y ox oy) ∨
      FarLike X Y (candidate g grid X Y ox oy) := by
  by_cases hn : InGrid g (X + ox) (Y + oy)
  · rcases h _ _ hn with ⟨h1, h2⟩ | ⟨h1, h2⟩
    · left
      have e1 : X + (candidate g grid X Y ox oy).dx =
          X + ox + (getPoint g grid (X + ox) (Y + oy)).dx := by
        simp only [candidate]; ring
      have e2 : Y + (candidate g grid X Y ox oy).dy =
          Y + oy + (getPoint g grid (X + ox) (Y + oy)).dy := by
        simp only [candidate]; ring
      unfold PointsAtSeed
      rw [e1, e2]
      exact ⟨h1, h2⟩
    · right
      simp only [FarLike, candidate]
      constructor <;> omega
  · right
    obtain ⟨h1, -, h3, -⟩ := hin
    simp only [FarLike, candidate, getPoint_outside grid hn, hE]
    constructor <;> omega

theorem tracked_relax {g : SDFGenerator} {input grid : Grid} (hwf : WellFormed g grid)
    (hE : g.empty = ⟨9999, 9999⟩) (h : Tracked g input grid) (offsets : List (Int × Int))
    (hoffs : ∀ o ∈ offsets, -1 ≤ o.1 ∧ o.1 ≤ 1 ∧ -1 ≤ o.2 ∧ o.2 ≤ 1) {x y : Nat}
    (hx : x < g.WIDTH) (hy : y < g.HEIGHT) : Tracked g input (relax g offsets y grid x) := by
  intro X Y hin
  rw [getPoint_relax hwf offsets hx hy]
  by_cases e : X = x ∧ Y = y
  · rw [if_pos e]
    obtain ⟨e1, e2⟩ := e
    subst e1 e2
    rcases compareAll_cases g grid x y offsets (getPoint g grid x y) with h1 | ⟨o, ho, h1, -⟩
    · rw [h1]
      exact h _ _ hin
    · rw [h1]
      obtain ⟨h3, h4, h5, h6⟩ := hoffs o ho
      exact tracked_candidate hE h hin h4 h6 h3 h5
  · rw [if_neg e]
    exact h X Y hin

/-- What `generateSDF` keeps from its input: the shape, the tracking invariant,
and the fact that squared lengths only go down. -/
theorem tracked_generateSDF {g : SDFGenerator} {grid : Grid} (hwf : WellFormed g grid)
    (hE : g.empty = ⟨9999, 9999⟩) (hs : SeedCells g grid) :
    Tracked g grid (generateSDF g grid) ∧
      ∀ X Y : Int, (getPoint g (generateSDF g grid) X Y).distSq ≤ (getPoint g grid X Y).distSq := by
  have key := generateSDF_preserves (g := g)
    (fun b => WellFormed g b ∧ Tracked g grid b ∧
      ∀ X Y : Int, (getPoint g b X Y).distSq ≤ (getPoint g grid X Y).distSq)
    (fun offsets y b x ho hx hy hb =>
      ⟨wellFormed_relax hb.1 _ _ _, tracked_relax hb.1 hE hb.2.1 offsets ho hx hy,
        fun X Y => le_trans (relax_le hb.1 offsets hx hy X Y) (hb.2.2 X Y)⟩)
    ⟨hwf, tracked_of_seedCells hs, fun _ _ => le_refl _⟩
  exact key.2

/-- A vector that points at a seed is shorter than any that descends from
`FAR`, as long as the grid is at most 4096 cells wide and high. -/
theorem pointsAtSeed_lt_farLike {g : SDFGenerator} {input : Grid} (hW : g.WIDTH ≤ 4096)
    (hH : g.HEIGHT ≤ 4096) {X Y : Int} (hin : InGrid g X Y) {p q : Point}
    (hp : PointsAtSeed g input X Y p) (hq : FarLike X Y q) : p.distSq < q.distSq := by
  obtain ⟨⟨h1, h2, h3, h4⟩, -⟩ := hp
  obtain ⟨h5, h6, h7, h8⟩ := hin
  obtain ⟨h9, h10⟩ := hq
  have a1 : p.dx ≤ 4095 := by omega
  have a2 : -4095 ≤ p.dx := by omega
  have a3 : p.dy ≤ 4095 := by omega
  have a4 : -4095 ≤ p.dy := by omega
  have a5 : 5903 ≤ q.dx := by omega
  have a6 : 5903 ≤ q.dy := by omega
  simp only [Point.distSq]
  nlinarith

/-- In a locally minimal tracked grid, pointing at a seed spreads from a cell
to each of its eight neighbours. -/
theorem pointsAtSeed_spread {g : SDFGenerator} {input grid : Grid}
    (hW : g.WIDTH ≤ 4096) (hH : g.HEIGHT ≤ 4096)
    (htr : Tracked g input grid) (hmin : LocallyMinimal g grid) {X Y ox oy : Int}
    (hin : InGrid g X Y)
    (hox : -1 ≤ ox) (hox' : ox ≤ 1) (hoy : -1 ≤ oy) (hoy' : oy ≤ 1)
    (h : PointsAtSeed g input (X + ox) (Y + oy) (getPoint g grid (X + ox) (Y + oy))) :
    PointsAtSeed g input X Y (getPoint g grid X Y) := by
  rcases htr X Y hin with h1 | h1
  · exact h1
  · exfalso
    have hst := hmin X Y hin ox oy hox hox' hoy hoy'
    unfold Stable at hst
    have hc : PointsAtSeed g input X Y (candidate g grid X Y ox oy) := by
      have e1 : X + (candidate g grid X Y ox oy).dx =
          X + ox + (getPoint g grid (X + ox) (Y + oy)).dx := by
        simp only [candidate]; ring
      have e2 : Y + (candidate g grid X Y ox oy).dy =
          Y + oy + (getPoint g grid (X + ox) (Y + oy)).dy := by
        simp only [candidate]; ring
      unfold PointsAtSeed
      rw [e1, e2]
      exact h
    have := pointsAtSeed_lt_farLike hW hH hin hc h1
    omega

theorem pointsAtSeed_all {g : SDFGenerator} {input grid : Grid} (hW : g.WIDTH ≤ 4096)
    (hH : g.HEIGHT ≤ 4096) (htr : Tracked g input grid) (hmin : LocallyMinimal g grid)
    {x0 y0 : Int} (hin0 : InGrid g x0 y0)
    (hseed : PointsAtSeed g input x0 y0 (getPoint g grid x0 y0)) (n : Nat) :
    ∀ X Y : Int, InGrid g X Y →
      (X - x0).toNat + (x0 - X).toNat + (Y - y0).toNat + (y0 - Y).toNat ≤ n →
      PointsAtSeed g input X Y (getPoint g grid X Y) := by
  induction n with
  | zero =>
    intro X Y _ hd
    have e1 : X = x0 := by omega
    have e2 : Y = y0 := by omega
    subst e1 e2
    exact hseed
  | succ n ih =>
    intro X Y hin hd
    obtain ⟨h1, h2, h3, h4⟩ := hin
    obtain ⟨h5, h6, h7, h8⟩ := hin0
    by_cases c1 : x0 < X
    · exact pointsAtSeed_spread hW hH htr hmin ⟨h1, h2, h3, h4⟩ (by omega) (by omega)
        (by omega) (by omega)
        (ih (X + -1) (Y + 0) ⟨by omega, by omega, by omega, by omega⟩ (by omega))
    · by_cases c2 : X < x0
      · exact pointsAtSeed_spread hW hH htr hmin ⟨h1, h2, h3, h4⟩ (by omega) (by omega)
          (by omega) (by omega)
          (ih (X + 1) (Y + 0) ⟨by omega, by omega, by omega, by omega⟩ (by omega))
      · by_cases c3 : y0 < Y
        · exact pointsAtSeed_spread hW hH htr hmin ⟨h1, h2, h3, h4⟩ (by omega) (by omega)
            (by omega) (by omega)
            (ih (X + 0) (Y + -1) ⟨by omega, by omega, by omega, by omega⟩ (by omega))
        · by_cases c4 : Y < y0
          · exact pointsAtSeed_spread hW hH htr hmin ⟨h1, h2, h3, h4⟩ (by omega) (by omega)
              (by omega) (by omega)
              (ih (X + 0) (Y + 1) ⟨by omega, by omega, by omega, by omega⟩ (by omega))
          · have e1 : X = x0 := by omega
            have e2 : Y = y0 := by omega
            subst e1 e2
            exact hseed

/-- Core of the seed theorems: on a seed grid of at most 4096 by 4096 cells
with at least one seed, every cell of the output points at a seed of the
input. -/
theorem pointsAtSeed_generateSDF {g : SDFGenerator} {grid : Grid} (hwf : WellFormed g grid)
    (hE : g.empty = ⟨9999, 9999⟩) (hW : g.WIDTH ≤ 4096) (hH : g.HEIGHT ≤ 4096)
    (hs : SeedCells g grid) {x0 y0 : Int} (hin0 : InGrid g x0 y0)
    (hseed : getPoint g grid x0 y0 = ⟨0, 0⟩) (X Y : Int) (hin : InGrid g X Y) :
    PointsAtSeed g grid X Y (getPoint g (generateSDF g grid) X Y) := by
  obtain ⟨htr, hmono⟩ := tracked_generateSDF hwf hE hs
  have hmin := locallyMinimal_generateSDF hwf hE (bounded_of_seedCells hE hs)
  have h0 : PointsAtSeed g grid x0 y0 (getPoint g (generateSDF g grid) x0 y0) := by
    rcases htr x0 y0 hin0 with h1 | ⟨h1, h2⟩
    · exact h1
    · exfalso
      have h3 := hmono x0 y0
      rw [hseed] at h3
      obtain ⟨h5, h6, h7, h8⟩ := hin0
      have a5 : 5903 ≤ (getPoint g (generateSDF g grid) x0 y0).dx := by omega
      simp only [Point.distSq] at h3
      nlinarith [mul_self_nonneg (getPoint g (generateSDF g grid) x0 y0).dy]
  exact pointsAtSeed_all hW hH htr hmin hin0 h0 _ X Y hin (le_refl _)

/-! ## Claims about the distance transform -/

/-- C1 (single-seed exactness): on a grid of at most 4096 by 4096 cells whose
only `INSIDE` cell is `(x0, y0)`, all others being `FAR`, `generateSDF` leaves at
every cell `(x, y)` a vector of squared length `(x - x0)^2 + (y - y0)^2`. -/
theorem single_seed_exact (W H x0 y0 : Nat) (grid : Grid)
    (hW : 1 ≤ W ∧ W ≤ 4096) (hH : 1 ≤ H ∧ H ≤ 4096)
    (hwf : WellFormed (sized W H) grid) (hx0 : x0 < W) (hy0 : y0 < H)
    (hseed : grid.cell x0 y0 = ⟨0, 0⟩)
    (hfar : ∀ x, x < W → ∀ y, y < H → ¬ (x = x0 ∧ y = y0) → grid.cell x y = ⟨9999, 9999⟩)
    (x y : Nat) (hx : x < W) (hy : y < H) :
    ((generateSDF (sized W H) grid).cell x y).distSq =
      ((x : Int) - x0) ^ 2 + ((y : Int) - y0) ^ 2 := by
  have hcell : ∀ X Y : Int, InGrid (sized W H) X Y →
      getPoint (sized W H) grid X Y =
        if X = x0 ∧ Y = y0 then (⟨0, 0⟩ : Point) else ⟨9999, 9999⟩ := by
    intro X Y hin
    rw [getPoint_inGrid grid hin]
    obtain ⟨h1, h2, h3, h4⟩ := hin
    have h2' : X < W := h2
    have h4' : Y < H := h4
    by_cases e : X = x0 ∧ Y = y0
    · rw [if_pos e]
      obtain ⟨e1, e2⟩ := e
      subst e1 e2
      simpa using hseed
    · rw [if_neg e]
      exact hfar X.toNat (by omega) Y.toNat (by omega) (by omega)
  have hs : SeedCells (sized W H) grid := by
    intro X Y hin
    rw [hcell X Y hin]
    split
    · left; rfl
    · right; rfl
  have hin0 : InGrid (sized W H) x0 y0 := inGrid_nat hx0 hy0
  have hin : InGrid (sized W H) x y := inGrid_nat hx hy
  have hs0 : getPoint (sized W H) grid x0 y0 = ⟨0, 0⟩ := by
    rw [hcell _ _ hin0, if_pos ⟨rfl, rfl⟩]
  obtain ⟨h1, h2⟩ := pointsAtSeed_generateSDF (g := sized W H) hwf rfl hW.2 hH.2 hs hin0 hs0
    x y hin
  rw [hcell _ _ h1] at h2
  have h3 : (x : Int) + (getPoint (sized W H) (generateSDF (sized W H) grid) x y).dx = x0 ∧
      (y : Int) + (getPoint (sized W H) (generateSDF (sized W H) grid) x y).dy = y0 := by
    by_contra hne
    rw [if_neg hne] at h2
    simp at h2
  rw [getPoint_nat _ hx hy] at h3
  obtain ⟨h4, h5⟩ := h3
  have e1 : ((generateSDF (sized W H) grid).cell x y).dx = x0 - x := by omega
  have e2 : ((generateSDF (sized W H) grid).cell x y).dy = y0 - y := by omega
  simp only [Point.distSq, e1, e2]
  ring

set_option maxRecDepth 100000 in
/-- C1 at a concrete input: a 3 by 2 grid with its seed at `(1, 1)`, read at the
corner `(0, 0)`. -/
theorem single_seed_exact_witness :
    WellFormed (sized 3 2) [[⟨9999, 9999⟩, ⟨9999, 9999⟩, ⟨9999, 9999⟩],
        [⟨9999, 9999⟩, ⟨0, 0⟩, ⟨9999, 9999⟩]] ∧
      ((generateSDF (sized 3 2) [[⟨9999, 9999⟩, ⟨9999, 9999⟩, ⟨9999, 9999⟩],
        [⟨9999, 9999⟩, ⟨0, 0⟩, ⟨9999, 9999⟩]]).cell 0 0).distSq =
        (((0 : Nat) : Int) - (1 : Nat)) ^ 2 + (((0 : Nat) : Int) - (1 : Nat)) ^ 2 :=
  ⟨by decide, single_seed_exact 3 2 1 1 _ (by decide) (by decide) (by decide) (by decide)
    (by decide) (by decide) (by decide) 0 0 (by decide) (by decide)⟩

/-- C2 (idempotence): on a grid of `INSIDE` and `FAR` cells, running
`generateSDF` on its own output changes nothing; and in the output no cell is
strictly beaten in squared length by the vector of one of its eight neighbours
plus the offset to that neighbour. -/
theorem generateSDF_idempotent (W H : Nat) (grid : Grid)
    (hwf : WellFormed (sized W H) grid) (hcells : IsSeedGrid grid) :
    generateSDF (sized W H) (generateSDF (sized W H) grid) = generateSDF (sized W H) grid ∧
      ∀ x y : Nat, x < W → y < H → ∀ ox oy : Int, -1 ≤ ox → ox ≤ 1 → -1 ≤ oy → oy ≤ 1 →
        ¬ (candidate (sized W H) (generateSDF (sized W H) grid) x y ox oy).distSq <
          ((generateSDF (sized W H) grid).cell x y).distSq := by
  have hmin := locallyMinimal_generateSDF (g := sized W H) hwf rfl
    (bounded_of_seedCells rfl (seedCells_of_isSeedGrid hwf hcells))
  refine ⟨generateSDF_fixed hmin, ?_⟩
  intro x y hx hy ox oy h1 h2 h3 h4
  have := hmin x y (inGrid_nat hx hy) ox oy h1 h2 h3 h4
  unfold Stable at this
  rw [getPoint_nat _ hx hy] at this
  omega

set_option maxRecDepth 100000 in
/-- C2 at a concrete input: a 2 by 2 grid with one seed. -/
theorem generateSDF_idempotent_witness :
    IsSeedGrid [[⟨0, 0⟩, ⟨9999, 9999⟩], [⟨9999, 9999⟩, ⟨9999, 9999⟩]] ∧
      generateSDF (sized 2 2) (generateSDF (sized 2 2)
          [[⟨0, 0⟩, ⟨9999, 9999⟩], [⟨9999, 9999⟩, ⟨9999, 9999⟩]]) =
        generateSDF (sized 2 2) [[⟨0, 0⟩, ⟨9999, 9999⟩], [⟨9999, 9999⟩, ⟨9999, 9999⟩]] :=
  ⟨by decide, (generateSDF_idempotent 2 2 _ (by decide) (by decide)).1⟩

/-- C3 (every output vector points at a real seed): on a grid of `INSIDE` and
`FAR` cells, at most 4096 by 4096, with at least one `INSIDE` cell, the vector
`(dx, dy)` that `generateSDF` leaves at `(x, y)` ends inside the grid, on a cell
that was `INSIDE` in the input; so its squared length is at least every lower
bound of the squared distances from `(x, y)` to the seeds, the minimum
included. -/
theorem output_points_at_seed (W H : Nat) (grid : Grid)
    (hW : 1 ≤ W ∧ W ≤ 4096) (hH : 1 ≤ H ∧ H ≤ 4096)
    (hwf : WellFormed (sized W H) grid) (hcells : IsSeedGrid grid)
    (x0 y0 : Nat) (hx0 : x0 < W) (hy0 : y0 < H) (hseed : grid.cell x0 y0 = ⟨0, 0⟩)
    (x y : Nat) (hx : x < W) (hy : y < H) :
    0 ≤ (x : Int) + ((generateSDF (sized W H) grid).cell x y).dx ∧
      (x : Int) + ((generateSDF (sized W H) grid).cell x y).dx < W ∧
      0 ≤ (y : Int) + ((generateSDF (sized W H) grid).cell x y).dy ∧
      (y : Int) + ((generateSDF (sized W H) grid).cell x y).dy < H ∧
      grid.cell ((x : Int) + ((generateSDF (sized W H) grid).cell x y).dx).toNat
        ((y : Int) + ((generateSDF (sized W H) grid).cell x y).dy).toNat = ⟨0, 0⟩ ∧
      ∀ m : Int,
        (∀ sx sy : Nat, sx < W → sy < H → grid.cell sx sy = ⟨0, 0⟩ →
          m ≤ ((sx : Int) - x) ^ 2 + ((sy : Int) - y) ^ 2) →
        m ≤ ((generateSDF (sized W H) grid).cell x y).distSq := by
  have hs := seedCells_of_isSeedGrid hwf hcells
  have hin0 : InGrid (sized W H) x0 y0 := inGrid_nat hx0 hy0
  have hin : InGrid (sized W H) x y := inGrid_nat hx hy
  have hs0 : getPoint (sized W H) grid x0 y0 = ⟨0, 0⟩ := by
    rw [getPoint_nat _ hx0 hy0]
    exact hseed
  obtain ⟨h1, h2⟩ := pointsAtSeed_generateSDF (g := sized W H) hwf rfl hW.2 hH.2 hs hin0 hs0
    x y hin
  rw [getPoint_inGrid _ h1] at h2
  rw [getPoint_nat _ hx hy] at h1 h2
  obtain ⟨a1, a2, a3, a4⟩ := h1
  have a2' : (x : Int) + ((generateSDF (sized W H) grid).cell x y).dx < W := a2
  have a4' : (y : Int) + ((generateSDF (sized W H) grid).cell x y).dy < H := a4
  refine ⟨a1, a2', a3, a4', h2, ?_⟩
  intro m hm
  have := hm _ _ (by omega) (by omega) h2
  have e1 : (((x : Int) + ((generateSDF (sized W H) grid).cell x y).dx).toNat : Int) - x =
      ((generateSDF (sized W H) grid).cell x y).dx := by omega
  have e2 : (((y : Int) + ((generateSDF (sized W H) grid).cell x y).dy).toNat : Int) - y =
      ((generateSDF (sized W H) grid).cell x y).dy := by omega
  rw [e1, e2] at this
  simp only [Point.distSq]
  nlinarith

set_option maxRecDepth 100000 in
/-- C3 at a concrete input: a 2 by 2 grid with seeds at `(0, 0)` and `(1, 1)`,
read at `(1, 0)`. -/
theorem output_points_at_seed_witness :
    IsSeedGrid [[⟨0, 0⟩, ⟨9999, 9999⟩], [⟨9999, 9999⟩, ⟨0, 0⟩]] ∧
      (0 ≤ ((1 : Nat) : Int) + ((generateSDF (sized 2 2)
          [[⟨0, 0⟩, ⟨9999, 9999⟩], [⟨9999, 9999⟩, ⟨0, 0⟩]]).cell 1 0).dx ∧
        ((1 : Nat) : Int) + ((generateSDF (sized 2 2)
          [[⟨0, 0⟩, ⟨9999, 9999⟩], [⟨9999, 9999⟩, ⟨0, 0⟩]]).cell 1 0).dx < (2 : Nat)) :=
  ⟨by decide,
    (output_points_at_seed 2 2 _ (by decide) (by decide) (by decide) (by decide) 0 0
      (by decide) (by decide) (by decide) 1 0 (by decide) (by decide)).1,
    (output_points_at_seed 2 2 _ (by decide) (by decide) (by decide) (by decide) 0 0
      (by decide) (by decide) (by decide) 1 0 (by decide) (by decide)).2.1⟩

/-! ## Properties of the rounding function -/

theorem roundHalfEven_intCast (n : ℤ) : roundHalfEven (n : ℚ) = n := by
  simp [roundHalfEven]

theorem floor_le_roundHalfEven (x : ℚ) : ⌊x⌋ ≤ roundHalfEven x := by
  unfold roundHalfEven
  split_ifs <;> omega

theorem roundHalfEven_le_floor_add_one (x : ℚ) : roundHalfEven x ≤ ⌊x⌋ + 1 := by
  unfold roundHalfEven
  split_ifs <;> omega

theorem roundHalfEven_mono {x y : ℚ} (h : x ≤ y) : roundHalfEven x ≤ roundHalfEven y := by
  have hf : ⌊x⌋ ≤ ⌊y⌋ := Int.floor_mono h
  rcases lt_or_eq_of_le hf with h1 | h1
  · have := roundHalfEven_le_floor_add_one x
    have := floor_le_roundHalfEven y
    omega
  · unfold roundHalfEven
    rw [← h1]
    have hxy : 2 * (x - ⌊x⌋) ≤ 2 * (y - ⌊x⌋) := by linarith
    split_ifs <;> first | omega | linarith

theorem roundPos_zero : roundPos 0 = 0 := by
  simp [roundPos, roundHalfEven]

theorem two_zpow_pos (k : ℤ) : (0 : ℚ) < 2 ^ k :=
  zpow_pos (by norm_num) k

/-- `roundPos` stays inside the binade of its argument. -/
theorem roundPos_bounds {x : ℚ} (hx : 0 < x) :
    (2 : ℚ) ^ Int.log 2 x ≤ roundPos x ∧ roundPos x ≤ 2 ^ (Int.log 2 x + 1) := by
  have h1 : (2 : ℚ) ^ Int.log 2 x ≤ x := by
    have := Int.zpow_log_le_self (b := 2) (by norm_num) hx
    simpa using this
  have h2 : x < (2 : ℚ) ^ (Int.log 2 x + 1) := by
    have := Int.lt_zpow_succ_log_self (b := 2) (by norm_num) x
    simpa using this
  have hu := two_zpow_pos (Int.log 2 x - 52)
  have e1 : (2 : ℚ) ^ Int.log 2 x = 2 ^ (52 : ℤ) * 2 ^ (Int.log 2 x - 52) := by
    rw [← zpow_add₀ (by norm_num : (2 : ℚ) ≠ 0)]
    congr 1
    ring
  have e2 : (2 : ℚ) ^ (Int.log 2 x + 1) = 2 ^ (53 : ℤ) * 2 ^ (Int.log 2 x - 52) := by
    rw [← zpow_add₀ (by norm_num : (2 : ℚ) ≠ 0)]
    congr 1
    ring
  have l1 : ((2 ^ 52 : ℤ) : ℚ) ≤ x / 2 ^ (Int.log 2 x - 52) := by
    rw [le_div_iff₀ hu]
    rw [e1] at h1
    push_cast
    exact_mod_cast h1
  have l2 : x / 2 ^ (Int.log 2 x - 52) ≤ ((2 ^ 53 : ℤ) : ℚ) := by
    rw [div_le_iff₀ hu]
    rw [e2] at h2
    push_cast
    exact_mod_cast h2.le
  have r1 := roundHalfEven_mono l1
  have r2 := roundHalfEven_mono l2
  rw [roundHalfEven_intCast] at r1 r2
  unfold roundPos
  constructor
  · rw [e1]
    apply mul_le_mul_of_nonneg_right _ hu.le
    exact_mod_cast r1
  · rw [e2]
    apply mul_le_mul_of_nonneg_right _ hu.le
    exact_mod_cast r2

theorem roundPos_pos {x : ℚ} (hx : 0 < x) : 0 < roundPos x :=
  lt_of_lt_of_le (two_zpow_pos _) (roundPos_bounds hx).1

theorem roundPos_mono {x y : ℚ} (hx : 0 ≤ x) (h : x ≤ y) : roundPos x ≤ roundPos y := by
  rcases eq_or_lt_of_le hx with h0 | h0
  · rw [← h0, roundPos_zero]
    rcases eq_or_lt_of_le (le_trans hx h) with h1 | h1
    · rw [← h1, roundPos_zero]
    · exact (roundPos_pos h1).le
  · have hy : 0 < y := lt_of_lt_of_le h0 h
    have hlog : Int.log 2 x ≤ Int.log 2 y := Int.log_mono_right h0 h
    rcases lt_or_eq_of_le hlog with h1 | h1
    · have b1 := (roundPos_bounds h0).2
      have b2 := (roundPos_bounds hy).1
      have : (2 : ℚ) ^ (Int.log 2 x + 1) ≤ 2 ^ Int.log 2 y :=
        zpow_le_zpow_right₀ (by norm_num) (by omega)
      linarith
    · unfold roundPos
      rw [h1]
      have hu := two_zpow_pos (Int.log 2 y - 52)
      apply mul_le_mul_of_nonneg_right _ hu.le
      have : x / 2 ^ (Int.log 2 y - 52) ≤ y / 2 ^ (Int.log 2 y - 52) :=
        div_le_div_of_nonneg_right h hu.le
      exact_mod_cast roundHalfEven_mono this

theorem roundPos_nonneg {x : ℚ} (hx : 0 ≤ x) : 0 ≤ roundPos x := by
  have := roundPos_mono (le_refl 0) hx
  rwa [roundPos_zero] at this

/-- Rounding to `float64` is monotone. -/
theorem f64_mono {x y : ℚ} (h : x ≤ y) : f64 x ≤ f64 y := by
  unfold f64
  split_ifs with hx hy hy
  · exact neg_le_neg (roundPos_mono (by linarith) (by linarith))
  · have := roundPos_nonneg (x := -x) (by linarith)
    have := roundPos_nonneg (x := y) (by linarith)
    linarith
  · linarith
  · exact roundPos_mono (by linarith) h

/-- A number with at most 53 significant bits is a `float64`: rounding leaves
it unchanged. -/
theorem roundPos_dyadic (m : ℕ) (k : ℤ) (hm : m < 2 ^ 53) :
    roundPos (m * 2 ^ k) = m * 2 ^ k := by
  rcases Nat.eq_zero_or_pos m with h0 | h0
  · subst h0
    simp [roundPos_zero]
  · have hx : (0 : ℚ) < m * 2 ^ k := mul_pos (by exact_mod_cast h0) (two_zpow_pos k)
    have hlt : (m : ℚ) * 2 ^ k < ((2 : ℕ) : ℚ) ^ (k + 53) := by
      have e : (((2 : ℕ) : ℚ)) ^ (k + 53) = 2 ^ (53 : ℤ) * 2 ^ k := by
        push_cast
        rw [← zpow_add₀ (by norm_num : (2 : ℚ) ≠ 0)]
        congr 1
        ring
      rw [e]
      apply mul_lt_mul_of_pos_right _ (two_zpow_pos k)
      have : (m : ℚ) < ((2 ^ 53 : ℕ) : ℚ) := by exact_mod_cast hm
      norm_num at this ⊢
      exact this
    have hlog : Int.log 2 ((m : ℚ) * 2 ^ k) < k + 53 :=
      (Int.lt_zpow_iff_log_lt (by norm_num) hx).1 hlt
    obtain ⟨j, hj⟩ : ∃ j : ℕ, (j : ℤ) = k - (Int.log 2 ((m : ℚ) * 2 ^ k) - 52) :=
      ⟨(k - (Int.log 2 ((m : ℚ) * 2 ^ k) - 52)).toNat, by omega⟩
    have hk : k = (j : ℤ) + (Int.log 2 ((m : ℚ) * 2 ^ k) - 52) := by omega
    unfold roundPos
    generalize Int.log 2 ((m : ℚ) * 2 ^ k) - 52 = u at hk
    subst hk
    have hu := two_zpow_pos u
    have e1 : (m : ℚ) * 2 ^ ((j : ℤ) + u) / 2 ^ u = ((m * 2 ^ j : ℤ) : ℚ) := by
      rw [zpow_add₀ (by norm_num : (2 : ℚ) ≠ 0)]
      field_simp
      ring
    rw [e1, roundHalfEven_intCast, zpow_add₀ (by norm_num : (2 : ℚ) ≠ 0)]
    push_cast
    rw [zpow_natCast]
    ring

theorem f64_dyadic (m : ℤ) (k : ℤ) (hm : |m| < 2 ^ 53) : f64 (m * 2 ^ k) = m * 2 ^ k := by
  unfold f64
  have hu := two_zpow_pos k
  split_ifs with h
  · have hneg : m < 0 := by
      by_contra hc
      have : (0 : ℚ) ≤ m := by exact_mod_cast (not_lt.1 hc)
      nlinarith
    have e : -((m : ℚ) * 2 ^ k) = ((-m).toNat : ℚ) * 2 ^ k := by
      have : (((-m).toNat : ℤ) : ℚ) = -(m : ℚ) := by
        rw [Int.toNat_of_nonneg (by omega)]
        push_cast
        ring
      rw [show (((-m).toNat : ℕ) : ℚ) = (((-m).toNat : ℤ) : ℚ) from by push_cast; rfl, this]
      ring
    rw [e, roundPos_dyadic _ _ (by rw [abs_lt] at hm; omega), ← e]
    ring
  · have hpos : 0 ≤ m := by
      by_contra hc
      have : (m : ℚ) < 0 := by exact_mod_cast (not_le.1 hc)
      nlinarith
    have e : ((m : ℚ) * 2 ^ k) = (m.toNat : ℚ) * 2 ^ k := by
      have : ((m.toNat : ℤ) : ℚ) = (m : ℚ) := by
        rw [Int.toNat_of_nonneg hpos]
      rw [show ((m.toNat : ℕ) : ℚ) = ((m.toNat : ℤ) : ℚ) from by push_cast; rfl, this]
    rw [e, roundPos_dyadic _ _ (by rw [abs_lt] at hm; omega)]

theorem f64_intCast (n : ℤ) (hn : |n| < 2 ^ 53) : f64 n = n := by
  have := f64_dyadic n 0 hn
  simpa using this

theorem f64_natCast (n : ℕ) (hn : n < 2 ^ 53) : f64 n = n := by
  have := f64_intCast n (by rw [abs_lt]; constructor <;> omega)
  simpa using this

/-! ## Images and the blender -/

theorem getD_map_range {α : Type} (n : Nat) (f : Nat → α) (d : α) {i : Nat} (hi : i < n) :
    ((List.range n).map f).getD i d = f i := by
  rw [List.getD_eq_getElem?_getD, List.getElem?_map, List.getElem?_range hi]
  rfl

theorem RGBAAt_fill (w h : Nat) (f : Nat → Nat → RGBA) {x y : Nat} (hx : x < w) (hy : y < h) :
    (Image.fill w h f).RGBAAt x y = f x y := by
  unfold Image.RGBAAt Image.fill
  simp only
  rw [if_pos ⟨hx, hy⟩, getD_map_range h _ _ hy, getD_map_range w _ _ hx]

theorem RGBAAt_outside (img : Image) {x y : Nat} (h : ¬ (x < img.width ∧ y < img.height)) :
    img.RGBAAt x y = ⟨0, 0, 0, 0⟩ := by
  unfold Image.RGBAAt
  rw [if_neg h]

theorem fill_congr (w h : Nat) (f f' : Nat → Nat → RGBA)
    (hf : ∀ x y, x < w → y < h → f x y = f' x y) : Image.fill w h f = Image.fill w h f' := by
  unfold Image.fill
  congr 1
  apply List.map_congr_left
  intro y hy
  apply List.map_congr_left
  intro x hx
  exact hf x y (List.mem_range.1 hx) (List.mem_range.1 hy)

theorem toUint8_of_floor {x : ℚ} {q : Nat} (hq : q < 256) (h1 : (q : ℚ) ≤ x)
    (h2 : x < (q : ℚ) + 1) : toUint8 x = q := by
  unfold toUint8
  have : ⌊x⌋ = (q : ℤ) := by
    rw [Int.floor_eq_iff]
    push_cast
    exact ⟨h1, h2⟩
  rw [this, Int.toNat_ofNat, Nat.mod_eq_of_lt hq]

theorem toUint8_natCast (n : Nat) (h : n < 256) : toUint8 (n : ℚ) = n :=
  toUint8_of_floor h (le_refl _) (by linarith)

theorem blendValue_lt (r1 r2 : Nat) : blendValue r1 r2 < 256 :=
  Nat.mod_lt _ (by norm_num)

/-- The mean over one pair is that pair's value. -/
theorem blendAvg_one (v : Nat) (h : v < 256) : blendAvg v 1 = v := by
  unfold blendAvg fdiv
  have h1 : f64 ((1 : ℕ) : ℚ) = 1 := by
    have := f64_natCast 1 (by norm_num)
    simpa using this
  have h2 : f64 (v : ℚ) = v := f64_natCast v (by omega)
  rw [h1, h2, div_one, h2]
  have h3 : (0 : ℚ) ≤ v := by positivity
  have h4 : (v : ℚ) ≤ 255 := by
    have : v ≤ 255 := by omega
    exact_mod_cast this
  rw [max_eq_right h3, min_eq_right h4]
  exact toUint8_natCast v h

/-- C10 (two-field reduction): for two fields `a` and `b` (of any sizes, equal
ones included, and `a = b` included) `BlendSDF` produces exactly the image
`blendPair a b`: the mean is taken over one pairwise blend. -/
theorem blendSDF_pair (a b : Image) : BlendSDF [a, b] = some (blendPair a b) := by
  unfold BlendSDF
  simp only [List.length_cons, List.length_nil, List.getD_cons_zero]
  rw [if_neg (by norm_num)]
  congr 1
  unfold blendPair
  apply fill_congr
  intro x y hx hy
  have hs : blendSum [a, b] x y = ((blendPair a b).RGBAAt x y).R := by
    have e : blendSum [a, b] x y = 0 + ((blendPair a b).RGBAAt x y).R := rfl
    rw [e, Nat.zero_add]
  rw [hs]
  unfold blendPair
  rw [RGBAAt_fill _ _ _ hx hy]
  simp only
  rw [blendAvg_one _ (blendValue_lt _ _)]
/-- C9 (order sensitivity): the three distinct 2 by 1 fields `[0, 0]`,
`[255, 0]`, `[255, 255]` blend to different images in the orders `[A, B, C]` and
`[C, B, A]` (intensity 127 against 63 at the first pixel). -/
theorem blend_order_sensitive :
    ∃ A B C : Image, A ≠ B ∧ B ≠ C ∧ A ≠ C ∧
      A.width = B.width ∧ B.width = C.width ∧ A.height = B.height ∧ B.height = C.height ∧
      ∃ x y : Nat, x < A.width ∧ y < A.height ∧
        (BlendSDF [A, B, C]).map (fun r => r.RGBAAt x y) ≠
          (BlendSDF [C, B, A]).map (fun r => r.RGBAAt x y) :=
  ⟨fieldA, fieldB, fieldC, by decide, by decide, by decide, rfl, rfl, rfl, rfl, 0, 0,
    by decide, by decide, by decide!⟩

/-- C8 as stated fails: for the fields `[A, B, C]` the two pairwise blends at the
first pixel are 255 and 0, the claimed value is `round(127.5) = 128`, and
`BlendSDF` writes 127. -/
theorem blend_mean_not_rounded :
    (BlendSDF [fieldA, fieldB, fieldC]).map (fun r => ((r.RGBAAt 0 0).R : ℤ)) = some 127 ∧
      blendSum [fieldA, fieldB, fieldC] 0 0 = 255 ∧
      roundedMean (blendSum [fieldA, fieldB, fieldC] 0 0) (3 - 1) = 128 := by
  decide!
theorem blendPair_R_le (a b : Image) (x y : Nat) : ((blendPair a b).RGBAAt x y).R ≤ 255 := by
  by_cases h : x < a.width ∧ y < a.height
  · unfold blendPair
    rw [RGBAAt_fill _ _ _ h.1 h.2]
    have := blendValue_lt (a.RGBAAt x y).R (b.RGBAAt x y).R
    show blendValue _ _ ≤ 255
    omega
  · have : ¬ (x < (blendPair a b).width ∧ y < (blendPair a b).height) := h
    rw [RGBAAt_outside _ this]
    exact Nat.zero_le _

theorem blendSum_le (sdfs : List Image) (x y : Nat) :
    blendSum sdfs x y ≤ 255 * (sdfs.length - 1) := by
  unfold blendSum
  apply foldl_range_invariant _ (fun k s => s ≤ 255 * k)
  · simp
  · intro k s _ hs
    have := blendPair_R_le (sdfs.getD k default) (sdfs.getD (k + 1) default) x y
    omega

/-- Truncating the `float64` quotient of two integers gives their integer
quotient, as long as the divisor is at most `2 ^ 45` and the quotient at most
255. -/
theorem blendAvg_eq_div (s c : Nat) (hc : 1 ≤ c) (hc2 : c ≤ 2 ^ 45) (hs : s ≤ 255 * c) :
    blendAvg s c = s / c := by
  have hcq : (0 : ℚ) < c := by exact_mod_cast hc
  have hq : s / c ≤ 255 := by
    apply Nat.div_le_of_le_mul
    simpa [Nat.mul_comm] using hs
  have hmod := Nat.div_add_mod s c
  have hlt := Nat.mod_lt s hc
  have hfs : f64 (s : ℚ) = s := f64_natCast s (by
    have : 255 * c ≤ 255 * 2 ^ 45 := Nat.mul_le_mul_left _ hc2
    have : (255 : ℕ) * 2 ^ 45 < 2 ^ 53 := by norm_num
    omega)
  have hfc : f64 (c : ℚ) = c := f64_natCast c (by
    have : (2 : ℕ) ^ 45 < 2 ^ 53 := by norm_num
    omega)
  generalize s / c = q at hq hmod ⊢
  generalize s % c = r at hmod hlt
  have hse : (s : ℚ) = c * q + r := by exact_mod_cast hmod.symm
  have h1 : (r : ℚ) + 1 ≤ c := by exact_mod_cast hlt
  have h2 : (c : ℚ) ≤ 2 ^ 45 := by exact_mod_cast hc2
  have h3 : (0 : ℚ) ≤ q := by positivity
  have h3' : (q : ℚ) ≤ 255 := by exact_mod_cast hq
  have hr0 : (0 : ℚ) ≤ r := by positivity
  -- the exact quotient lies between `q` and `q + 1 - 2 ^ -45`
  have hlow : (q : ℚ) ≤ (s : ℚ) / c := by
    rw [le_div_iff₀ hcq]
    nlinarith
  have e : (2 : ℚ) ^ (-45 : ℤ) = 1 / 2 ^ 45 := by norm_num
  have ecast : ((((q : ℤ) + 1) * 2 ^ 45 - 1 : ℤ) : ℚ) * 2 ^ (-45 : ℤ) =
      (q : ℚ) + 1 - 1 / 2 ^ 45 := by
    rw [e]
    push_cast
    ring
  have hupp : (s : ℚ) / c ≤ ((((q : ℤ) + 1) * 2 ^ 45 - 1 : ℤ) : ℚ) * 2 ^ (-45 : ℤ) := by
    rw [ecast, div_le_iff₀ hcq]
    have h4 : (c : ℚ) / 2 ^ 45 ≤ 1 := by
      rw [div_le_one (by norm_num)]
      exact h2
    have : ((q : ℚ) + 1 - 1 / 2 ^ 45) * c = ((q : ℚ) + 1) * c - c / 2 ^ 45 := by
      ring
    rw [this]
    nlinarith
  have hflow := f64_mono hlow
  have hfupp := f64_mono hupp
  rw [f64_natCast _ (by omega)] at hflow
  rw [f64_dyadic _ _ (by
    rw [abs_lt]
    constructor
    · have : (0 : ℤ) ≤ (q : ℤ) := by positivity
      nlinarith
    · have h5 : (q : ℤ) ≤ 255 := by exact_mod_cast hq
      nlinarith), ecast] at hfupp
  have hval : f64 ((s : ℚ) / c) < (q : ℚ) + 1 := by
    have : (0 : ℚ) < 1 / 2 ^ 45 := by positivity
    linarith
  have h255 : f64 ((s : ℚ) / c) ≤ 255 := by
    have h6 : (s : ℚ) / c ≤ ((255 : ℕ) : ℚ) := by
      rw [div_le_iff₀ hcq]
      have : (s : ℚ) ≤ ((255 * c : ℕ) : ℚ) := by exact_mod_cast hs
      push_cast at this ⊢
      linarith
    have := f64_mono h6
    rw [f64_natCast _ (by norm_num)] at this
    simpa using this
  have h0 : (0 : ℚ) ≤ f64 ((s : ℚ) / c) := le_trans h3 hflow
  unfold blendAvg fdiv
  rw [hfs, hfc, max_eq_right h0, min_eq_right h255]
  exact toUint8_of_floor (by omega) hflow hval

/-- C8, amended: for 2 up to `2 ^ 45` fields, each pixel of the image `BlendSDF`
produces holds the integer part of the mean of the pairwise blends at that pixel
(truncation, not rounding to nearest); the clamp to `[0, 255]` never acts on a
mean of 8-bit values. -/
theorem blendSDF_mean_truncated (sdfs : List Image) (h2 : 2 ≤ sdfs.length)
    (hmax : sdfs.length - 1 ≤ 2 ^ 45) :
    ∃ r : Image, BlendSDF sdfs = some r ∧
      r.width = (sdfs.getD 0 default).width ∧ r.height = (sdfs.getD 0 default).height ∧
      ∀ x y : Nat, x < r.width → y < r.height →
        r.RGBAAt x y =
          { R := blendSum sdfs x y / (sdfs.length - 1),
            G := blendSum sdfs x y / (sdfs.length - 1),
            B := blendSum sdfs x y / (sdfs.length - 1), A := 255 } := by
  unfold BlendSDF
  rw [if_neg (by omega)]
  refine ⟨_, rfl, rfl, rfl, ?_⟩
  intro x y hx hy
  have hx' : x < (sdfs.getD 0 default).width := hx
  have hy' : y < (sdfs.getD 0 default).height := hy
  rw [RGBAAt_fill _ _ _ hx' hy']
  simp only
  rw [blendAvg_eq_div _ _ (by omega) hmax (blendSum_le sdfs x y)]

/-- C8, amended, at a concrete input: the fields `[A, B, C]`, first pixel. -/
theorem blendSDF_mean_truncated_witness :
    2 ≤ [fieldA, fieldB, fieldC].length ∧
      ∃ r : Image, BlendSDF [fieldA, fieldB, fieldC] = some r ∧
        r.width = ([fieldA, fieldB, fieldC].getD 0 default).width ∧
        r.height = ([fieldA, fieldB, fieldC].getD 0 default).height ∧
        ∀ x y : Nat, x < r.width → y < r.height →
          r.RGBAAt x y =
            { R := blendSum [fieldA, fieldB, fieldC] x y / ([fieldA, fieldB, fieldC].length - 1),
              G := blendSum [fieldA, fieldB, fieldC] x y / ([fieldA, fieldB, fieldC].length - 1),
              B := blendSum [fieldA, fieldB, fieldC] x y / ([fieldA, fieldB, fieldC].length - 1),
              A := 255 } :=
  ⟨by decide, blendSDF_mean_truncated [fieldA, fieldB, fieldC] (by decide) (by decide)⟩

/-! ## The pairwise rule -/

/-- Absolute rounding error of `float64` on values of magnitude at most `2 ^ 12`. -/
theorem f64_err (z : ℚ) (hz : |z| ≤ 2 ^ 12) : |f64 z - z| ≤ 1 / 2 ^ 40 := by
  rw [abs_le] at hz
  have e : (2 : ℚ) ^ (-40 : ℤ) = 1 / 2 ^ 40 := by norm_num
  have h1 : ((⌊z * 2 ^ 40⌋ : ℤ) : ℚ) * 2 ^ (-40 : ℤ) ≤ z := by
    rw [e]
    have := Int.floor_le (z * 2 ^ 40)
    have h : (0 : ℚ) < 2 ^ 40 := by positivity
    calc ((⌊z * 2 ^ 40⌋ : ℤ) : ℚ) * (1 / 2 ^ 40) ≤ z * 2 ^ 40 * (1 / 2 ^ 40) :=
          mul_le_mul_of_nonneg_right this (by positivity)
      _ = z := by field_simp
  have h2 : z ≤ ((⌈z * 2 ^ 40⌉ : ℤ) : ℚ) * 2 ^ (-40 : ℤ) := by
    rw [e]
    have := Int.le_ceil (z * 2 ^ 40)
    calc z = z * 2 ^ 40 * (1 / 2 ^ 40) := by field_simp
      _ ≤ ((⌈z * 2 ^ 40⌉ : ℤ) : ℚ) * (1 / 2 ^ 40) :=
          mul_le_mul_of_nonneg_right this (by positivity)
  have hfl : |⌊z * 2 ^ 40⌋| < 2 ^ 53 := by
    rw [abs_lt]
    constructor
    · have : ((-(2 ^ 52) : ℤ) : ℚ) ≤ z * 2 ^ 40 := by
        push_cast
        nlinarith
      have := Int.le_floor.2 this
      omega
    · have : z * 2 ^ 40 < ((2 ^ 52 + 1 : ℤ) : ℚ) := by
        push_cast
        nlinarith
      have := Int.floor_lt.2 this
      omega
  have hcl : |⌈z * 2 ^ 40⌉| < 2 ^ 53 := by
    rw [abs_lt]
    constructor
    · have : ((-(2 ^ 52) - 1 : ℤ) : ℚ) < z * 2 ^ 40 := by
        push_cast
        nlinarith
      have := Int.lt_ceil.2 this
      omega
    · have : z * 2 ^ 40 ≤ ((2 ^ 52 : ℤ) : ℚ) := by
        push_cast
        nlinarith
      have := Int.ceil_le.2 this
      omega
  have m1 := f64_mono h1
  have m2 := f64_mono h2
  rw [f64_dyadic _ _ hfl] at m1
  rw [f64_dyadic _ _ hcl] at m2
  have hc : ((⌈z * 2 ^ 40⌉ : ℤ) : ℚ) ≤ ((⌊z * 2 ^ 40⌋ : ℤ) : ℚ) + 1 := by
    have := Int.ceil_le_floor_add_one (z * 2 ^ 40)
    exact_mod_cast this
  rw [e] at m1 m2 h1 h2
  have hc' := mul_le_mul_of_nonneg_right hc (by positivity : (0 : ℚ) ≤ 1 / 2 ^ 40)
  rw [abs_le]
  constructor <;> linarith
/-- The decoded value `float64(v)/255.0*2.0 - 1.0` is within `4 * 2 ^ -40` of the
exact `v/255*2 - 1`. -/
theorem decode_err (v : Nat) (hv : v < 256) :
    |fsub (fmul (fdiv (f64 v) 255) 2) 1 - ((v : ℚ) / 255 * 2 - 1)| ≤ 4 / 2 ^ 40 := by
  have hv0 : (0 : ℚ) ≤ v := by positivity
  have hv1 : (v : ℚ) ≤ 255 := by
    have : v ≤ 255 := by omega
    exact_mod_cast this
  unfold fsub fmul fdiv
  rw [f64_natCast v (by omega)]
  have b0 : (0 : ℚ) ≤ (v : ℚ) / 255 := by positivity
  have b1 : (v : ℚ) / 255 ≤ 1 := by
    rw [div_le_one (by norm_num)]
    exact hv1
  have e1 := f64_err ((v : ℚ) / 255) (by rw [abs_le]; constructor <;> linarith)
  rw [abs_le] at e1
  have e2 := f64_err (f64 ((v : ℚ) / 255) * 2) (by
    rw [abs_le]; constructor <;> linarith only [b0, b1, e1.1, e1.2])
  rw [abs_le] at e2
  have e3 := f64_err (f64 (f64 ((v : ℚ) / 255) * 2) - 1) (by
    rw [abs_le]; constructor <;> linarith only [b0, b1, e1.1, e1.2, e2.1, e2.2])
  rw [abs_le] at e3
  rw [abs_le]
  constructor <;> linarith only [e1.1, e1.2, e2.1, e2.2, e3.1, e3.2]

/-- A quotient `num / den` of two perturbed quantities stays close to the exact
quotient `w`. -/
theorem quotient_bounds (c d w num den : ℚ) (hd1 : 1 ≤ d) (hw : w * (2 * d) = c)
    (hwlow : 1 / 510 ≤ w) (hw1 : w ≤ 1)
    (hn1 : c / 255 - 4 / 2 ^ 40 ≤ num) (hn2 : num ≤ c / 255 + 4 / 2 ^ 40)
    (hd3 : 2 * d / 255 - 9 / 2 ^ 40 ≤ den) (hd4 : den ≤ 2 * d / 255 + 9 / 2 ^ 40) :
    w - 1 / 2 ^ 29 ≤ num / den ∧ num / den ≤ w + 1 / 2 ^ 29 := by
  have hDpos : 0 < den := by
    have : (9 : ℚ) / 2 ^ 40 < 2 / 255 := by norm_num
    linarith only [hd1, hd3, this]
  have h3 : (0 : ℚ) ≤ 9 / 2 ^ 40 * (1 - w) := mul_nonneg (by positivity) (by linarith only [hw1])
  constructor
  · rw [le_div_iff₀ hDpos]
    have hpos : (0 : ℚ) ≤ w - 1 / 2 ^ 29 := by
      have : (1 : ℚ) / 2 ^ 29 ≤ 1 / 510 := by norm_num
      linarith only [hwlow, this]
    have h1 : (w - 1 / 2 ^ 29) * den ≤ (w - 1 / 2 ^ 29) * (2 * d / 255 + 9 / 2 ^ 40) :=
      mul_le_mul_of_nonneg_left hd4 hpos
    have h2 : (w - 1 / 2 ^ 29) * (2 * d / 255 + 9 / 2 ^ 40) =
        c / 255 - 1 / 2 ^ 29 * (2 * d) / 255 + 9 / 2 ^ 40 * w - 9 / 2 ^ 40 * (1 / 2 ^ 29) := by
      rw [← hw]; ring
    linarith only [h1, h2, h3, hn1, hd1]
  · rw [div_le_iff₀ hDpos]
    have h1 : (w + 1 / 2 ^ 29) * (2 * d / 255 - 9 / 2 ^ 40) ≤ (w + 1 / 2 ^ 29) * den :=
      mul_le_mul_of_nonneg_left hd3 (by linarith only [hwlow])
    have h2 : (w + 1 / 2 ^ 29) * (2 * d / 255 - 9 / 2 ^ 40) =
        c / 255 + 1 / 2 ^ 29 * (2 * d) / 255 - 9 / 2 ^ 40 * w - 9 / 2 ^ 40 * (1 / 2 ^ 29) := by
      rw [← hw]; ring
    linarith only [h1, h2, h3, hn2, hd1]

/-- An odd number over an even number at most 510 is at least `1 / 510` away from
every integer. -/
theorem odd_quotient_gap (c d : Nat) (hc : c % 2 = 1) (hd : 1 ≤ d) (hd' : d ≤ 255) (w : ℚ)
    (hw : w * (2 * d) = c) :
    ((255 * c / (2 * d) : ℕ) : ℚ) + 1 / 510 ≤ 255 * w ∧
      255 * w ≤ ((255 * c / (2 * d) : ℕ) : ℚ) + 1 - 1 / 510 := by
  have hmod := Nat.div_add_mod (255 * c) (2 * d)
  have hlt := Nat.mod_lt (255 * c) (by omega : 0 < 2 * d)
  have hpar : (255 * c) % (2 * d) % 2 = (255 * c) % 2 :=
    Nat.mod_mod_of_dvd _ (Dvd.intro _ rfl)
  generalize 255 * c / (2 * d) = q at hmod ⊢
  generalize 255 * c % (2 * d) = r at hmod hlt hpar
  have hr1 : 1 ≤ r := by omega
  have hr2 : r + 1 ≤ 2 * d := by omega
  have hse : (255 : ℚ) * c = 2 * d * q + r := by exact_mod_cast hmod.symm
  have hr1' : (1 : ℚ) ≤ r := by exact_mod_cast hr1
  have hr2' : (r : ℚ) + 1 ≤ 2 * d := by exact_mod_cast hr2
  have hd1 : (1 : ℚ) ≤ d := by exact_mod_cast hd
  have hd2 : (d : ℚ) ≤ 255 := by exact_mod_cast hd'
  have hwq : (255 * w - q) * (2 * d) = r := by
    have : 255 * w * (2 * d) = 255 * c := by rw [← hw]; ring
    linear_combination this + hse
  constructor
  · by_contra h
    have : (255 * w - q) * (2 * (d : ℚ)) < 1 / 510 * (2 * d) :=
      mul_lt_mul_of_pos_right (by linarith only [h]) (by linarith only [hd1])
    linarith only [this, hwq, hr1', hd2]
  · by_contra h
    have : (1 - 1 / 510) * (2 * (d : ℚ)) < (255 * w - q) * (2 * d) :=
      mul_lt_mul_of_pos_right (by linarith only [h]) (by linarith only [hd1])
    linarith only [this, hwq, hr2', hd2]

/-- The interpolation branch of `blendPair` in exact terms: with decoded values
`dA`, `dB` within rounding error of `sA = (2 d - c) / 255 > 0` and `|sB| = c / 255`,
the stored value is the integer quotient `255 c / (2 d)`. -/
theorem interp_value (c d : Nat) (hc : c % 2 = 1) (hd : 1 ≤ d) (hd' : d ≤ 255)
    (hcd : c < 2 * d) (dA dB : ℚ)
    (hA : |dA - ((2 * d : ℚ) - c) / 255| ≤ 4 / 2 ^ 40)
    (hB : |dB - (c : ℚ) / 255| ≤ 4 / 2 ^ 40) :
    toUint8 (fmul (fdiv dB (fadd dA dB)) 255) = 255 * c / (2 * d) := by
  rw [abs_le] at hA hB
  have hc1 : (1 : ℚ) ≤ c := by
    have : 1 ≤ c := by omega
    exact_mod_cast this
  have hd1 : (1 : ℚ) ≤ d := by exact_mod_cast hd
  have hd2 : (d : ℚ) ≤ 255 := by exact_mod_cast hd'
  have hcd' : (c : ℚ) + 1 ≤ 2 * d := by
    have : c + 1 ≤ 2 * d := by omega
    exact_mod_cast this
  have eD := f64_err (dA + dB) (by
    rw [abs_le]; constructor <;> linarith only [hA.1, hA.2, hB.1, hB.2, hc1, hd1, hd2, hcd'])
  rw [abs_le] at eD
  obtain ⟨w, hw⟩ : ∃ w : ℚ, w * (2 * d) = c := ⟨c / (2 * d), by field_simp⟩
  have hw1 : w ≤ 1 := by
    by_contra h
    have : 1 * (2 * (d : ℚ)) < w * (2 * d) :=
      mul_lt_mul_of_pos_right (not_le.1 h) (by linarith only [hd1])
    linarith only [this, hw, hcd']
  have hwlow : 1 / 510 ≤ w := by
    by_contra h
    have : w * (2 * (d : ℚ)) < 1 / 510 * (2 * d) :=
      mul_lt_mul_of_pos_right (not_le.1 h) (by linarith only [hd1])
    linarith only [this, hw, hc1, hd2]
  obtain ⟨hxlow, hxupp⟩ := quotient_bounds c d w dB (f64 (dA + dB)) hd1 hw hwlow hw1
    (by linarith only [hB.1]) (by linarith only [hB.2])
    (by linarith only [hA.1, hB.1, eD.1]) (by linarith only [hA.2, hB.2, eD.2])
  have eR := f64_err (dB / f64 (dA + dB)) (by
    rw [abs_le]
    have : (1 : ℚ) / 2 ^ 29 ≤ 1 := by norm_num
    constructor <;> linarith only [hxlow, hxupp, hw1, hwlow, this])
  rw [abs_le] at eR
  have eV := f64_err (f64 (dB / f64 (dA + dB)) * 255) (by
    rw [abs_le]
    have h1 : (1 : ℚ) / 2 ^ 29 ≤ 1 := by norm_num
    have h2 : (1 : ℚ) / 2 ^ 40 ≤ 1 := by norm_num
    constructor <;> linarith only [hxlow, hxupp, hw1, hwlow, h1, h2, eR.1, eR.2])
  rw [abs_le] at eV
  obtain ⟨hfl, hfu⟩ := odd_quotient_gap c d hc hd hd' w hw
  have hq : 255 * c / (2 * d) < 255 := by
    apply Nat.div_lt_of_lt_mul
    nlinarith
  have hsmall : (255 : ℚ) * (1 / 2 ^ 29) + 256 * (1 / 2 ^ 40) < 1 / 510 := by norm_num
  unfold fmul fdiv fadd
  apply toUint8_of_floor (by omega)
  · linarith only [eR.1, eV.1, hxlow, hfl, hsmall]
  · linarith only [eR.2, eV.2, hxupp, hfu, hsmall]
theorem toUint8_f64_255 : toUint8 (fmul 1 255) = 255 := by
  unfold fmul
  have := f64_natCast 255 (by norm_num)
  rw [one_mul]
  have e : (255 : ℚ) = ((255 : ℕ) : ℚ) := by norm_num
  rw [e, this]
  exact toUint8_natCast 255 (by norm_num)

theorem toUint8_f64_zero : toUint8 (fmul 0 255) = 0 := by
  unfold fmul
  have := f64_natCast 0 (by norm_num)
  rw [zero_mul]
  have e : (0 : ℚ) = ((0 : ℕ) : ℚ) := by norm_num
  rw [e, this]
  exact toUint8_natCast 0 (by norm_num)

/-- The value `blendPair` computes in `float64` is the value of the rule in exact
arithmetic, for all 8-bit samples. -/
theorem blendValue_eq_pairRule (a b : Nat) (ha : a < 256) (hb : b < 256) :
    blendValue a b = pairRule a b := by
  have eA := decode_err a ha
  have eB := decode_err b hb
  rw [abs_le] at eA eB
  have hsmall : (4 : ℚ) / 2 ^ 40 < 1 / 255 := by norm_num
  unfold blendValue pairRule
  simp only
  generalize fsub (fmul (fdiv (f64 (a : ℚ)) 255) 2) 1 = dA at eA ⊢
  generalize fsub (fmul (fdiv (f64 (b : ℚ)) 255) 2) 1 = dB at eB ⊢
  by_cases h1 : a ≤ 127
  · have hq : (a : ℚ) ≤ 127 := by exact_mod_cast h1
    have hs : (a : ℚ) / 255 * 2 - 1 ≤ -(1 / 255) := by linarith only [hq]
    have c1 : dA < 0 := by linarith only [hs, eA.2, hsmall]
    have c2 : (a : ℚ) / 255 * 2 - 1 < 0 := by linarith only [hs]
    rw [if_pos c1, if_pos c2]
    exact toUint8_f64_255
  · have hq : (128 : ℚ) ≤ a := by
      have : 128 ≤ a := by omega
      exact_mod_cast this
    have hs : 1 / 255 ≤ (a : ℚ) / 255 * 2 - 1 := by linarith only [hq]
    have hdA : 0 < dA := by linarith only [hs, eA.1, hsmall]
    have c1 : ¬ dA < 0 := by linarith only [hdA]
    have c2 : ¬ (a : ℚ) / 255 * 2 - 1 < 0 := by linarith only [hs]
    have c3 : (a : ℚ) / 255 * 2 - 1 > 0 := by linarith only [hs]
    rw [if_neg c1, if_neg c2]
    by_cases h2 : b ≤ 127
    · have hqb : (b : ℚ) ≤ 127 := by exact_mod_cast h2
      have hsb : (b : ℚ) / 255 * 2 - 1 ≤ -(1 / 255) := by linarith only [hqb]
      have hdB : dB < 0 := by linarith only [hsb, eB.2, hsmall]
      have c4 : ¬ dB > 0 := by linarith only [hdB]
      have c5 : ¬ (b : ℚ) / 255 * 2 - 1 > 0 := by linarith only [hsb]
      have c6 : (b : ℚ) / 255 * 2 - 1 < 0 := by linarith only [hsb]
      have c7 : dA > 0 ∧ dB < 0 := ⟨hdA, hdB⟩
      rw [if_neg c4, if_neg c5, if_pos c7, if_pos ⟨c3, c6⟩]
      obtain ⟨c, hc⟩ : ∃ c : ℕ, 2 * b + c = 255 := ⟨255 - 2 * b, by omega⟩
      obtain ⟨d, hd⟩ : ∃ d : ℕ, b + d = a := ⟨a - b, by omega⟩
      have hcq : (2 : ℚ) * b + c = 255 := by exact_mod_cast hc
      have hdq : (b : ℚ) + d = a := by exact_mod_cast hd
      have hd1 : (1 : ℚ) ≤ d := by
        have : 1 ≤ d := by omega
        exact_mod_cast this
      rw [abs_of_pos hdA, abs_of_neg hdB, abs_of_pos c3, abs_of_neg c6]
      rw [interp_value c d (by omega) (by omega) (by omega) (by omega) dA (-dB)
        (by rw [abs_le]; constructor <;> linarith only [eA.1, eA.2, hcq, hdq])
        (by rw [abs_le]; constructor <;> linarith only [eB.1, eB.2, hcq])]
      obtain ⟨w, hw⟩ : ∃ w : ℚ, w * (2 * d) = c := ⟨c / (2 * d), by field_simp⟩
      obtain ⟨hfl, hfu⟩ := odd_quotient_gap c d (by omega) (by omega) (by omega) w hw
      have hval : 255 * -((b : ℚ) / 255 * 2 - 1) /
          ((a : ℚ) / 255 * 2 - 1 + -((b : ℚ) / 255 * 2 - 1)) = 255 * w := by
        have e1 : (a : ℚ) / 255 * 2 - 1 + -((b : ℚ) / 255 * 2 - 1) = 2 * d / 255 := by
          rw [← hdq]; ring
        have e2 : -((b : ℚ) / 255 * 2 - 1) = c / 255 := by
          linarith only [hcq]
        rw [e1, e2, ← hw]
        field_simp
        ring
      rw [hval]
      generalize 255 * c / (2 * d) = q at hfl hfu ⊢
      have : ⌊255 * w⌋ = (q : ℤ) := by
        rw [Int.floor_eq_iff]
        simp only [Int.cast_natCast]
        constructor <;> linarith only [hfl, hfu]
      rw [this, Int.toNat_ofNat]
    · have hqb : (128 : ℚ) ≤ b := by
        have : 128 ≤ b := by omega
        exact_mod_cast this
      have hsb : 1 / 255 ≤ (b : ℚ) / 255 * 2 - 1 := by linarith only [hqb]
      have c4 : dB > 0 := by linarith only [hsb, eB.1, hsmall]
      have c5 : (b : ℚ) / 255 * 2 - 1 > 0 := by linarith only [hsb]
      rw [if_pos c4, if_pos c5]
      exact toUint8_f64_zero

/-- C7 (pairwise blend rule): at every pixel of `a`, with 8-bit red samples of `a`
and `b`, `blendPair` stores in R, G and B the value of the rule (255 when
`sA < 0`; otherwise 0 when `sB > 0`; otherwise the integer part of
`255 * |sB| / (|sA| + |sB|)` when `sA > 0` and `sB < 0`; otherwise 0), and
alpha 255. -/
theorem blendPair_rule (a b : Image) (x y : Nat) (hx : x < a.width) (hy : y < a.height)
    (ha : (a.RGBAAt x y).R < 256) (hb : (b.RGBAAt x y).R < 256) :
    (blendPair a b).RGBAAt x y =
      { R := pairRule (a.RGBAAt x y).R (b.RGBAAt x y).R,
        G := pairRule (a.RGBAAt x y).R (b.RGBAAt x y).R,
        B := pairRule (a.RGBAAt x y).R (b.RGBAAt x y).R, A := 255 } := by
  unfold blendPair
  rw [RGBAAt_fill _ _ _ hx hy]
  simp only
  rw [blendValue_eq_pairRule _ _ ha hb]

/-- C7 at a concrete input: the fields `[255, 0]` and `[0, 0]`, first pixel. -/
theorem blendPair_rule_witness :
    (fieldB.RGBAAt 0 0).R < 256 ∧
      (blendPair fieldB fieldA).RGBAAt 0 0 =
        { R := pairRule (fieldB.RGBAAt 0 0).R (fieldA.RGBAAt 0 0).R,
          G := pairRule (fieldB.RGBAAt 0 0).R (fieldA.RGBAAt 0 0).R,
          B := pairRule (fieldB.RGBAAt 0 0).R (fieldA.RGBAAt 0 0).R, A := 255 } :=
  ⟨by decide, blendPair_rule fieldB fieldA 0 0 (by decide) (by decide) (by decide) (by decide)⟩

/-! ## Square roots and signs -/

theorem isqrtAux_spec (k n r : Nat) (h1 : r * r ≤ n) (h2 : n < (r + 2 ^ k) * (r + 2 ^ k)) :
    isqrtAux k n r * isqrtAux k n r ≤ n ∧
      n < (isqrtAux k n r + 1) * (isqrtAux k n r + 1) := by
  induction k generalizing r with
  | zero => simpa [isqrtAux] using And.intro h1 h2
  | succ k ih =>
    unfold isqrtAux
    split_ifs with h
    · apply ih _ h
      have : r + 2 ^ k + 2 ^ k = r + 2 ^ (k + 1) := by rw [pow_succ]; omega
      rw [this]
      exact h2
    · exact ih _ h1 (not_le.1 h)

theorem isqrtAux_sq (m : Nat) (hm : m < 2 ^ 32) : isqrtAux 96 (m * m * 4 ^ 64) 0 = m * 2 ^ 64 := by
  have hspec := isqrtAux_spec 96 (m * m * 4 ^ 64) 0 (Nat.zero_le _) (by
    have h1 : m * m < 2 ^ 32 * 2 ^ 32 := Nat.mul_lt_mul'' hm hm
    have h2 : m * m * 4 ^ 64 < 2 ^ 32 * 2 ^ 32 * 4 ^ 64 :=
      Nat.mul_lt_mul_of_pos_right h1 (by positivity)
    calc m * m * 4 ^ 64 < 2 ^ 32 * 2 ^ 32 * 4 ^ 64 := h2
      _ = (0 + 2 ^ 96) * (0 + 2 ^ 96) := by norm_num)
  generalize isqrtAux 96 (m * m * 4 ^ 64) 0 = s at hspec
  have e : m * m * 4 ^ 64 = (m * 2 ^ 64) * (m * 2 ^ 64) := by
    have : (4 : ℕ) ^ 64 = 2 ^ 64 * 2 ^ 64 := by norm_num
    rw [this]
    ring
  rw [e] at hspec
  obtain ⟨h1, h2⟩ := hspec
  have a1 : s ≤ m * 2 ^ 64 := by
    by_contra hc
    have : (m * 2 ^ 64 + 1) * (m * 2 ^ 64 + 1) ≤ s * s :=
      Nat.mul_le_mul (by omega) (by omega)
    nlinarith
  have a2 : m * 2 ^ 64 ≤ s := by
    by_contra hc
    have : (s + 1) * (s + 1) ≤ (m * 2 ^ 64) * (m * 2 ^ 64) :=
      Nat.mul_le_mul (by omega) (by omega)
    omega
  omega

/-- The square root of a perfect square is exact. -/
theorem sqrt64_sq (m : Nat) (hm : m < 2 ^ 32) : sqrt64 (m * m) = m := by
  unfold sqrt64
  simp only
  rw [isqrtAux_sq m hm, if_pos (by
    have : (4 : ℕ) ^ 64 = 2 ^ 64 * 2 ^ 64 := by norm_num
    rw [this]
    ring)]
  have : (((m * 2 ^ 64 : ℕ) : ℚ)) / 2 ^ 64 = m := by
    push_cast
    norm_num
  rw [this]
  exact f64_natCast m (by
    have : (2 : ℕ) ^ 32 < 2 ^ 53 := by norm_num
    omega)

theorem f64_zero : f64 0 = 0 := by
  have := f64_natCast 0 (by norm_num)
  simpa using this

theorem f64_pos {x : ℚ} (hx : 0 < x) : 0 < f64 x := by
  unfold f64
  rw [if_neg (by linarith)]
  exact roundPos_pos hx

theorem f64_neg {x : ℚ} (hx : x < 0) : f64 x < 0 := by
  unfold f64
  rw [if_pos hx]
  have := roundPos_pos (x := -x) (by linarith)
  linarith

theorem f64_nonneg {x : ℚ} (hx : 0 ≤ x) : 0 ≤ f64 x := by
  have := f64_mono hx
  rwa [f64_zero] at this

theorem f64_nonpos {x : ℚ} (hx : x ≤ 0) : f64 x ≤ 0 := by
  have := f64_mono hx
  rwa [f64_zero] at this

theorem sqrt64_zero : sqrt64 0 = 0 := by
  have h : isqrtAux 96 (0 * 4 ^ 64) 0 = 0 := by decide!
  unfold sqrt64
  simp only
  rw [h, if_pos (by norm_num)]
  simp [f64_zero]

theorem sqrt64_pos {n : Nat} (hn : 0 < n) : 0 < sqrt64 n := by
  unfold sqrt64
  simp only
  split_ifs with h
  · apply f64_pos
    have hs : 0 < isqrtAux 96 (n * 4 ^ 64) 0 := by
      rcases Nat.eq_zero_or_pos (isqrtAux 96 (n * 4 ^ 64) 0) with h0 | h0
      · rw [h0] at h
        have : 0 < n * 4 ^ 64 := Nat.mul_pos hn (by positivity)
        omega
      · exact h0
    have : (0 : ℚ) < (isqrtAux 96 (n * 4 ^ 64) 0 : ℕ) := by exact_mod_cast hs
    positivity
  · apply f64_pos
    positivity
/-! ## The two grids of an image -/

theorem cell_map_range (W H : Nat) (f : Nat → Nat → Point) {x y : Nat} (hx : x < W)
    (hy : y < H) :
    Grid.cell ((List.range H).map (fun y => (List.range W).map (fun x => f x y))) x y = f x y := by
  unfold Grid.cell
  rw [getD_map_range H _ _ hy, getD_map_range W _ _ hx]

theorem wellFormed_map_range (W H : Nat) (f : Nat → Nat → Point) :
    WellFormed (sized W H) ((List.range H).map (fun y => (List.range W).map (fun x => f x y))) := by
  constructor
  · simp [sized]
  · intro row hrow
    rw [List.mem_map] at hrow
    obtain ⟨y, -, rfl⟩ := hrow
    simp [sized]

theorem wellFormed_initGrids (img : Image) :
    WellFormed (sized img.width img.height) (initGrids (sized img.width img.height) img).1 ∧
      WellFormed (sized img.width img.height) (initGrids (sized img.width img.height) img).2 :=
  ⟨wellFormed_map_range _ _ _, wellFormed_map_range _ _ _⟩

theorem cell_initGrids_fst (img : Image) {x y : Nat} (hx : x < img.width) (hy : y < img.height) :
    (initGrids (sized img.width img.height) img).1.cell x y =
      if greenAt img x y < 128 then ⟨9999, 9999⟩ else ⟨0, 0⟩ :=
  cell_map_range img.width img.height _ hx hy

theorem cell_initGrids_snd (img : Image) {x y : Nat} (hx : x < img.width) (hy : y < img.height) :
    (initGrids (sized img.width img.height) img).2.cell x y =
      if greenAt img x y < 128 then ⟨0, 0⟩ else ⟨9999, 9999⟩ :=
  cell_map_range img.width img.height _ hx hy

theorem seedCells_initGrids (img : Image) :
    SeedCells (sized img.width img.height) (initGrids (sized img.width img.height) img).1 ∧
      SeedCells (sized img.width img.height) (initGrids (sized img.width img.height) img).2 := by
  constructor <;> intro X Y hin <;> rw [getPoint_inGrid _ hin] <;> obtain ⟨h1, h2, h3, h4⟩ := hin
  · have h2' : X < img.width := h2
    have h4' : Y < img.height := h4
    rw [cell_initGrids_fst img (x := X.toNat) (y := Y.toNat) (by omega) (by omega)]
    split
    · right; rfl
    · left; rfl
  · have h2' : X < img.width := h2
    have h4' : Y < img.height := h4
    rw [cell_initGrids_snd img (x := X.toNat) (y := Y.toNat) (by omega) (by omega)]
    split
    · left; rfl
    · right; rfl

/-! ## Seeds stay at zero, other cells do not reach zero -/

theorem distSq_nonneg (p : Point) : 0 ≤ p.distSq := by
  unfold Point.distSq
  nlinarith [mul_self_nonneg p.dx, mul_self_nonneg p.dy]

theorem seed_stays_zero {g : SDFGenerator} {grid : Grid} (hwf : WellFormed g grid)
    (hE : g.empty = ⟨9999, 9999⟩) (hs : SeedCells g grid) {x y : Nat} (hx : x < g.WIDTH)
    (hy : y < g.HEIGHT) (h0 : grid.cell x y = ⟨0, 0⟩) :
    ((generateSDF g grid).cell x y).distSq = 0 := by
  have h := (tracked_generateSDF hwf hE hs).2 x y
  rw [getPoint_nat _ hx hy, getPoint_nat _ hx hy, h0] at h
  have := distSq_nonneg ((generateSDF g grid).cell x y)
  simp only [Point.distSq] at h this ⊢
  omega

theorem far_stays_positive {g : SDFGenerator} {grid : Grid} (hwf : WellFormed g grid)
    (hE : g.empty = ⟨9999, 9999⟩) (hW : g.WIDTH ≤ 4096) (hH : g.HEIGHT ≤ 4096)
    (hs : SeedCells g grid) {x0 y0 : Nat} (hx0 : x0 < g.WIDTH) (hy0 : y0 < g.HEIGHT)
    (hseed : grid.cell x0 y0 = ⟨0, 0⟩) {x y : Nat} (hx : x < g.WIDTH) (hy : y < g.HEIGHT)
    (hfar : grid.cell x y = ⟨9999, 9999⟩) :
    1 ≤ ((generateSDF g grid).cell x y).distSq := by
  have hp := pointsAtSeed_generateSDF hwf hE hW hH hs (inGrid_nat hx0 hy0)
    (by rw [getPoint_nat _ hx0 hy0]; exact hseed) x y (inGrid_nat hx hy)
  rw [getPoint_nat _ hx hy] at hp
  obtain ⟨-, h2⟩ := hp
  have hnn := distSq_nonneg ((generateSDF g grid).cell x y)
  by_contra hlt
  have hz : ((generateSDF g grid).cell x y).distSq = 0 := by omega
  have hdx : ((generateSDF g grid).cell x y).dx = 0 := by
    simp only [Point.distSq] at hz
    nlinarith [mul_self_nonneg ((generateSDF g grid).cell x y).dx,
      mul_self_nonneg ((generateSDF g grid).cell x y).dy]
  have hdy : ((generateSDF g grid).cell x y).dy = 0 := by
    simp only [Point.distSq] at hz
    nlinarith [mul_self_nonneg ((generateSDF g grid).cell x y).dx,
      mul_self_nonneg ((generateSDF g grid).cell x y).dy]
  rw [hdx, hdy, add_zero, add_zero, getPoint_nat _ hx hy, hfar] at h2
  simp at h2

/-! ## Sign of the signed distance -/

theorem signedDist_neg {p1 p2 : Point} (h1 : p1.distSq = 0) (h2 : 1 ≤ p2.distSq) :
    signedDist p1 p2 < 0 := by
  unfold signedDist fsub
  simp only
  rw [h1]
  have : 0 < sqrt64 p2.distSq.toNat := sqrt64_pos (by omega)
  apply f64_neg
  rw [show (0 : ℤ).toNat = 0 from rfl, sqrt64_zero]
  linarith

theorem signedDist_pos {p1 p2 : Point} (h1 : 1 ≤ p1.distSq) (h2 : p2.distSq = 0) :
    0 < signedDist p1 p2 := by
  unfold signedDist fsub
  simp only
  rw [h2]
  have : 0 < sqrt64 p1.distSq.toNat := sqrt64_pos (by omega)
  apply f64_pos
  rw [show (0 : ℤ).toNat = 0 from rfl, sqrt64_zero]
  linarith
/-! ## Claims about the compositor -/

theorem RGBAAt_GenerateFromImage (img : Image) {x y : Nat} (hx : x < img.width)
    (hy : y < img.height) :
    (GenerateFromImage img).RGBAAt x y =
      { R := intensityOf img.height (signedDistAt img x y),
        G := intensityOf img.height (signedDistAt img x y),
        B := intensityOf img.height (signedDistAt img x y), A := 255 } := by
  unfold GenerateFromImage
  simp only
  rw [RGBAAt_fill _ _ _ (show x < (sized img.width img.height).WIDTH from hx)
    (show y < (sized img.width img.height).HEIGHT from hy)]
  rfl

set_option maxRecDepth 100000 in
/-- C4 as stated fails: in the 2 by 1 image with a background pixel on the left
and a foreground pixel on the right, the signed distance `d` at the foreground
pixel is `-1`, not positive (and `+1` at the background pixel). -/
theorem signedDist_foreground_negative :
    greenAt (stripe 1) 0 0 < 128 ∧ 128 ≤ greenAt (stripe 1) 1 0 ∧
      signedDistAt (stripe 1) 1 0 = -1 ∧ signedDistAt (stripe 1) 0 0 = 1 := by
  decide!

/-- C4, amended: in every image of at most 4096 by 4096 pixels that has a
foreground pixel (green `≥ 128`) and a background pixel, the signed distance
`d = dist1 - dist2` of `GenerateFromImage` is negative at every foreground pixel
and positive at every background pixel. -/
theorem signedDist_sign (img : Image) (hW : img.width ≤ 4096) (hH : img.height ≤ 4096)
    (xf yf : Nat) (hxf : xf < img.width) (hyf : yf < img.height)
    (hf : 128 ≤ greenAt img xf yf)
    (xb yb : Nat) (hxb : xb < img.width) (hyb : yb < img.height)
    (hb : greenAt img xb yb < 128)
    (x y : Nat) (hx : x < img.width) (hy : y < img.height) :
    (128 ≤ greenAt img x y → signedDistAt img x y < 0) ∧
      (greenAt img x y < 128 → 0 < signedDistAt img x y) := by
  obtain ⟨w1, w2⟩ := wellFormed_initGrids img
  obtain ⟨s1, s2⟩ := seedCells_initGrids img
  have seed1 : (initGrids (sized img.width img.height) img).1.cell xf yf = ⟨0, 0⟩ := by
    rw [cell_initGrids_fst img hxf hyf, if_neg (by omega)]
  have seed2 : (initGrids (sized img.width img.height) img).2.cell xb yb = ⟨0, 0⟩ := by
    rw [cell_initGrids_snd img hxb hyb, if_pos hb]
  constructor
  · intro h
    apply signedDist_neg
    · apply seed_stays_zero w1 rfl s1 hx hy
      rw [cell_initGrids_fst img hx hy, if_neg (by omega)]
    · apply far_stays_positive w2 rfl hW hH s2 hxb hyb seed2 hx hy
      rw [cell_initGrids_snd img hx hy, if_neg (by omega)]
  · intro h
    apply signedDist_pos
    · apply far_stays_positive w1 rfl hW hH s1 hxf hyf seed1 hx hy
      rw [cell_initGrids_fst img hx hy, if_pos h]
    · apply seed_stays_zero w2 rfl s2 hx hy
      rw [cell_initGrids_snd img hx hy, if_pos h]

/-- C4, amended, at a concrete input: the 2 by 1 image, read at its foreground
pixel. -/
theorem signedDist_sign_witness :
    128 ≤ greenAt (stripe 1) 1 0 ∧
      ((128 ≤ greenAt (stripe 1) 1 0 → signedDistAt (stripe 1) 1 0 < 0) ∧
        (greenAt (stripe 1) 1 0 < 128 → 0 < signedDistAt (stripe 1) 1 0)) :=
  ⟨by decide, signedDist_sign (stripe 1) (by decide) (by decide) 1 0 (by decide) (by decide)
    (by decide) 0 0 (by decide) (by decide) (by decide) 1 0 (by decide) (by decide)⟩

/-- The map `t ↦ (t + 1) * 127.5` in `float64` is monotone. -/
theorem scale_mono {s t : ℚ} (h : s ≤ t) : fmul (fadd s 1) 127.5 ≤ fmul (fadd t 1) 127.5 := by
  unfold fmul fadd
  apply f64_mono
  have := f64_mono (show s + 1 ≤ t + 1 by linarith)
  have h2 : (0 : ℚ) ≤ 127.5 := by norm_num
  exact mul_le_mul_of_nonneg_right this h2

theorem scale_one : fmul (fadd 1 1) 127.5 = 255 := by
  unfold fmul fadd
  have h2 : f64 ((1 : ℚ) + 1) = 2 := by
    have := f64_natCast 2 (by norm_num)
    norm_num at this ⊢
    exact this
  rw [h2]
  have := f64_natCast 255 (by norm_num)
  norm_num at this ⊢
  exact this

theorem scale_neg_one : fmul (fadd (-1) 1) 127.5 = 0 := by
  unfold fmul fadd
  norm_num [f64_zero]

theorem scale_zero : fmul (fadd 0 1) 127.5 = 127.5 := by
  unfold fmul fadd
  have h1 : f64 ((0 : ℚ) + 1) = 1 := by
    have := f64_natCast 1 (by norm_num)
    norm_num at this ⊢
    exact this
  rw [h1, one_mul]
  have := f64_dyadic 255 (-1) (by norm_num)
  norm_num at this ⊢
  exact this

theorem toUint8_cast {x : ℚ} (h0 : 0 ≤ x) (h1 : x ≤ 255) : ((toUint8 x : ℕ) : ℤ) = ⌊x⌋ := by
  unfold toUint8
  have a : 0 ≤ ⌊x⌋ := Int.floor_nonneg.2 h0
  have b : ⌊x⌋ ≤ 255 := by
    have : ⌊x⌋ ≤ ⌊(255 : ℚ)⌋ := Int.floor_mono h1
    have e : ⌊(255 : ℚ)⌋ = 255 := by
      have := Int.floor_intCast (α := ℚ) 255
      norm_num at this ⊢
    omega
  omega

/-- The intensity the source computes is the truncated formula: clamping `n`
before scaling changes nothing, and `uint8` truncates. -/
theorem intensityOf_eq_truncated (HEIGHT : Nat) (d : ℚ) :
    (intensityOf HEIGHT d : ℤ) = truncatedIntensity HEIGHT d := by
  unfold intensityOf truncatedIntensity
  simp only
  generalize fdiv d (fdiv (f64 (HEIGHT : ℚ)) 6) = q
  have hclamp : max 0 (min 255 (fmul (fadd (max (-1) (min 1 q)) 1) 127.5)) =
      max 0 (min 255 (fmul (fadd q 1) 127.5)) := by
    by_cases h1 : 1 < q
    · have e1 : max (-1) (min 1 q) = 1 := by
        rw [min_eq_left h1.le]
        norm_num
      have h := scale_mono h1.le
      rw [scale_one] at h
      rw [e1, scale_one, min_eq_left h, min_self]
    · by_cases h2 : q < -1
      · have e1 : max (-1) (min 1 q) = -1 := by
          rw [min_eq_right (by linarith), max_eq_left h2.le]
        have h := scale_mono h2.le
        rw [scale_neg_one] at h
        rw [e1, scale_neg_one, min_eq_right (by norm_num : (0 : ℚ) ≤ 255),
          min_eq_right (by linarith : fmul (fadd q 1) 127.5 ≤ 255), max_self, max_eq_left h]
      · have e1 : max (-1) (min 1 q) = q := by
          rw [min_eq_right (not_lt.1 h1), max_eq_right (not_lt.1 h2)]
        rw [e1]
  rw [hclamp]
  apply toUint8_cast
  · exact le_max_left _ _
  · exact max_le (by norm_num) (min_le_left _ _)

set_option maxRecDepth 100000 in
/-- C6 as stated fails: in the 2 by 12 image the foreground pixel `(1, 0)` has
`d = -1`, `maxDist = 2`, `n = -0.5`, `(n + 1) * 127.5 = 63.75`; the claimed
intensity is `round(63.75) = 64` and `GenerateFromImage` writes 63. -/
theorem intensity_not_rounded :
    ((GenerateFromImage (stripe 12)).RGBAAt 1 0).R = 63 ∧
      signedDistAt (stripe 12) 1 0 = -1 ∧
      roundedIntensity 12 (signedDistAt (stripe 12) 1 0) = 64 := by
  decide!

/-- C6, amended: at every pixel `GenerateFromImage` writes, in R, G and B, the
integer part (truncation, not rounding to nearest) of `(n + 1) * 127.5` clamped
to `[0, 255]`, with `d = sqrt(distSq of grid1) - sqrt(distSq of grid2)`,
`maxDist = HEIGHT / 6` and `n = clamp(d / maxDist, -1, 1)` in `float64`; alpha is 255. -/
theorem intensity_truncated (img : Image) (x y : Nat) (hx : x < img.width)
    (hy : y < img.height) :
    ∃ v : Nat, (GenerateFromImage img).RGBAAt x y = { R := v, G := v, B := v, A := 255 } ∧
      (v : ℤ) = truncatedIntensity img.height (signedDistAt img x y) :=
  ⟨_, RGBAAt_GenerateFromImage img hx hy, intensityOf_eq_truncated _ _⟩

/-- C6, amended, at a concrete input: the 2 by 12 image, pixel `(1, 0)`. -/
theorem intensity_truncated_witness :
    1 < (stripe 12).width ∧
      ∃ v : Nat, (GenerateFromImage (stripe 12)).RGBAAt 1 0 =
          { R := v, G := v, B := v, A := 255 } ∧
        (v : ℤ) = truncatedIntensity (stripe 12).height (signedDistAt (stripe 12) 1 0) :=
  ⟨by decide, intensity_truncated (stripe 12) 1 0 (by decide) (by decide)⟩

/-! ## The half background, half foreground image -/

theorem point_of_distSq_zero {p : Point} (h : p.distSq = 0) : p = ⟨0, 0⟩ := by
  obtain ⟨a, b⟩ := p
  simp only [Point.distSq] at h
  have ha : a = 0 := by nlinarith [mul_self_nonneg a, mul_self_nonneg b]
  have hb : b = 0 := by nlinarith [mul_self_nonneg a, mul_self_nonneg b]
  rw [ha, hb]

/-- A vector at least `k` long horizontally and at most `k` long in all is `(k, 0)`. -/
theorem point_eq_right {p : Point} {k : Int} (hk : 0 ≤ k) (hdx : k ≤ p.dx)
    (hd : p.distSq ≤ k * k) : p = ⟨k, 0⟩ := by
  obtain ⟨a, b⟩ := p
  simp only [Point.distSq] at hd
  simp only at hdx
  have ha : a = k := by nlinarith [mul_self_nonneg b]
  have hb : b = 0 := by
    subst ha
    nlinarith [mul_self_nonneg b]
  rw [ha, hb]

theorem point_eq_left {p : Point} {k : Int} (hk : 0 ≤ k) (hdx : p.dx ≤ -k)
    (hd : p.distSq ≤ k * k) : p = ⟨-k, 0⟩ := by
  obtain ⟨a, b⟩ := p
  simp only [Point.distSq] at hd
  simp only at hdx
  have ha : a = -k := by nlinarith [mul_self_nonneg b]
  have hb : b = 0 := by
    subst ha
    nlinarith [mul_self_nonneg b]
  rw [ha, hb]

theorem seed1_column (img : Image) (c : Nat)
    (hhalf : ∀ x, x < img.width → ∀ y, y < img.height → (greenAt img x y < 128 ↔ x < c))
    {X Y : Int} (hin : InGrid (sized img.width img.height) X Y)
    (h : getPoint (sized img.width img.height)
      (initGrids (sized img.width img.height) img).1 X Y = ⟨0, 0⟩) : (c : Int) ≤ X := by
  rw [getPoint_inGrid _ hin] at h
  obtain ⟨a1, a2, a3, a4⟩ := hin
  have a2' : X < img.width := a2
  have a4' : Y < img.height := a4
  rw [cell_initGrids_fst img (by omega) (by omega)] at h
  by_contra hlt
  have : greenAt img X.toNat Y.toNat < 128 := by
    rw [hhalf _ (by omega) _ (by omega)]
    omega
  rw [if_pos this] at h
  simp at h

theorem seed2_column (img : Image) (c : Nat)
    (hhalf : ∀ x, x < img.width → ∀ y, y < img.height → (greenAt img x y < 128 ↔ x < c))
    {X Y : Int} (hin : InGrid (sized img.width img.height) X Y)
    (h : getPoint (sized img.width img.height)
      (initGrids (sized img.width img.height) img).2 X Y = ⟨0, 0⟩) : X < (c : Int) := by
  rw [getPoint_inGrid _ hin] at h
  obtain ⟨a1, a2, a3, a4⟩ := hin
  have a2' : X < img.width := a2
  have a4' : Y < img.height := a4
  rw [cell_initGrids_snd img (by omega) (by omega)] at h
  by_contra hlt
  have : ¬ greenAt img X.toNat Y.toNat < 128 := by
    rw [hhalf _ (by omega) _ (by omega)]
    omega
  rw [if_neg this] at h
  simp at h

/-- In the first grid of a half/half image (seeds in the columns `≥ c`), the
cell `k` columns left of column `c` ends with the vector `(k, 0)`. -/
theorem half_grid1 (img : Image) (c : Nat) (hW : img.width ≤ 4096) (hH : img.height ≤ 4096)
    (hcW : c < img.width)
    (hhalf : ∀ x, x < img.width → ∀ y, y < img.height → (greenAt img x y < 128 ↔ x < c))
    (y : Nat) (hy : y < img.height) (k : Nat) (hk : k ≤ c) :
    getPoint (sized img.width img.height)
      (generateSDF (sized img.width img.height) (initGrids (sized img.width img.height) img).1)
      ((c : Int) - k) y = ⟨k, 0⟩ := by
  obtain ⟨w1, -⟩ := wellFormed_initGrids img
  obtain ⟨s1, -⟩ := seedCells_initGrids img
  have hseed : (initGrids (sized img.width img.height) img).1.cell c y = ⟨0, 0⟩ := by
    rw [cell_initGrids_fst img hcW hy, if_neg (by rw [hhalf c hcW y hy]; omega)]
  have hmin := locallyMinimal_generateSDF (g := sized img.width img.height) w1 rfl
    (bounded_of_seedCells rfl s1)
  have hcW' : (c : Int) < img.width := by exact_mod_cast hcW
  have hy' : (y : Int) < img.height := by exact_mod_cast hy
  induction k with
  | zero =>
    have h0 := seed_stays_zero (g := sized img.width img.height) w1 rfl s1 hcW hy hseed
    have := point_of_distSq_zero h0
    simp only [Nat.cast_zero, sub_zero]
    rw [getPoint_nat _ (show c < (sized img.width img.height).WIDTH from hcW)
      (show y < (sized img.width img.height).HEIGHT from hy)]
    exact this
  | succ k ih =>
    have ih2 := ih (by omega)
    have hin : InGrid (sized img.width img.height) ((c : Int) - (k + 1 : ℕ)) y :=
      ⟨by push_cast; omega, show (c : Int) - (k + 1 : ℕ) < img.width by push_cast; omega,
        by omega, hy'⟩
    have hst := hmin _ _ hin 1 0 (by norm_num) (by norm_num) (by norm_num) (by norm_num)
    unfold Stable candidate at hst
    have e1 : (c : Int) - (k + 1 : ℕ) + 1 = (c : Int) - k := by push_cast; ring
    rw [e1, add_zero, ih2] at hst
    obtain ⟨hin2, hval⟩ := pointsAtSeed_generateSDF (g := sized img.width img.height) w1 rfl
      hW hH s1 (inGrid_nat hcW hy) (by rw [getPoint_nat _ hcW hy]; exact hseed) _ _ hin
    have hcol := seed1_column img c hhalf hin2 hval
    generalize getPoint (sized img.width img.height)
      (generateSDF (sized img.width img.height) (initGrids (sized img.width img.height) img).1)
      ((c : Int) - (k + 1 : ℕ)) y = v at hst hcol ⊢
    have hd := point_eq_right (p := v) (k := (k : Int) + 1) (by omega)
      (by push_cast at hcol; omega) (by
        simp only [Point.distSq] at hst ⊢
        linarith)
    rw [hd]
    push_cast
    rfl

/-- In the second grid of a half/half image (seeds in the columns `< c`), the
cell `k` columns right of column `c - 1` ends with the vector `(-k, 0)`. -/
theorem half_grid2 (img : Image) (c : Nat) (hW : img.width ≤ 4096) (hH : img.height ≤ 4096)
    (hc0 : 0 < c) (hcW : c < img.width)
    (hhalf : ∀ x, x < img.width → ∀ y, y < img.height → (greenAt img x y < 128 ↔ x < c))
    (y : Nat) (hy : y < img.height) (k : Nat) (hk : c - 1 + k < img.width) :
    getPoint (sized img.width img.height)
      (generateSDF (sized img.width img.height) (initGrids (sized img.width img.height) img).2)
      ((c : Int) - 1 + k) y = ⟨-(k : Int), 0⟩ := by
  obtain ⟨-, w2⟩ := wellFormed_initGrids img
  obtain ⟨-, s2⟩ := seedCells_initGrids img
  have hc1 : c - 1 < img.width := by omega
  have hseed : (initGrids (sized img.width img.height) img).2.cell (c - 1) y = ⟨0, 0⟩ := by
    rw [cell_initGrids_snd img hc1 hy, if_pos (by rw [hhalf (c - 1) hc1 y hy]; omega)]
  have hmin := locallyMinimal_generateSDF (g := sized img.width img.height) w2 rfl
    (bounded_of_seedCells rfl s2)
  have ecast : ((c - 1 : ℕ) : Int) = (c : Int) - 1 := by omega
  have hy' : (y : Int) < img.height := by exact_mod_cast hy
  induction k with
  | zero =>
    have h0 := seed_stays_zero (g := sized img.width img.height) w2 rfl s2 hc1 hy hseed
    have := point_of_distSq_zero h0
    simp only [Nat.cast_zero, add_zero, neg_zero]
    rw [← ecast, getPoint_nat _ (show c - 1 < (sized img.width img.height).WIDTH from hc1)
      (show y < (sized img.width img.height).HEIGHT from hy)]
    exact this
  | succ k ih =>
    have ih2 := ih (by omega)
    have hkW : (c : Int) - 1 + (k + 1 : ℕ) < img.width := by
      have : ((c - 1 + (k + 1) : ℕ) : Int) < img.width := by exact_mod_cast hk
      push_cast at this ⊢
      omega
    have hin : InGrid (sized img.width img.height) ((c : Int) - 1 + (k + 1 : ℕ)) y :=
      ⟨by push_cast; omega, hkW, by omega, hy'⟩
    have hst := hmin _ _ hin (-1) 0 (by norm_num) (by norm_num) (by norm_num) (by norm_num)
    unfold Stable candidate at hst
    have e1 : (c : Int) - 1 + (k + 1 : ℕ) + -1 = (c : Int) - 1 + k := by push_cast; ring
    rw [e1, add_zero, ih2] at hst
    obtain ⟨hin2, hval⟩ := pointsAtSeed_generateSDF (g := sized img.width img.height) w2 rfl
      hW hH s2 (inGrid_nat hc1 hy) (by rw [getPoint_nat _ hc1 hy]; exact hseed) _ _ hin
    have hcol := seed2_column img c hhalf hin2 hval
    generalize getPoint (sized img.width img.height)
      (generateSDF (sized img.width img.height) (initGrids (sized img.width img.height) img).2)
      ((c : Int) - 1 + (k + 1 : ℕ)) y = v at hst hcol ⊢
    have hd := point_eq_left (p := v) (k := (k : Int) + 1) (by omega)
      (by push_cast at hcol; omega) (by
        simp only [Point.distSq] at hst ⊢
        linarith)
    rw [hd]
    push_cast
    rfl

theorem distSq_toNat_right (k : Nat) : (Point.distSq ⟨(k : Int), 0⟩).toNat = k * k := by
  simp only [Point.distSq, mul_zero, add_zero]
  rw [← Nat.cast_mul, Int.toNat_natCast]

theorem distSq_toNat_left (k : Nat) : (Point.distSq ⟨-(k : Int), 0⟩).toNat = k * k := by
  simp only [Point.distSq, mul_zero, add_zero, neg_mul_neg]
  rw [← Nat.cast_mul, Int.toNat_natCast]

/-- The signed distance of a half/half image in the background columns:
`c - x`, the distance to the first foreground column. -/
theorem half_signedDist_left (img : Image) (c : Nat) (hW : img.width ≤ 4096)
    (hH : img.height ≤ 4096) (hcW : c < img.width)
    (hhalf : ∀ x, x < img.width → ∀ y, y < img.height → (greenAt img x y < 128 ↔ x < c))
    {x y : Nat} (hx : x < c) (hy : y < img.height) :
    signedDistAt img x y = (c : ℚ) - x := by
  obtain ⟨-, w2⟩ := wellFormed_initGrids img
  obtain ⟨-, s2⟩ := seedCells_initGrids img
  have hxW : x < img.width := by omega
  have h1 := half_grid1 img c hW hH hcW hhalf y hy (c - x) (by omega)
  have e : (c : Int) - ((c - x : ℕ) : Int) = (x : Int) := by omega
  rw [e, getPoint_nat _ (show x < (sized img.width img.height).WIDTH from hxW)
    (show y < (sized img.width img.height).HEIGHT from hy)] at h1
  have h2 := seed_stays_zero (g := sized img.width img.height) w2 rfl s2 hxW hy
    (by rw [cell_initGrids_snd img hxW hy, if_pos ((hhalf x hxW y hy).2 hx)])
  unfold signedDistAt signedDist
  simp only []
  rw [h1, h2, distSq_toNat_right, sqrt64_sq _ (by omega), Int.toNat_zero, sqrt64_zero]
  unfold fsub
  rw [sub_zero, f64_natCast _ (by omega), Nat.cast_sub (by omega)]

/-- The signed distance of a half/half image in the foreground columns:
`-(x - c + 1)`, minus the distance to the last background column. -/
theorem half_signedDist_right (img : Image) (c : Nat) (hW : img.width ≤ 4096)
    (hH : img.height ≤ 4096) (hc0 : 0 < c) (hcW : c < img.width)
    (hhalf : ∀ x, x < img.width → ∀ y, y < img.height → (greenAt img x y < 128 ↔ x < c))
    {x y : Nat} (hx : c ≤ x) (hxW : x < img.width) (hy : y < img.height) :
    signedDistAt img x y = (c : ℚ) - 1 - x := by
  obtain ⟨w1, -⟩ := wellFormed_initGrids img
  obtain ⟨s1, -⟩ := seedCells_initGrids img
  have h2 := half_grid2 img c hW hH hc0 hcW hhalf y hy (x - c + 1) (by omega)
  have e : (c : Int) - 1 + ((x - c + 1 : ℕ) : Int) = (x : Int) := by omega
  rw [e, getPoint_nat _ (show x < (sized img.width img.height).WIDTH from hxW)
    (show y < (sized img.width img.height).HEIGHT from hy)] at h2
  have h1 := seed_stays_zero (g := sized img.width img.height) w1 rfl s1 hxW hy
    (by rw [cell_initGrids_fst img hxW hy, if_neg (by rw [hhalf x hxW y hy]; omega)])
  unfold signedDistAt signedDist
  simp only []
  rw [h1, h2, distSq_toNat_left, sqrt64_sq _ (by omega), Int.toNat_zero, sqrt64_zero]
  unfold fsub
  have e2 : (0 : ℚ) - ((x - c + 1 : ℕ) : ℚ) = ((-((x - c + 1 : ℕ) : ℤ) : ℤ) : ℚ) := by
    push_cast
    ring
  rw [e2, f64_intCast _ (by rw [abs_neg, Nat.abs_cast]; exact_mod_cast (show x - c + 1 < 2 ^ 53 by omega))]
  push_cast
  rw [Nat.cast_sub hx]
  ring

/-- The divisor `maxExpectedDist = float64(HEIGHT) / 6` is positive. -/
theorem maxExpectedDist_pos {HEIGHT : Nat} (h : 0 < HEIGHT) : 0 < fdiv (f64 HEIGHT) 6 := by
  unfold fdiv
  apply f64_pos
  have : (0 : ℚ) < f64 HEIGHT := f64_pos (by exact_mod_cast h)
  positivity

theorem toUint8_mono {x y : ℚ} (hx : 0 ≤ x) (hxy : x ≤ y) (hy : y ≤ 255) :
    toUint8 x ≤ toUint8 y := by
  have h1 := toUint8_cast hx (hxy.trans hy)
  have h2 := toUint8_cast (hx.trans hxy) hy
  have := Int.floor_mono hxy
  omega

/-- The intensity is a monotone function of the signed distance. -/
theorem intensityOf_mono {HEIGHT : Nat} (h : 0 < HEIGHT) {d e : ℚ} (hde : d ≤ e) :
    intensityOf HEIGHT d ≤ intensityOf HEIGHT e := by
  unfold intensityOf
  simp only []
  have hm := maxExpectedDist_pos h
  have h1 : fdiv d (fdiv (f64 HEIGHT) 6) ≤ fdiv e (fdiv (f64 HEIGHT) 6) := by
    unfold fdiv at hm ⊢
    exact f64_mono (div_le_div_of_nonneg_right hde hm.le)
  have h2 := scale_mono h1
  apply toUint8_mono
  · exact le_max_left _ _
  · exact max_le_max le_rfl (min_le_min le_rfl h2)
  · exact max_le (by norm_num) (min_le_left _ _)

/-- A positive signed distance gives an intensity of at least 127. -/
theorem intensityOf_pos {HEIGHT : Nat} (h : 0 < HEIGHT) {d : ℚ} (hd : 0 ≤ d) :
    127 ≤ intensityOf HEIGHT d := by
  unfold intensityOf
  simp only []
  have hm := maxExpectedDist_pos h
  have h1 : 0 ≤ fdiv d (fdiv (f64 HEIGHT) 6) := by
    unfold fdiv at hm ⊢
    exact f64_nonneg (div_nonneg hd hm.le)
  have h2 := scale_mono h1
  rw [scale_zero] at h2
  have h3 : (127.5 : ℚ) ≤ max 0 (min 255 (fmul (fadd (fdiv d (fdiv (f64 HEIGHT) 6)) 1) 127.5)) :=
    le_max_of_le_right (le_min (by norm_num) h2)
  have h4 := toUint8_cast (le_max_left 0 (min 255 (fmul (fadd (fdiv d (fdiv (f64 HEIGHT) 6)) 1) 127.5)))
    (max_le (by norm_num) (min_le_left _ _))
  have h5 : (127 : ℤ) ≤ ⌊max 0 (min 255 (fmul (fadd (fdiv d (fdiv (f64 HEIGHT) 6)) 1) 127.5))⌋ := by
    apply Int.le_floor.2
    refine le_trans ?_ h3
    norm_num
  omega

/-- A negative signed distance gives an intensity of at most 127. -/
theorem intensityOf_neg {HEIGHT : Nat} (h : 0 < HEIGHT) {d : ℚ} (hd : d ≤ 0) :
    intensityOf HEIGHT d ≤ 127 := by
  unfold intensityOf
  simp only []
  have hm := maxExpectedDist_pos h
  have h1 : fdiv d (fdiv (f64 HEIGHT) 6) ≤ 0 := by
    unfold fdiv at hm ⊢
    exact f64_nonpos (div_nonpos_of_nonpos_of_nonneg hd hm.le)
  have h2 := scale_mono h1
  rw [scale_zero] at h2
  have h3 : max 0 (min 255 (fmul (fadd (fdiv d (fdiv (f64 HEIGHT) 6)) 1) 127.5)) ≤ (127.5 : ℚ) :=
    max_le (by norm_num) ((min_le_right _ _).trans h2)
  have h4 := toUint8_cast (le_max_left 0 (min 255 (fmul (fadd (fdiv d (fdiv (f64 HEIGHT) 6)) 1) 127.5)))
    (max_le (by norm_num) (min_le_left _ _))
  have h5 : ⌊max 0 (min 255 (fmul (fadd (fdiv d (fdiv (f64 HEIGHT) 6)) 1) 127.5))⌋ < (128 : ℤ) := by
    apply Int.floor_lt.2
    refine lt_of_le_of_lt h3 ?_
    norm_num
  omega

/-- The hypothesis of the half/half statements holds for `stripe h` with `c = 1`. -/
theorem stripe_half (h : Nat) :
    ∀ x, x < (stripe h).width → ∀ y, y < (stripe h).height →
      (greenAt (stripe h) x y < 128 ↔ x < 1) := by
  intro x hx y hy
  have hx2 : x < 2 := hx
  have hy2 : y < h := hy
  unfold greenAt Image.RGBAAt
  rw [if_pos ⟨hx, hy⟩]
  have : (stripe h).pix.getD y [] = [⟨0, 0, 0, 255⟩, ⟨255, 255, 255, 255⟩] := by
    simp [stripe, List.getD_eq_getElem?_getD, hy2]
  rw [this]
  interval_cases x <;> simp

set_option maxRecDepth 100000 in
/-- C5 as stated fails: the 2 by 6 image with a background column on the left
and a foreground column on the right (`c = 1`) gets the intensities 255 and 0
in its first row: they decrease from left to right, and the intensity at the
boundary column 1 is 0, not within 1 of 128.  In the 3 by 6 image with two
background columns (`c = 2`) the intensities are 255, 255 and 0: the order is
not strict in either direction. -/
theorem half_image_not_increasing :
    (stripe 6).width = 2 ∧ (stripe 6).height = 6 ∧
      (∀ x, x < 2 → ∀ y, y < 6 → (greenAt (stripe 6) x y < 128 ↔ x < 1)) ∧
      ((GenerateFromImage (stripe 6)).RGBAAt 0 0).R = 255 ∧
      ((GenerateFromImage (stripe 6)).RGBAAt 1 0).R = 0 ∧
      (∀ x, x < 3 → ∀ y, y < 6 → (greenAt (bands 6) x y < 128 ↔ x < 2)) ∧
      ((GenerateFromImage (bands 6)).RGBAAt 0 0).R = 255 ∧
      ((GenerateFromImage (bands 6)).RGBAAt 1 0).R = 255 ∧
      ((GenerateFromImage (bands 6)).RGBAAt 2 0).R = 0 := by
  decide!

/-- For heights up to 6 the signed distance `-1` already saturates the
intensity at 0. -/
theorem intensityOf_boundary_zero {HEIGHT : Nat} (h1 : 0 < HEIGHT) (h6 : HEIGHT ≤ 6) :
    intensityOf HEIGHT (-1) = 0 := by
  unfold intensityOf
  simp only
  have hm := maxExpectedDist_pos h1
  have hm1 : fdiv (f64 HEIGHT) 6 ≤ 1 := by
    unfold fdiv
    rw [f64_natCast HEIGHT (by omega)]
    have hq : (HEIGHT : ℚ) / 6 ≤ ((1 : ℕ) : ℚ) := by
      have : (HEIGHT : ℚ) ≤ 6 := by exact_mod_cast h6
      rw [div_le_iff₀ (by norm_num)]
      push_cast
      linarith
    have := f64_mono hq
    rw [f64_natCast 1 (by norm_num)] at this
    exact_mod_cast this
  have hn : fdiv (-1) (fdiv (f64 HEIGHT) 6) ≤ -1 := by
    generalize fdiv (f64 HEIGHT) 6 = m at hm hm1
    unfold fdiv
    have hq : (-1 : ℚ) / m ≤ ((-1 : ℤ) : ℚ) := by
      rw [div_le_iff₀ hm]
      push_cast
      linarith
    have := f64_mono hq
    rw [f64_intCast (-1) (by norm_num)] at this
    exact_mod_cast this
  have hs := scale_mono hn
  rw [scale_neg_one] at hs
  rw [min_eq_right (hs.trans (by norm_num)), max_eq_left hs]
  exact toUint8_natCast 0 (by norm_num)

theorem scale_small : fmul (fadd (-(1 / 256)) 1) 127.5 = 65025 / 512 := by
  unfold fmul fadd
  have h1 : f64 (-(1 / 256 : ℚ) + 1) = 255 / 256 := by
    have := f64_dyadic 255 (-8) (by norm_num)
    norm_num at this ⊢
    exact this
  rw [h1]
  have := f64_dyadic 65025 (-9) (by norm_num)
  norm_num at this ⊢
  exact this

/-- For heights from 1536 to 4096 the signed distance `-1` gives the
intensity 127. -/
theorem intensityOf_boundary_mid {HEIGHT : Nat} (h1 : 1536 ≤ HEIGHT) (h2 : HEIGHT ≤ 4096) :
    intensityOf HEIGHT (-1) = 127 := by
  unfold intensityOf
  simp only
  have hm := maxExpectedDist_pos (show 0 < HEIGHT by omega)
  have hm1 : 256 ≤ fdiv (f64 HEIGHT) 6 := by
    unfold fdiv
    rw [f64_natCast HEIGHT (by omega)]
    have hq : ((256 : ℕ) : ℚ) ≤ (HEIGHT : ℚ) / 6 := by
      have : (1536 : ℚ) ≤ HEIGHT := by exact_mod_cast h1
      rw [le_div_iff₀ (by norm_num)]
      push_cast
      linarith
    have := f64_mono hq
    rw [f64_natCast 256 (by norm_num)] at this
    exact_mod_cast this
  generalize fdiv (f64 HEIGHT) 6 = m at hm hm1
  have hlo : -(1 / 256 : ℚ) ≤ fdiv (-1) m := by
    unfold fdiv
    have hq : ((-1 : ℤ) : ℚ) * 2 ^ (-8 : ℤ) ≤ (-1 : ℚ) / m := by
      rw [le_div_iff₀ hm]
      norm_num
      linarith
    have := f64_mono hq
    rw [f64_dyadic (-1) (-8) (by norm_num)] at this
    norm_num at this ⊢
    linarith
  have hhi : fdiv (-1) m ≤ 0 := by
    unfold fdiv
    exact f64_nonpos (div_nonpos_of_nonpos_of_nonneg (by norm_num) hm.le)
  have s1 := scale_mono hlo
  have s2 := scale_mono hhi
  rw [scale_small] at s1
  rw [scale_zero] at s2
  generalize fmul (fadd (fdiv (-1) m) 1) 127.5 = v at s1 s2
  have hv : min 255 v = v := min_eq_right (s2.trans (by norm_num))
  rw [hv, max_eq_right (le_trans (by norm_num) s1)]
  apply toUint8_of_floor (by norm_num)
  · push_cast
    linarith
  · push_cast
    have : (127.5 : ℚ) < 127 + 1 := by norm_num
    linarith

/-- C5, amended: in every image of at most 4096 by 4096 pixels whose columns
`[0, c)` are background (green `< 128`) and whose columns `[c, W)` are
foreground, with `0 < c < W`, along every row `y` the signed distance of
`GenerateFromImage` is `c - x` in the background columns and `c - 1 - x` in the
foreground columns; the intensities never increase from left to right; they are
at least 127 in the background columns and at most 127 in the foreground
columns, the boundary column `c` included; every intensity is the integer part
of `(n + 1) * 127.5` clamped to `[0, 255]`, with `n = clamp(d / (H / 6), -1, 1)`
in `float64`; at the boundary column `c` this is the value for `d = -1`, which
is 0 whenever `H ≤ 6` and 127 whenever `1536 ≤ H`. -/
theorem half_image_intensity (img : Image) (c : Nat) (hW : img.width ≤ 4096)
    (hH : img.height ≤ 4096) (hc0 : 0 < c) (hcW : c < img.width)
    (hhalf : ∀ x, x < img.width → ∀ y, y < img.height → (greenAt img x y < 128 ↔ x < c))
    (y : Nat) (hy : y < img.height) :
    (∀ x, x < c → signedDistAt img x y = (c : ℚ) - x) ∧
      (∀ x, c ≤ x → x < img.width → signedDistAt img x y = (c : ℚ) - 1 - x) ∧
      (∀ x1 x2, x1 ≤ x2 → x2 < img.width →
        ((GenerateFromImage img).RGBAAt x2 y).R ≤ ((GenerateFromImage img).RGBAAt x1 y).R) ∧
      (∀ x, x < c → 127 ≤ ((GenerateFromImage img).RGBAAt x y).R) ∧
      (∀ x, c ≤ x → x < img.width → ((GenerateFromImage img).RGBAAt x y).R ≤ 127) ∧
      (∀ x, x < img.width → ((((GenerateFromImage img).RGBAAt x y).R : ℕ) : ℤ) =
        truncatedIntensity img.height (if x < c then (c : ℚ) - x else (c : ℚ) - 1 - x)) ∧
      ((((GenerateFromImage img).RGBAAt c y).R : ℕ) : ℤ) = truncatedIntensity img.height (-1) ∧
      (img.height ≤ 6 → ((GenerateFromImage img).RGBAAt c y).R = 0) ∧
      (1536 ≤ img.height → ((GenerateFromImage img).RGBAAt c y).R = 127) := by
  have hpos : 0 < img.height := by omega
  have hL := fun x (hx : x < c) => half_signedDist_left img c hW hH hcW hhalf hx hy
  have hR := fun x (hx : c ≤ x) (hxW : x < img.width) =>
    half_signedDist_right img c hW hH hc0 hcW hhalf hx hxW hy
  have hval : ∀ x, x < img.width → signedDistAt img x y =
      if x < c then (c : ℚ) - x else (c : ℚ) - 1 - x := by
    intro x hxW
    by_cases hx : x < c
    · rw [if_pos hx, hL x hx]
    · rw [if_neg hx, hR x (by omega) hxW]
  have hc1 : signedDistAt img c y = -1 := by
    rw [hR c le_rfl hcW]
    ring
  refine ⟨hL, hR, ?_, ?_, ?_, ?_, ?_, ?_, ?_⟩
  · intro x1 x2 h12 h2W
    rw [RGBAAt_GenerateFromImage img h2W hy, RGBAAt_GenerateFromImage img (by omega) hy]
    apply intensityOf_mono hpos
    rw [hval x2 h2W, hval x1 (by omega)]
    have c12 : (x1 : ℚ) ≤ x2 := by exact_mod_cast h12
    split_ifs with a b b
    · linarith
    · omega
    · linarith
    · linarith
  · intro x hx
    rw [RGBAAt_GenerateFromImage img (by omega) hy]
    apply intensityOf_pos hpos
    rw [hL x hx]
    have : (x : ℚ) < c := by exact_mod_cast hx
    linarith
  · intro x hx hxW
    rw [RGBAAt_GenerateFromImage img hxW hy]
    apply intensityOf_neg hpos
    rw [hR x hx hxW]
    have : (c : ℚ) ≤ x := by exact_mod_cast hx
    linarith
  · intro x hxW
    rw [RGBAAt_GenerateFromImage img hxW hy, ← hval x hxW]
    exact intensityOf_eq_truncated _ _
  · rw [RGBAAt_GenerateFromImage img hcW hy, hc1]
    exact intensityOf_eq_truncated _ _
  · intro h6
    rw [RGBAAt_GenerateFromImage img hcW hy, hc1]
    exact intensityOf_boundary_zero hpos h6
  · intro h1536
    rw [RGBAAt_GenerateFromImage img hcW hy, hc1]
    exact intensityOf_boundary_mid h1536 hH

/-- C5, amended, at a concrete input: the 2 by 6 image with `c = 1`, first row. -/
theorem half_image_intensity_witness :
    (0 < 1 ∧ 1 < (stripe 6).width ∧ 0 < (stripe 6).height) ∧
      ((∀ x, x < 1 → signedDistAt (stripe 6) x 0 = ((1 : ℕ) : ℚ) - x) ∧
      (∀ x, 1 ≤ x → x < (stripe 6).width → signedDistAt (stripe 6) x 0 = ((1 : ℕ) : ℚ) - 1 - x) ∧
      (∀ x1 x2, x1 ≤ x2 → x2 < (stripe 6).width →
        ((GenerateFromImage (stripe 6)).RGBAAt x2 0).R ≤
          ((GenerateFromImage (stripe 6)).RGBAAt x1 0).R) ∧
      (∀ x, x < 1 → 127 ≤ ((GenerateFromImage (stripe 6)).RGBAAt x 0).R) ∧
      (∀ x, 1 ≤ x → x < (stripe 6).width →
        ((GenerateFromImage (stripe 6)).RGBAAt x 0).R ≤ 127) ∧
      (∀ x, x < (stripe 6).width → ((((GenerateFromImage (stripe 6)).RGBAAt x 0).R : ℕ) : ℤ) =
        truncatedIntensity (stripe 6).height
          (if x < 1 then ((1 : ℕ) : ℚ) - x else ((1 : ℕ) : ℚ) - 1 - x)) ∧
      ((((GenerateFromImage (stripe 6)).RGBAAt 1 0).R : ℕ) : ℤ) =
        truncatedIntensity (stripe 6).height (-1) ∧
      ((stripe 6).height ≤ 6 → ((GenerateFromImage (stripe 6)).RGBAAt 1 0).R = 0) ∧
      (1536 ≤ (stripe 6).height → ((GenerateFromImage (stripe 6)).RGBAAt 1 0).R = 127)) :=
  ⟨by decide, half_image_intensity (stripe 6) 1 (by decide) (by decide) (by decide) (by decide)
    (stripe_half 6) 0 (by decide)⟩

/-- C11: `BlendSDF` stops at its first statement (`none`, no image) exactly when
it is given fewer than two fields; with two or more it passes that check and
produces an image with the bounds of the first field. -/
theorem blendSDF_too_few (sdfs : List Image) :
    (sdfs.length < 2 → BlendSDF sdfs = none) ∧
      (2 ≤ sdfs.length → ∃ result : Image, BlendSDF sdfs = some result ∧
        result.width = (sdfs.getD 0 default).width ∧
        result.height = (sdfs.getD 0 default).height) := by
  constructor
  · intro h
    unfold BlendSDF
    rw [if_pos h]
  · intro h
    unfold BlendSDF
    rw [if_neg (by omega)]
    exact ⟨_, rfl, rfl, rfl⟩

/-- C11 at concrete inputs: no field, one field, two fields. -/
theorem blendSDF_too_few_witness :
    ([fieldA].length < 2 ∧ BlendSDF [fieldA] = none) ∧
      (2 ≤ [fieldA, fieldB].length ∧ ∃ result : Image, BlendSDF [fieldA, fieldB] = some result ∧
        result.width = ([fieldA, fieldB].getD 0 default).width ∧
        result.height = ([fieldA, fieldB].getD 0 default).height) :=
  ⟨⟨by decide, (blendSDF_too_few [fieldA]).1 (by decide)⟩,
    ⟨by decide, (blendSDF_too_few [fieldA, fieldB]).2 (by decide)⟩⟩

/-- C12: the blend operation, as the program runs it (the `blend` command of
`main`, the only caller of `BlendSDF`), stops with the size error in its
loading loop, before `BlendSDF` is called and any pixel is computed, when the
two loaded fields differ in width or height.  The fields are decoded images, of
positive width and height; the library comparison `Rectangle.Eq` calls two
empty rectangles equal, hence the condition that not both fields are empty. -/
theorem blendCommand_size_mismatch (a b : Image)
    (hdiff : a.width ≠ b.width ∨ a.height ≠ b.height)
    (hne : (0 < a.width ∧ 0 < a.height) ∨ (0 < b.width ∧ 0 < b.height)) :
    loadFields [some a, some b] [] = Except.error Fatal.sizeMismatch ∧
      blendCommand [some a, some b] = Except.error Fatal.sizeMismatch := by
  have hb : boundsEq b a = false := by
    unfold boundsEq
    simp only [decide_eq_false_iff_not]
    omega
  have h1 : loadFields [some a, some b] [] = Except.error Fatal.sizeMismatch := by
    simp [loadFields, hb]
  refine ⟨h1, ?_⟩
  unfold blendCommand
  rw [h1]
  simp

/-- C12 at a concrete input: a 2 by 1 and a 2 by 2 field. -/
theorem blendCommand_size_mismatch_witness :
    (fieldA.width ≠ (stripe 2).width ∨ fieldA.height ≠ (stripe 2).height) ∧
      loadFields [some fieldA, some (stripe 2)] [] = Except.error Fatal.sizeMismatch ∧
      blendCommand [some fieldA, some (stripe 2)] = Except.error Fatal.sizeMismatch :=
  ⟨by decide, blendCommand_size_mismatch fieldA (stripe 2) (by decide) (by decide)⟩

/-! ## Grids without a seed -/

theorem point_eq_of_le {p : Point} {a b : Int} (ha : 0 ≤ a) (hb : 0 ≤ b) (hx : a ≤ p.dx)
    (hy : b ≤ p.dy) (hd : p.distSq ≤ a * a + b * b) : p = ⟨a, b⟩ := by
  obtain ⟨dx, dy⟩ := p
  simp only [Point.distSq] at hd hx hy
  have h1 : a * a ≤ dx * dx := by nlinarith
  have h2 : b * b ≤ dy * dy := by nlinarith
  have e1 : dx = a := by nlinarith
  have e2 : dy = b := by nlinarith
  rw [e1, e2]

/-- A cell that is `FAR` in the input never reaches the vector `(0, 0)`. -/
theorem far_cell_nonzero {g : SDFGenerator} {grid : Grid} (hwf : WellFormed g grid)
    (hE : g.empty = ⟨9999, 9999⟩) (hW : g.WIDTH ≤ 9998) (hs : SeedCells g grid)
    {x y : Nat} (hx : x < g.WIDTH) (hy : y < g.HEIGHT) (hfar : grid.cell x y = ⟨9999, 9999⟩) :
    (generateSDF g grid).cell x y ≠ ⟨0, 0⟩ := by
  intro hz
  have h := (tracked_generateSDF hwf hE hs).1 x y (inGrid_nat hx hy)
  rw [getPoint_nat _ hx hy, hz] at h
  rcases h with ⟨-, h2⟩ | ⟨h1, -⟩
  · simp only [add_zero] at h2
    rw [getPoint_nat _ hx hy, hfar] at h2
    simp at h2
  · simp only at h1
    omega

/-- Cellwise form of "every cell is `FAR`". -/
theorem seedCells_of_allFar {g : SDFGenerator} {grid : Grid}
    (hfar : ∀ x, x < g.WIDTH → ∀ y, y < g.HEIGHT → grid.cell x y = ⟨9999, 9999⟩) :
    SeedCells g grid := by
  intro X Y hin
  right
  rw [getPoint_inGrid _ hin]
  obtain ⟨a1, a2, a3, a4⟩ := hin
  exact hfar _ (by omega) _ (by omega)

/-- With no seed in the input, every cell of the output descends from `FAR`. -/
theorem farLike_generateSDF {g : SDFGenerator} {grid : Grid} (hwf : WellFormed g grid)
    (hE : g.empty = ⟨9999, 9999⟩)
    (hfar : ∀ x, x < g.WIDTH → ∀ y, y < g.HEIGHT → grid.cell x y = ⟨9999, 9999⟩)
    (X Y : Int) (hin : InGrid g X Y) : FarLike X Y (getPoint g (generateSDF g grid) X Y) := by
  rcases (tracked_generateSDF hwf hE (seedCells_of_allFar hfar)).1 X Y hin with ⟨h1, h2⟩ | h
  · rw [getPoint_inGrid _ h1] at h2
    obtain ⟨a1, a2, a3, a4⟩ := h1
    rw [hfar _ (by omega) _ (by omega)] at h2
    simp at h2
  · exact h

/-- The output for a grid without seeds: the cell `(x, y)` holds
`(9998 - x, 9998 - y)`. -/
theorem allFar_cell {g : SDFGenerator} {grid : Grid} (hwf : WellFormed g grid)
    (hE : g.empty = ⟨9999, 9999⟩) (hW : g.WIDTH ≤ 9999) (hH : g.HEIGHT ≤ 9999)
    (hfar : ∀ x, x < g.WIDTH → ∀ y, y < g.HEIGHT → grid.cell x y = ⟨9999, 9999⟩)
    (n : Nat) : ∀ x y : Nat, x + y ≤ n → x < g.WIDTH → y < g.HEIGHT →
      getPoint g (generateSDF g grid) x y = ⟨9998 - x, 9998 - y⟩ := by
  have hmin := locallyMinimal_generateSDF hwf hE
    (bounded_of_seedCells hE (seedCells_of_allFar hfar))
  have hfl := farLike_generateSDF hwf hE hfar
  have key : ∀ x y : Nat, x < g.WIDTH → y < g.HEIGHT → ∀ ox oy : Int,
      -1 ≤ ox → ox ≤ 1 → -1 ≤ oy → oy ≤ 1 →
      candidate g (generateSDF g grid) x y ox oy = ⟨9998 - x, 9998 - y⟩ →
      getPoint g (generateSDF g grid) x y = ⟨9998 - x, 9998 - y⟩ := by
    intro x y hx hy ox oy b1 b2 b3 b4 hc
    have hst := hmin x y (inGrid_nat hx hy) ox oy b1 b2 b3 b4
    unfold Stable at hst
    rw [hc] at hst
    obtain ⟨f1, f2⟩ := hfl x y (inGrid_nat hx hy)
    exact point_eq_of_le (by omega) (by omega) f1 f2 (by simpa [Point.distSq] using hst)
  induction n with
  | zero =>
    intro x y hxy hx hy
    obtain rfl : x = 0 := by omega
    obtain rfl : y = 0 := by omega
    apply key 0 0 hx hy (-1) (-1) (by norm_num) (by norm_num) (by norm_num) (by norm_num)
    unfold candidate
    rw [getPoint_outside _ (by unfold InGrid; omega), hE]
    simp
  | succ n ih =>
    intro x y hxy hx hy
    rcases Nat.eq_zero_or_pos x with h0 | hpos
    · subst h0
      rcases Nat.eq_zero_or_pos y with h0 | hypos
      · exact ih 0 y (by omega) hx hy
      · apply key 0 y hx hy 0 (-1) (by norm_num) (by norm_num) (by norm_num) (by norm_num)
        unfold candidate
        have e : ((y : Int)) + -1 = ((y - 1 : ℕ) : Int) := by omega
        have e0 : ((0 : ℕ) : Int) + 0 = ((0 : ℕ) : Int) := by omega
        rw [e, e0, ih 0 (y - 1) (by omega) hx (by omega)]
        simp only [Point.mk.injEq]
        omega
    · apply key x y hx hy (-1) 0 (by norm_num) (by norm_num) (by norm_num) (by norm_num)
      unfold candidate
      have e : ((x : Int)) + -1 = ((x - 1 : ℕ) : Int) := by omega
      rw [e, add_zero, ih (x - 1) y (by omega) (by omega) hy]
      simp only [Point.mk.injEq]
      omega

set_option maxRecDepth 100000 in
/-- C13 as stated fails: in the 1 by 1 grid whose only cell is `FAR`, the cell
ends as `(9998, 9998)`; in the 2 by 2 all-`FAR` grid no cell stays `FAR`. -/
theorem allFar_changes :
    generateSDF (sized 1 1) [[⟨9999, 9999⟩]] = [[⟨9998, 9998⟩]] ∧
      generateSDF (sized 2 2) [[⟨9999, 9999⟩, ⟨9999, 9999⟩], [⟨9999, 9999⟩, ⟨9999, 9999⟩]] =
        [[⟨9998, 9998⟩, ⟨9997, 9998⟩], [⟨9998, 9997⟩, ⟨9997, 9997⟩]] := by
  decide

/-- C13, amended: for every grid with `1 ≤ WIDTH, HEIGHT ≤ 9999` in which every
cell is `FAR = (9999, 9999)`, after `generateSDF` the cell `(x, y)` holds the
vector `(9998 - x, 9998 - y)`, which is never `FAR` itself. -/
theorem allFar_result (W H : Nat) (grid : Grid) (hW : 1 ≤ W ∧ W ≤ 9999)
    (hH : 1 ≤ H ∧ H ≤ 9999) (hwf : WellFormed (sized W H) grid)
    (hfar : ∀ x, x < W → ∀ y, y < H → grid.cell x y = ⟨9999, 9999⟩)
    (x y : Nat) (hx : x < W) (hy : y < H) :
    (generateSDF (sized W H) grid).cell x y = ⟨9998 - x, 9998 - y⟩ ∧
      (generateSDF (sized W H) grid).cell x y ≠ ⟨9999, 9999⟩ := by
  have h := allFar_cell (g := sized W H) hwf rfl hW.2 hH.2 hfar (x + y) x y le_rfl hx hy
  rw [getPoint_nat _ (show x < (sized W H).WIDTH from hx)
    (show y < (sized W H).HEIGHT from hy)] at h
  refine ⟨h, ?_⟩
  rw [h]
  intro hc
  simp only [Point.mk.injEq] at hc
  omega

set_option maxRecDepth 100000 in
/-- C13, amended, at a concrete input: the 2 by 2 all-`FAR` grid, cell `(1, 1)`. -/
theorem allFar_result_witness :
    WellFormed (sized 2 2) [[⟨9999, 9999⟩, ⟨9999, 9999⟩], [⟨9999, 9999⟩, ⟨9999, 9999⟩]] ∧
      ((generateSDF (sized 2 2)
        [[⟨9999, 9999⟩, ⟨9999, 9999⟩], [⟨9999, 9999⟩, ⟨9999, 9999⟩]]).cell 1 1 =
        ⟨9998 - (1 : ℕ), 9998 - (1 : ℕ)⟩ ∧
      (generateSDF (sized 2 2)
        [[⟨9999, 9999⟩, ⟨9999, 9999⟩], [⟨9999, 9999⟩, ⟨9999, 9999⟩]]).cell 1 1 ≠
        ⟨9999, 9999⟩) :=
  ⟨by decide, allFar_result 2 2 _ (by decide) (by decide) (by decide) (by decide) 1 1
    (by decide) (by decide)⟩

/-! ## The comparison step -/

/-- C16 as stated fails: at the cell `(0, 0)` of a 1 by 1 grid the left
neighbour lies outside the grid, and `compare` with `p = FAR` and the offset
`(-1, 0)` returns the candidate `(9998, 9999)`, not `p`. -/
theorem outside_candidate_beats_far :
    ¬ (0 ≤ (0 : Int) + -1 ∧ (0 : Int) + -1 < (sized 1 1).WIDTH) ∧
      compare (sized 1 1) [[⟨9999, 9999⟩]] ⟨9999, 9999⟩ 0 0 (-1) 0 = ⟨9998, 9999⟩ := by
  decide

/-- C16, amended: when the neighbour at a sweep offset lies outside the grid,
`compare` returns `p` unchanged for every `p` with
`distSq p ≤ 2 * 9998 ^ 2 = 199920008` (every vector with both components at most
9998 in absolute value); for `p = FAR` it returns `p` unchanged exactly when
`ox + oy ≥ 0`, and the candidate `FAR + (ox, oy)` when `ox + oy < 0`. -/
theorem outside_candidate (g : SDFGenerator) (hE : g.empty = ⟨9999, 9999⟩) (grid : Grid)
    (p : Point) (x y ox oy : Int) (hox : -1 ≤ ox ∧ ox ≤ 1) (hoy : -1 ≤ oy ∧ oy ≤ 1)
    (hout : ¬ InGrid g (x + ox) (y + oy)) :
    (p.distSq ≤ 199920008 → compare g grid p x y ox oy = p) ∧
      (p = ⟨9999, 9999⟩ → 0 ≤ ox + oy → compare g grid p x y ox oy = p) ∧
      (p = ⟨9999, 9999⟩ → ox + oy < 0 →
        compare g grid p x y ox oy = ⟨9999 + ox, 9999 + oy⟩) := by
  have hc : compare g grid p x y ox oy =
      if (⟨9999 + ox, 9999 + oy⟩ : Point).distSq < p.distSq then ⟨9999 + ox, 9999 + oy⟩
      else p := by
    unfold compare
    rw [getPoint_outside _ hout, hE]
  obtain ⟨a1, a2⟩ := hox
  obtain ⟨b1, b2⟩ := hoy
  have hox' : ox = -1 ∨ ox = 0 ∨ ox = 1 := by omega
  have hoy' : oy = -1 ∨ oy = 0 ∨ oy = 1 := by omega
  refine ⟨?_, ?_, ?_⟩
  · intro hp
    rw [hc, if_neg]
    simp only [Point.distSq] at hp ⊢
    rcases hox' with h | h | h <;> rcases hoy' with k | k | k <;> subst h <;> subst k <;>
      norm_num <;> omega
  · intro hp hs
    rw [hc, if_neg]
    subst hp
    simp only [Point.distSq]
    rcases hox' with h | h | h <;> rcases hoy' with k | k | k <;> subst h <;> subst k <;>
      norm_num at hs ⊢
  · intro hp hs
    rw [hc, if_pos]
    subst hp
    simp only [Point.distSq]
    rcases hox' with h | h | h <;> rcases hoy' with k | k | k <;> subst h <;> subst k <;>
      norm_num at hs ⊢

/-- C16, amended, at a concrete input: the cell `(0, 0)` of a 1 by 1 grid, the
current vector `(0, 0)`, the offset `(-1, 0)`. -/
theorem outside_candidate_witness :
    ((⟨0, 0⟩ : Point).distSq ≤ 199920008 →
        compare (sized 1 1) [[⟨0, 0⟩]] ⟨0, 0⟩ 0 0 (-1) 0 = ⟨0, 0⟩) ∧
      ((⟨0, 0⟩ : Point) = ⟨9999, 9999⟩ → 0 ≤ (-1 : Int) + 0 →
        compare (sized 1 1) [[⟨0, 0⟩]] ⟨0, 0⟩ 0 0 (-1) 0 = ⟨0, 0⟩) ∧
      ((⟨0, 0⟩ : Point) = ⟨9999, 9999⟩ → (-1 : Int) + 0 < 0 →
        compare (sized 1 1) [[⟨0, 0⟩]] ⟨0, 0⟩ 0 0 (-1) 0 = ⟨9999 + -1, 9999 + 0⟩) :=
  outside_candidate (sized 1 1) rfl [[⟨0, 0⟩]] ⟨0, 0⟩ 0 0 (-1) 0 (by decide) (by decide)
    (by unfold InGrid; decide)

/-! ## The comparison step on machine integers -/

theorem wrapInt_eq {z : Int} (h1 : -2 ^ 63 ≤ z) (h2 : z < 2 ^ 63) : wrapInt z = z := by
  unfold wrapInt
  omega

theorem distSq64_eq {p : Point} (hx : -2 ^ 30 - 1 ≤ p.dx ∧ p.dx ≤ 2 ^ 30 + 1)
    (hy : -2 ^ 30 - 1 ≤ p.dy ∧ p.dy ≤ 2 ^ 30 + 1) : p.distSq64 = p.distSq := by
  obtain ⟨dx, dy⟩ := p
  simp only at hx hy
  unfold Point.distSq64 Point.distSq
  simp only
  have a1 : 0 ≤ dx * dx := mul_self_nonneg dx
  have a2 : dx * dx ≤ (2 ^ 30 + 1) * (2 ^ 30 + 1) := by nlinarith
  have b1 : 0 ≤ dy * dy := mul_self_nonneg dy
  have b2 : dy * dy ≤ (2 ^ 30 + 1) * (2 ^ 30 + 1) := by nlinarith
  have e1 : wrapInt (dx * dx) = dx * dx := wrapInt_eq (by omega) (by omega)
  have e2 : wrapInt (dy * dy) = dy * dy := wrapInt_eq (by omega) (by omega)
  rw [e1, e2]
  exact wrapInt_eq (by omega) (by omega)

/-- Where no operation overflows, the comparison step on machine integers is
the one on unbounded integers. -/
theorem compare64_eq_compare (g : SDFGenerator) (grid : Grid) (p : Point) (x y ox oy : Int)
    (hx : Small x) (hy : Small y) (hox : -1 ≤ ox ∧ ox ≤ 1) (hoy : -1 ≤ oy ∧ oy ≤ 1)
    (hp : Small p.dx ∧ Small p.dy)
    (hn : Small (getPoint g grid (x + ox) (y + oy)).dx ∧
      Small (getPoint g grid (x + ox) (y + oy)).dy) :
    candidate64 g grid x y ox oy = candidate g grid x y ox oy ∧
      (candidate64 g grid x y ox oy).distSq64 = (candidate g grid x y ox oy).distSq ∧
      p.distSq64 = p.distSq ∧
      compare64 g grid p x y ox oy = compare g grid p x y ox oy := by
  unfold Small at hx hy hp hn
  have ex : wrapInt (x + ox) = x + ox := wrapInt_eq (by omega) (by omega)
  have ey : wrapInt (y + oy) = y + oy := wrapInt_eq (by omega) (by omega)
  have hc : candidate64 g grid x y ox oy = candidate g grid x y ox oy := by
    unfold candidate64 candidate
    simp only
    rw [ex, ey, wrapInt_eq (by omega) (by omega), wrapInt_eq (by omega) (by omega)]
  have hcd : (candidate g grid x y ox oy).distSq64 = (candidate g grid x y ox oy).distSq := by
    apply distSq64_eq
    · unfold candidate
      simp only
      omega
    · unfold candidate
      simp only
      omega
  have hpd : p.distSq64 = p.distSq := distSq64_eq (by omega) (by omega)
  refine ⟨hc, by rw [hc, hcd], hpd, ?_⟩
  have e1 : compare64 g grid p x y ox oy =
      if (candidate64 g grid x y ox oy).distSq64 < p.distSq64 then candidate64 g grid x y ox oy
      else p := rfl
  rw [e1, compare_eq, hc, hcd, hpd]

/-- C17: on machine integers, for every well-formed grid, vector `p`, cell
`(x, y)` and offset `(ox, oy)`, `compare` returns the offset-adjusted candidate
`c = getPoint(x + ox, y + oy) + (ox, oy)` when `distSq c < distSq p`, and `p`
itself when `distSq c ≥ distSq p`; the candidate, not the raw neighbour, is
compared, and the read `grid[y][x]` of `getPoint` is in range.  Where nothing overflows (coordinates and components at most `2^30`
in absolute value, offsets in `{-1, 0, 1}`) the same holds for the
unbounded-integer `compare`, `candidate` and `distSq` used by the transform,
which then coincide with the machine versions. -/
theorem compare_strict (g : SDFGenerator) (grid : Grid) (hwf : WellFormed g grid) (p : Point)
    (x y ox oy : Int) :
    (InGrid g (wrapInt (x + ox)) (wrapInt (y + oy)) →
        (wrapInt (y + oy)).toNat < grid.length ∧
          (wrapInt (x + ox)).toNat < (grid.getD (wrapInt (y + oy)).toNat []).length) ∧
      candidate64 g grid x y ox oy =
        ⟨wrapInt ((getPoint g grid (wrapInt (x + ox)) (wrapInt (y + oy))).dx + ox),
          wrapInt ((getPoint g grid (wrapInt (x + ox)) (wrapInt (y + oy))).dy + oy)⟩ ∧
      ((candidate64 g grid x y ox oy).distSq64 < p.distSq64 →
        compare64 g grid p x y ox oy = candidate64 g grid x y ox oy) ∧
      (p.distSq64 ≤ (candidate64 g grid x y ox oy).distSq64 →
        compare64 g grid p x y ox oy = p) ∧
      (Small x → Small y → -1 ≤ ox ∧ ox ≤ 1 → -1 ≤ oy ∧ oy ≤ 1 → Small p.dx ∧ Small p.dy →
        Small (getPoint g grid (x + ox) (y + oy)).dx ∧
          Small (getPoint g grid (x + ox) (y + oy)).dy →
        ((candidate g grid x y ox oy).distSq < p.distSq →
          compare g grid p x y ox oy = candidate g grid x y ox oy) ∧
        (p.distSq ≤ (candidate g grid x y ox oy).distSq → compare g grid p x y ox oy = p) ∧
        compare64 g grid p x y ox oy = compare g grid p x y ox oy) := by
  have e1 : compare64 g grid p x y ox oy =
      if (candidate64 g grid x y ox oy).distSq64 < p.distSq64 then candidate64 g grid x y ox oy
      else p := rfl
  refine ⟨?_, rfl, ?_, ?_, ?_⟩
  · intro hin
    obtain ⟨a1, a2, a3, a4⟩ := hin
    have hy : (wrapInt (y + oy)).toNat < g.HEIGHT := by omega
    rw [row_length hwf hy, hwf.1]
    omega
  · intro h
    rw [e1, if_pos h]
  · intro h
    rw [e1, if_neg (not_lt.2 h)]
  · intro hx hy hox hoy hp hn
    refine ⟨?_, ?_, (compare64_eq_compare g grid p x y ox oy hx hy hox hoy hp hn).2.2.2⟩
    · intro h
      rw [compare_eq, if_pos h]
    · intro h
      rw [compare_eq, if_neg (not_lt.2 h)]

/-- C17 at concrete inputs.  First: the raw neighbour `(0, 0)` is shorter than
`p = (1, 0)` but the adjusted candidate `(-1, 0)` only ties with it, and `p`
stays.  Second: `p = (3037000500, 0)`, whose squared length overflows to a
negative number, so the candidate `(-1, 0)` is not smaller and `p` stays.
Third: at the first input nothing overflows and the unbounded-integer `compare`
agrees. -/
theorem compare_strict_witness :
    (WellFormed (sized 2 1) [[⟨0, 0⟩, ⟨1, 0⟩]] ∧
      (getPoint (sized 2 1) [[⟨0, 0⟩, ⟨1, 0⟩]] (wrapInt (1 + -1)) (wrapInt (0 + 0))).distSq64 <
        (⟨1, 0⟩ : Point).distSq64 ∧
      (⟨1, 0⟩ : Point).distSq64 ≤
        (candidate64 (sized 2 1) [[⟨0, 0⟩, ⟨1, 0⟩]] 1 0 (-1) 0).distSq64 ∧
      compare64 (sized 2 1) [[⟨0, 0⟩, ⟨1, 0⟩]] ⟨1, 0⟩ 1 0 (-1) 0 = ⟨1, 0⟩) ∧
    ((⟨3037000500, 0⟩ : Point).distSq64 = -9223372036709301616 ∧
      (candidate64 (sized 2 1) [[⟨0, 0⟩, ⟨1, 0⟩]] 1 0 (-1) 0).distSq64 = 1 ∧
      compare64 (sized 2 1) [[⟨0, 0⟩, ⟨1, 0⟩]] ⟨3037000500, 0⟩ 1 0 (-1) 0 =
        ⟨3037000500, 0⟩) ∧
    (((⟨1, 0⟩ : Point).distSq ≤ (candidate (sized 2 1) [[⟨0, 0⟩, ⟨1, 0⟩]] 1 0 (-1) 0).distSq →
        compare (sized 2 1) [[⟨0, 0⟩, ⟨1, 0⟩]] ⟨1, 0⟩ 1 0 (-1) 0 = ⟨1, 0⟩) ∧
      compare64 (sized 2 1) [[⟨0, 0⟩, ⟨1, 0⟩]] ⟨1, 0⟩ 1 0 (-1) 0 =
        compare (sized 2 1) [[⟨0, 0⟩, ⟨1, 0⟩]] ⟨1, 0⟩ 1 0 (-1) 0) :=
  ⟨⟨by decide, by decide, by decide,
      (compare_strict (sized 2 1) [[⟨0, 0⟩, ⟨1, 0⟩]] (by decide) ⟨1, 0⟩ 1 0 (-1) 0).2.2.2.1
        (by decide)⟩,
    ⟨by decide, by decide,
      (compare_strict (sized 2 1) [[⟨0, 0⟩, ⟨1, 0⟩]] (by decide) ⟨3037000500, 0⟩ 1 0 (-1)
        0).2.2.2.1 (by decide)⟩,
    ((compare_strict (sized 2 1) [[⟨0, 0⟩, ⟨1, 0⟩]] (by decide) ⟨1, 0⟩ 1 0 (-1) 0).2.2.2.2
      (by decide) (by decide) (by decide) (by decide) (by decide) (by decide)).2⟩

/-! ## Seeds and zero vectors -/

/-- C18: for a grid of `INSIDE` and `FAR` cells with `WIDTH ≤ 9998` (in
particular for `1 ≤ WIDTH, HEIGHT ≤ 4096`), after `generateSDF` a cell holds
`(0, 0)` if and only if it was `INSIDE` in the input. -/
theorem zero_iff_seed (W H : Nat) (grid : Grid) (hW : W ≤ 9998)
    (hwf : WellFormed (sized W H) grid) (hcells : IsSeedGrid grid)
    (x y : Nat) (hx : x < W) (hy : y < H) :
    (generateSDF (sized W H) grid).cell x y = ⟨0, 0⟩ ↔ grid.cell x y = ⟨0, 0⟩ := by
  have hs := seedCells_of_isSeedGrid hwf hcells
  constructor
  · intro hz
    have hc := hs x y (inGrid_nat (g := sized W H) hx hy)
    rw [getPoint_nat _ (show x < (sized W H).WIDTH from hx)
      (show y < (sized W H).HEIGHT from hy)] at hc
    rcases hc with hc | hc
    · exact hc
    · exact absurd hz (far_cell_nonzero (g := sized W H) hwf rfl
        hW hs hx hy hc)
  · intro h0
    exact point_of_distSq_zero (seed_stays_zero (g := sized W H) hwf rfl hs hx hy h0)

set_option maxRecDepth 100000 in
/-- C18 at a concrete input: the 2 by 1 grid `[INSIDE, FAR]`, read at its `FAR`
cell, which ends as `(-1, 0)`. -/
theorem zero_iff_seed_witness :
    WellFormed (sized 2 1) [[⟨0, 0⟩, ⟨9999, 9999⟩]] ∧
      IsSeedGrid [[⟨0, 0⟩, ⟨9999, 9999⟩]] ∧
      ((generateSDF (sized 2 1) [[⟨0, 0⟩, ⟨9999, 9999⟩]]).cell 1 0 = ⟨0, 0⟩ ↔
        Grid.cell [[⟨0, 0⟩, ⟨9999, 9999⟩]] 1 0 = ⟨0, 0⟩) :=
  ⟨by decide, by decide, zero_iff_seed 2 1 _ (by decide) (by decide) (by decide)
    1 0 (by decide) (by decide)⟩

/-! ## The classifier -/

theorem greenAt_eq (img : Image) (x y : Nat) (h : (img.RGBAAt x y).G < 256) :
    greenAt img x y = (img.RGBAAt x y).G := by
  unfold greenAt
  simp only [Nat.shiftRight_eq_div_pow]
  have e : (img.RGBAAt x y).G * 257 / 2 ^ 8 = (img.RGBAAt x y).G := by
    norm_num
    omega
  rw [e, Nat.mod_eq_of_lt h]

/-- C15: at every pixel with 8-bit green value `v`, the classifier stores `FAR`
in `grid1` and `INSIDE` in `grid2` when `v < 128`, and `INSIDE` in `grid1` and
`FAR` in `grid2` when `v ≥ 128`; `FAR` and `INSIDE` are the generator's
`empty = (9999, 9999)` and `inside = (0, 0)`. -/
theorem classifier_cells (img : Image) (x y : Nat) (hx : x < img.width) (hy : y < img.height)
    (v : Nat) (hv : (img.RGBAAt x y).G = v) (h8 : v < 256) :
    (sized img.width img.height).empty = ⟨9999, 9999⟩ ∧
      (sized img.width img.height).inside = ⟨0, 0⟩ ∧
      (v < 128 →
        (initGrids (sized img.width img.height) img).1.cell x y = ⟨9999, 9999⟩ ∧
          (initGrids (sized img.width img.height) img).2.cell x y = ⟨0, 0⟩) ∧
      (128 ≤ v →
        (initGrids (sized img.width img.height) img).1.cell x y = ⟨0, 0⟩ ∧
          (initGrids (sized img.width img.height) img).2.cell x y = ⟨9999, 9999⟩) := by
  have hg : greenAt img x y = v := by rw [greenAt_eq img x y (by omega), hv]
  refine ⟨rfl, rfl, ?_, ?_⟩
  · intro h
    rw [cell_initGrids_fst img hx hy, cell_initGrids_snd img hx hy, hg, if_pos h, if_pos h]
    exact ⟨rfl, rfl⟩
  · intro h
    rw [cell_initGrids_fst img hx hy, cell_initGrids_snd img hx hy, hg,
      if_neg (by omega), if_neg (by omega)]
    exact ⟨rfl, rfl⟩

/-- C15 at a concrete input: the white pixel `(1, 0)` of the 2 by 1 image. -/
theorem classifier_cells_witness :
    ((stripe 1).RGBAAt 1 0).G = 255 ∧
      ((sized (stripe 1).width (stripe 1).height).empty = ⟨9999, 9999⟩ ∧
      (sized (stripe 1).width (stripe 1).height).inside = ⟨0, 0⟩ ∧
      (255 < 128 →
        (initGrids (sized (stripe 1).width (stripe 1).height) (stripe 1)).1.cell 1 0 =
            ⟨9999, 9999⟩ ∧
          (initGrids (sized (stripe 1).width (stripe 1).height) (stripe 1)).2.cell 1 0 =
            ⟨0, 0⟩) ∧
      (128 ≤ 255 →
        (initGrids (sized (stripe 1).width (stripe 1).height) (stripe 1)).1.cell 1 0 = ⟨0, 0⟩ ∧
          (initGrids (sized (stripe 1).width (stripe 1).height) (stripe 1)).2.cell 1 0 =
            ⟨9999, 9999⟩)) :=
  ⟨by decide, classifier_cells (stripe 1) 1 0 (by decide) (by decide) 255 (by decide)
    (by decide)⟩

/-! ## Images of one class -/

/-- The square root is at least `m` from `m * m` on. -/
theorem sqrt64_ge (m n : Nat) (hm : m < 2 ^ 32) (hn : n < 2 ^ 64) (h : m * m ≤ n) :
    (m : ℚ) ≤ sqrt64 n := by
  unfold sqrt64
  simp only
  have hspec := isqrtAux_spec 96 (n * 4 ^ 64) 0 (Nat.zero_le _) (by
    have h2 : n * 4 ^ 64 < 2 ^ 64 * 4 ^ 64 := Nat.mul_lt_mul_of_pos_right hn (by positivity)
    calc n * 4 ^ 64 < 2 ^ 64 * 4 ^ 64 := h2
      _ = (0 + 2 ^ 96) * (0 + 2 ^ 96) := by norm_num)
  generalize isqrtAux 96 (n * 4 ^ 64) 0 = s at hspec ⊢
  obtain ⟨-, h2⟩ := hspec
  have hs : m * 2 ^ 64 ≤ s := by
    by_contra hc
    have a1 : (s + 1) * (s + 1) ≤ (m * 2 ^ 64) * (m * 2 ^ 64) :=
      Nat.mul_le_mul (by omega) (by omega)
    have e : (m * 2 ^ 64) * (m * 2 ^ 64) = m * m * 4 ^ 64 := by
      have : (4 : ℕ) ^ 64 = 2 ^ 64 * 2 ^ 64 := by norm_num
      rw [this]
      ring
    have a2 : m * m * 4 ^ 64 ≤ n * 4 ^ 64 := Nat.mul_le_mul_right _ h
    omega
  have hq : (m : ℚ) ≤ (s : ℚ) / 2 ^ 64 := by
    rw [le_div_iff₀ (by positivity)]
    exact_mod_cast hs
  have hm' : f64 (m : ℚ) = m := f64_natCast m (by
    calc m < 2 ^ 32 := hm
      _ < 2 ^ 53 := by norm_num)
  split
  · calc (m : ℚ) = f64 m := hm'.symm
      _ ≤ f64 (s / 2 ^ 64) := f64_mono hq
  · have hq2 : (m : ℚ) ≤ (2 * (s : ℚ) + 1) / 2 ^ 65 := by
      have e : (s : ℚ) / 2 ^ 64 ≤ (2 * (s : ℚ) + 1) / 2 ^ 65 := by
        rw [div_le_div_iff₀ (by positivity) (by positivity)]
        have hs0 : (0 : ℚ) ≤ s := Nat.cast_nonneg s
        nlinarith
      exact hq.trans e
    calc (m : ℚ) = f64 m := hm'.symm
      _ ≤ f64 ((2 * (s : ℚ) + 1) / 2 ^ 65) := f64_mono hq2

/-- A cell far from every seed in `grid1` and a seed in `grid2`: the signed
distance is at least 5903. -/
theorem signedDist_far_pos {p1 p2 : Point} (h1 : 34845409 ≤ p1.distSq)
    (h1' : p1.distSq < 2 ^ 40) (h2 : p2.distSq = 0) : 5903 ≤ signedDist p1 p2 := by
  unfold signedDist fsub
  simp only
  rw [h2, Int.toNat_zero, sqrt64_zero, sub_zero]
  have hs := sqrt64_ge 5903 p1.distSq.toNat (by norm_num) (by omega) (by omega)
  have := f64_mono hs
  rw [f64_natCast 5903 (by norm_num)] at this
  exact_mod_cast this

/-- A seed in `grid1` and a cell far from every seed in `grid2`: the signed
distance is at most -5903. -/
theorem signedDist_far_neg {p1 p2 : Point} (h1 : p1.distSq = 0)
    (h2 : 34845409 ≤ p2.distSq) (h2' : p2.distSq < 2 ^ 40) : signedDist p1 p2 ≤ -5903 := by
  unfold signedDist fsub
  simp only
  rw [h1, Int.toNat_zero, sqrt64_zero, zero_sub]
  have hs := sqrt64_ge 5903 p2.distSq.toNat (by norm_num) (by omega) (by omega)
  have hle : -sqrt64 p2.distSq.toNat ≤ ((-5903 : ℤ) : ℚ) := by
    push_cast at hs ⊢
    linarith
  have := f64_mono hle
  rw [f64_intCast (-5903) (by norm_num)] at this
  exact_mod_cast this

/-- The divisor `maxExpectedDist` is at most 683 for heights up to 4096. -/
theorem maxExpectedDist_le {HEIGHT : Nat} (h : HEIGHT ≤ 4096) : fdiv (f64 HEIGHT) 6 ≤ 683 := by
  unfold fdiv
  rw [f64_natCast HEIGHT (by omega)]
  have h1 : (HEIGHT : ℚ) / 6 ≤ ((683 : ℕ) : ℚ) := by
    have : (HEIGHT : ℚ) ≤ 4096 := by exact_mod_cast h
    rw [div_le_iff₀ (by norm_num)]
    push_cast
    linarith
  have := f64_mono h1
  rw [f64_natCast 683 (by norm_num)] at this
  exact_mod_cast this

/-- A signed distance of at least 683 saturates the intensity at 255. -/
theorem intensityOf_high {HEIGHT : Nat} (h1 : 0 < HEIGHT) (h2 : HEIGHT ≤ 4096) {d : ℚ}
    (hd : 683 ≤ d) : intensityOf HEIGHT d = 255 := by
  unfold intensityOf
  simp only
  have hm := maxExpectedDist_pos h1
  have hm' := maxExpectedDist_le h2
  have hn : 1 ≤ fdiv d (fdiv (f64 HEIGHT) 6) := by
    generalize fdiv (f64 HEIGHT) 6 = m at hm hm'
    unfold fdiv
    have hq : ((1 : ℕ) : ℚ) ≤ d / m := by
      rw [le_div_iff₀ hm]
      push_cast
      linarith
    have := f64_mono hq
    rw [f64_natCast 1 (by norm_num)] at this
    exact_mod_cast this
  have hs := scale_mono hn
  rw [scale_one] at hs
  rw [min_eq_left hs, max_eq_right (by norm_num)]
  exact toUint8_natCast 255 (by norm_num)

/-- A signed distance of at most -683 saturates the intensity at 0. -/
theorem intensityOf_low {HEIGHT : Nat} (h1 : 0 < HEIGHT) (h2 : HEIGHT ≤ 4096) {d : ℚ}
    (hd : d ≤ -683) : intensityOf HEIGHT d = 0 := by
  unfold intensityOf
  simp only
  have hm := maxExpectedDist_pos h1
  have hm' := maxExpectedDist_le h2
  have hn : fdiv d (fdiv (f64 HEIGHT) 6) ≤ -1 := by
    generalize fdiv (f64 HEIGHT) 6 = m at hm hm'
    unfold fdiv
    have hq : d / m ≤ ((-1 : ℤ) : ℚ) := by
      rw [div_le_iff₀ hm]
      push_cast
      linarith
    have := f64_mono hq
    rw [f64_intCast (-1) (by norm_num)] at this
    exact_mod_cast this
  have hs := scale_mono hn
  rw [scale_neg_one] at hs
  rw [min_eq_right (hs.trans (by norm_num)), max_eq_left hs]
  exact toUint8_natCast 0 (by norm_num)

/-- The output cell of a seedless initial grid is at least 5903 long. -/
theorem allFar_distSq {g : SDFGenerator} {grid : Grid} (hwf : WellFormed g grid)
    (hE : g.empty = ⟨9999, 9999⟩) (hW : g.WIDTH ≤ 4096) (hH : g.HEIGHT ≤ 4096)
    (hfar : ∀ x, x < g.WIDTH → ∀ y, y < g.HEIGHT → grid.cell x y = ⟨9999, 9999⟩)
    {x y : Nat} (hx : x < g.WIDTH) (hy : y < g.HEIGHT) :
    34845409 ≤ ((generateSDF g grid).cell x y).distSq ∧
      ((generateSDF g grid).cell x y).distSq < 2 ^ 40 := by
  have h := allFar_cell hwf hE (by omega) (by omega) hfar (x + y) x y le_rfl hx hy
  rw [getPoint_nat _ hx hy] at h
  rw [h]
  simp only [Point.distSq]
  have a1 : (5903 : Int) ≤ 9998 - x := by omega
  have a2 : (9998 : Int) - x ≤ 9998 := by omega
  have b1 : (5903 : Int) ≤ 9998 - y := by omega
  have b2 : (9998 : Int) - y ≤ 9998 := by omega
  constructor
  · nlinarith
  · nlinarith

/-- C14: for every image with `1 ≤ WIDTH, HEIGHT ≤ 4096`, `GenerateFromImage`
returns an image of the same size; when every pixel is background
(green `< 128`) every output pixel is `(255, 255, 255, 255)`, and when every
pixel is foreground every output pixel is `(0, 0, 0, 255)`. -/
theorem degenerate_saturates (img : Image) (hW : 1 ≤ img.width ∧ img.width ≤ 4096)
    (hH : 1 ≤ img.height ∧ img.height ≤ 4096) :
    (GenerateFromImage img).width = img.width ∧
      (GenerateFromImage img).height = img.height ∧
      ((∀ x, x < img.width → ∀ y, y < img.height → greenAt img x y < 128) →
        ∀ x, x < img.width → ∀ y, y < img.height →
          (GenerateFromImage img).RGBAAt x y = ⟨255, 255, 255, 255⟩) ∧
      ((∀ x, x < img.width → ∀ y, y < img.height → 128 ≤ greenAt img x y) →
        ∀ x, x < img.width → ∀ y, y < img.height →
          (GenerateFromImage img).RGBAAt x y = ⟨0, 0, 0, 255⟩) := by
  obtain ⟨w1, w2⟩ := wellFormed_initGrids img
  obtain ⟨s1, s2⟩ := seedCells_initGrids img
  refine ⟨rfl, rfl, ?_, ?_⟩
  · intro hall x hx y hy
    have hfar : ∀ x, x < (sized img.width img.height).WIDTH →
        ∀ y, y < (sized img.width img.height).HEIGHT →
        (initGrids (sized img.width img.height) img).1.cell x y = ⟨9999, 9999⟩ := by
      intro x hx y hy
      rw [cell_initGrids_fst img hx hy, if_pos (hall x hx y hy)]
    obtain ⟨d1, d2⟩ := allFar_distSq (g := sized img.width img.height) w1 rfl hW.2 hH.2 hfar
      hx hy
    have z := seed_stays_zero (g := sized img.width img.height) w2 rfl s2 hx hy
      (by rw [cell_initGrids_snd img hx hy, if_pos (hall x hx y hy)])
    have hd : 5903 ≤ signedDistAt img x y := signedDist_far_pos d1 d2 z
    rw [RGBAAt_GenerateFromImage img hx hy,
      intensityOf_high (by omega) hH.2 (le_trans (by norm_num) hd)]
  · intro hall x hx y hy
    have hfar : ∀ x, x < (sized img.width img.height).WIDTH →
        ∀ y, y < (sized img.width img.height).HEIGHT →
        (initGrids (sized img.width img.height) img).2.cell x y = ⟨9999, 9999⟩ := by
      intro x hx y hy
      rw [cell_initGrids_snd img hx hy, if_neg (by have := hall x hx y hy; omega)]
    obtain ⟨d1, d2⟩ := allFar_distSq (g := sized img.width img.height) w2 rfl hW.2 hH.2 hfar
      hx hy
    have z := seed_stays_zero (g := sized img.width img.height) w1 rfl s1 hx hy
      (by rw [cell_initGrids_fst img hx hy, if_neg (by have := hall x hx y hy; omega)])
    have hd : signedDistAt img x y ≤ -5903 := signedDist_far_neg z d1 d2
    rw [RGBAAt_GenerateFromImage img hx hy,
      intensityOf_low (by omega) hH.2 (le_trans hd (by norm_num))]

/-- C14 at concrete inputs: the all-black and the all-white 2 by 2 image. -/
theorem degenerate_saturates_witness :
    ((∀ x, x < (plain 2 2 0).width → ∀ y, y < (plain 2 2 0).height →
        greenAt (plain 2 2 0) x y < 128) ∧
      ∀ x, x < (plain 2 2 0).width → ∀ y, y < (plain 2 2 0).height →
        (GenerateFromImage (plain 2 2 0)).RGBAAt x y = ⟨255, 255, 255, 255⟩) ∧
    ((∀ x, x < (plain 2 2 255).width → ∀ y, y < (plain 2 2 255).height →
        128 ≤ greenAt (plain 2 2 255) x y) ∧
      ∀ x, x < (plain 2 2 255).width → ∀ y, y < (plain 2 2 255).height →
        (GenerateFromImage (plain 2 2 255)).RGBAAt x y = ⟨0, 0, 0, 255⟩) :=
  ⟨⟨by decide, (degenerate_saturates (plain 2 2 0) (by decide) (by decide)).2.2.1 (by decide)⟩,
    ⟨by decide,
      (degenerate_saturates (plain 2 2 255) (by decide) (by decide)).2.2.2 (by decide)⟩⟩

/-! ## The branches of the pairwise rule -/

/-- `blendValue` computes its result in the branch `blendBranch` names. -/
theorem blendValue_branch (r1 r2 : Nat) :
    blendValue r1 r2 =
      toUint8 (fmul (match blendBranch r1 r2 with
        | Branch.aNegative => 1
        | Branch.bPositive => 0
        | Branch.interpolate => fdiv |decodeSDF r2| (fadd |decodeSDF r1| |decodeSDF r2|)
        | Branch.fallback => 0) 255) := by
  unfold blendValue blendBranch decodeSDF
  simp only
  split_ifs <;> rfl

/-- A decoded sample is negative up to 127 and positive from 128 on. -/
theorem decodeSDF_sign (v : Nat) (hv : v < 256) :
    (v ≤ 127 → decodeSDF v < 0) ∧ (128 ≤ v → 0 < decodeSDF v) := by
  have h := abs_le.1 (decode_err v hv)
  unfold decodeSDF
  generalize fsub (fmul (fdiv (f64 v) 255) 2) 1 = s at h
  obtain ⟨h1, h2⟩ := h
  constructor
  · intro hle
    have : (v : ℚ) ≤ 127 := by exact_mod_cast hle
    have e : (v : ℚ) / 255 * 2 - 1 ≤ -(1 / 255) := by
      rw [show (v : ℚ) / 255 * 2 - 1 = (2 * v - 255) / 255 by ring, div_le_iff₀ (by norm_num)]
      linarith
    have c : (4 : ℚ) / 2 ^ 40 < 1 / 255 := by norm_num
    linarith
  · intro hge
    have : (128 : ℚ) ≤ v := by exact_mod_cast hge
    have e : 1 / 255 ≤ (v : ℚ) / 255 * 2 - 1 := by
      rw [show (v : ℚ) / 255 * 2 - 1 = (2 * v - 255) / 255 by ring, le_div_iff₀ (by norm_num)]
      linarith
    have c : (4 : ℚ) / 2 ^ 40 < 1 / 255 := by norm_num
    linarith

/-- C19: for all 8-bit intensities `a` and `b` the decoded values `sA` and `sB`
are not 0, one of the first three conditions of `blendPair` holds, and the
final `else` branch is not taken. -/
theorem fallback_unreachable (a b : Nat) (ha : a < 256) (hb : b < 256) :
    decodeSDF a ≠ 0 ∧ decodeSDF b ≠ 0 ∧
      (decodeSDF a < 0 ∨ decodeSDF b > 0 ∨ (decodeSDF a > 0 ∧ decodeSDF b < 0)) ∧
      blendBranch a b ≠ Branch.fallback := by
  obtain ⟨a1, a2⟩ := decodeSDF_sign a ha
  obtain ⟨b1, b2⟩ := decodeSDF_sign b hb
  have hA : decodeSDF a < 0 ∨ 0 < decodeSDF a := by
    rcases Nat.lt_or_ge a 128 with h | h
    · exact Or.inl (a1 (by omega))
    · exact Or.inr (a2 h)
  have hB : decodeSDF b < 0 ∨ 0 < decodeSDF b := by
    rcases Nat.lt_or_ge b 128 with h | h
    · exact Or.inl (b1 (by omega))
    · exact Or.inr (b2 h)
  refine ⟨?_, ?_, ?_, ?_⟩
  · rcases hA with h | h
    · exact ne_of_lt h
    · exact ne_of_gt h
  · rcases hB with h | h
    · exact ne_of_lt h
    · exact ne_of_gt h
  · rcases hA with h | h
    · exact Or.inl h
    · rcases hB with k | k
      · exact Or.inr (Or.inr ⟨h, k⟩)
      · exact Or.inr (Or.inl k)
  · unfold blendBranch
    simp only
    rcases hA with h | h
    · rw [if_pos h]
      simp
    · rw [if_neg (not_lt.2 h.le)]
      rcases hB with k | k
      · rw [if_neg (not_lt.2 k.le), if_pos ⟨h, k⟩]
        simp
      · rw [if_pos k]
        simp

/-- C19 at a concrete input: the samples 128 and 127, closest to the middle. -/
theorem fallback_unreachable_witness :
    decodeSDF 128 ≠ 0 ∧ decodeSDF 127 ≠ 0 ∧
      (decodeSDF 128 < 0 ∨ decodeSDF 127 > 0 ∨ (decodeSDF 128 > 0 ∧ decodeSDF 127 < 0)) ∧
      blendBranch 128 127 ≠ Branch.fallback :=
  fallback_unreachable 128 127 (by decide) (by decide)

end SDF
